import Mathlib

/-!
# Verification of the Leo compiler front-end excerpt

A shallow embedding, in Lean 4, of the parts of the Leo compiler front end
(parser, canonicalization pass, IR emitter) that the specification's testable
properties talk about, together with proofs settling those properties.

The embedding follows the Rust sources:
  * `compiler/passes/src/canonicalization/canonicalizer.rs` (namespace `Leo.Canon`)
  * `compiler/parser/src/parser/expression.rs`, `parser/mod.rs` (namespace `Leo.Parser`)
  * `compiler/passes/src/ir_emitter/*` (namespace `Leo.Ir`)

Rust conventions are translated as follows: `Result<T, E>` becomes
`Except Err T`; a Rust panic (`unwrap`, `unimplemented!`, `unreachable!`,
out-of-bounds indexing) is a distinct `panic` outcome, never an ordinary
error value; `Vec<T>` becomes `List T` with `push` appending at the end;
machine integers that only serve as identifiers or sizes become `Nat`.
Struct fields keep their source names (`snake_case` turned `camelCase`).
-/

namespace Leo
namespace Canon

/-- Source span, with the fields the canonicalizer reads
(`leo_span::Span` of the canonicalization-era AST).
`content` is the source line's byte view (Rust `String::into_bytes`). -/
structure Span where
  lineStart : Nat
  lineStop : Nat
  colStart : Nat
  colStop : Nat
  path : String
  content : List UInt8
  deriving Repr, DecidableEq

/-- An identifier with its span (`leo_ast::Identifier`). -/
structure Identifier where
  name : String
  span : Span
  deriving Repr, DecidableEq

/-- `leo_ast::IntegerType`. -/
inductive IntegerType where
  | u8 | u16 | u32 | u64 | u128
  | i8 | i16 | i32 | i64 | i128
  deriving Repr, DecidableEq

/-- `leo_ast::Type` of the canonicalization-era AST.  `ArrayDimensions` is a
vector of dimensions; each `PositiveNumber` dimension is modelled by its
numeric value, so the dimension list is a `List Nat`. -/
inductive Ty where
  | address
  | boolean
  | char
  | field
  | group
  | integer (i : IntegerType)
  | array (elem : Ty) (dims : List Nat)
  | tuple (elems : List Ty)
  | identifier (id : Identifier)
  | selfType
  | err
  deriving Repr

/-- Canonicalization failure: the `AstError` constructors the pass can raise,
plus a `panic` outcome for Rust panics (`unwrap` on `None`, `unreachable!`,
out-of-bounds indexing). -/
inductive CErr where
  | invalidArrayDimensionSize (span : Span)
  | bigSelfOutsideOfCircuit (span : Span)
  | invalidTupleDimensionSize (span : Span)
  | emptyString (span : Span)
  | panic (msg : String)
  deriving Repr, DecidableEq

/-- `Canonicalizer::reduce_type` (canonicalizer.rs lines 519-535): the
reducer hook applied to a type node whose children are already reduced.
An array with an empty dimension list is kept as is; a zero dimension is
an error (`ArrayDimensions::is_zero`: some dimension equals zero);
otherwise the dimension list folds into nested single-dimension arrays,
innermost dimension first.  `Self` outside a circuit is an error.
A 1-tuple is an error. -/
def reduceType (inCircuit : Bool) (new : Ty) (span : Span) : Except CErr Ty :=
  match new with
  | .array base dims =>
    if dims.isEmpty then .ok (.array base dims)
    else if dims.contains 0 then .error (.invalidArrayDimensionSize span)
    else
      match dims.reverse with
      | [] => .ok (.array base dims) -- unreachable: guarded by `dims.isEmpty`
      | d :: rest => .ok (rest.foldl (fun ty dim => Ty.array ty [dim]) (Ty.array base [d]))
  | .selfType => if !inCircuit then .error (.bigSelfOutsideOfCircuit span) else .ok .selfType
  | .tuple types =>
    if types.length == 1 then .error (.invalidTupleDimensionSize span) else .ok (.tuple types)
  | t => .ok t

mutual
/-- `Canonicalizer::canonicalize_self_type` (canonicalizer.rs lines 109-118):
replace `Self` by the current circuit name, recursing into array and tuple
types.  The Rust code calls `self.circuit_name.as_ref().unwrap()`; with no
circuit name in scope that is a panic, modelled as the `panic` error. -/
def canonicalizeSelfType (circuitName : Option Identifier) : Ty → Except CErr Ty
  | .selfType =>
    match circuitName with
    | some n => .ok (.identifier n)
    | none => .error (.panic "called Option::unwrap on a None value")
  | .array t dims => do
    let t' ← canonicalizeSelfType circuitName t
    .ok (.array t' dims)
  | .tuple types => do
    let types' ← canonicalizeSelfTypeList circuitName types
    .ok (.tuple types')
  | t => .ok t

/-- `types.iter().map(...)` inside `canonicalize_self_type`'s tuple case. -/
def canonicalizeSelfTypeList (circuitName : Option Identifier) :
    List Ty → Except CErr (List Ty)
  | [] => .ok []
  | t :: ts => do
    let t' ← canonicalizeSelfType circuitName t
    let ts' ← canonicalizeSelfTypeList circuitName ts
    .ok (t' :: ts')
end

mutual
/-- Whether a type contains no `SelfType` node. -/
def Ty.noSelf : Ty → Bool
  | .selfType => false
  | .array t _ => t.noSelf
  | .tuple ts => tyListNoSelf ts
  | _ => true

def tyListNoSelf : List Ty → Bool
  | [] => true
  | t :: ts => t.noSelf && tyListNoSelf ts
end

mutual
/-- Modelled from the spec: the reduction driver (`ReconstructingDirector`,
not under `src/`) rebuilds every type node from its already-reduced children
and hands each rebuilt node to the `Canonicalizer::reduce_type` hook, with the
span of the enclosing AST node.  Per the spec, "every node is rebuilt from its
(already-canonicalized) children plus node-local policy". -/
def dirType (inCircuit : Bool) (span : Span) : Ty → Except CErr Ty
  | .array elem dims => do
    let elem' ← dirType inCircuit span elem
    reduceType inCircuit (.array elem' dims) span
  | .tuple types => do
    let types' ← dirTypeList inCircuit span types
    reduceType inCircuit (.tuple types') span
  | t => reduceType inCircuit t span

def dirTypeList (inCircuit : Bool) (span : Span) : List Ty → Except CErr (List Ty)
  | [] => .ok []
  | t :: ts => do
    let t' ← dirType inCircuit span t
    let ts' ← dirTypeList inCircuit span ts
    .ok (t' :: ts')
end

/-- `leo_ast::Char`: a scalar character or a non-scalar code point. -/
inductive LChar where
  | scalar (c : Char)
  | nonScalar (n : Nat)
  deriving Repr, DecidableEq

/-- `leo_ast::CharValue`. -/
structure CharValue where
  character : LChar
  span : Span
  deriving Repr, DecidableEq

/-- `leo_ast::GroupCoordinate`. -/
inductive GroupCoordinate where
  | number (v : String) (span : Span)
  | signHigh
  | signLow
  | inferred
  deriving Repr, DecidableEq

/-- `leo_ast::GroupTuple`. -/
structure GroupTuple where
  x : GroupCoordinate
  y : GroupCoordinate
  span : Span
  deriving Repr, DecidableEq

/-- `leo_ast::GroupValue`. -/
inductive GroupValue where
  | single (v : String) (span : Span)
  | tuple (t : GroupTuple)
  deriving Repr, DecidableEq

/-- `leo_ast::ValueExpression` of the canonicalization-era AST.  Numeric
literals keep their textual form, as in the source. -/
inductive ValueExpression where
  | address (v : String) (span : Span)
  | boolean (v : String) (span : Span)
  | char (c : CharValue)
  | field (v : String) (span : Span)
  | group (g : GroupValue)
  | integer (t : IntegerType) (v : String) (span : Span)
  | string (s : List LChar) (span : Span)
  deriving Repr, DecidableEq

/-- `leo_ast::BinaryOperation` of the canonicalization-era AST. -/
inductive BinaryOperation where
  | add | sub | mul | div | pow | or | and
  | bitOr | bitAnd | bitXor | shr | shrSigned | shl | mod
  | eq | ne | lt | le | gt | ge
  deriving Repr, DecidableEq

/-- `leo_ast::UnaryOperation` of the canonicalization-era AST. -/
inductive UnaryOperation where
  | not
  | negate
  | bitNot
  deriving Repr, DecidableEq

/-- `leo_ast::AssignOperation`. -/
inductive AssignOperation where
  | assign | add | sub | mul | div | pow | or | and
  | bitOr | bitAnd | bitXor | shr | shrSigned | shl | mod
  deriving Repr, DecidableEq

/- The expression family of the canonicalization-era AST
(`leo_ast::Expression`, `AccessExpression`, `SpreadOrExpression`,
`CircuitVariableInitializer`).  The per-variant structs
(`BinaryExpression`, `ArrayAccess`, ...) are inlined as constructor
fields, in source field order.  A tuple access index (`PositiveNumber`)
is modelled by its textual value. -/
mutual
inductive Expression where
  | identifier (id : Identifier)
  | value (v : ValueExpression)
  | binary (left right : Expression) (op : BinaryOperation) (span : Span)
  | unary (inner : Expression) (op : UnaryOperation) (span : Span)
  | ternary (condition ifTrue ifFalse : Expression) (span : Span)
  | cast (inner : Expression) (targetType : Ty) (span : Span)
  | access (a : AccessExpression)
  | arrayInline (elements : List SpreadOrExpression) (span : Span)
  | arrayInit (dimensions : List Nat) (element : Expression) (span : Span)
  | tupleInit (elements : List Expression) (span : Span)
  | circuitInit (name : Identifier) (members : List CircuitVariableInitializer) (span : Span)
  | call (function : Expression) (arguments : List Expression) (span : Span)
  | err (span : Span)

inductive AccessExpression where
  | array (array index : Expression) (span : Span)
  | arrayRange (array : Expression) (left right : Option Expression) (span : Span)
  | member (inner : Expression) (name : Identifier) (span : Span) (type_ : Option Ty)
  | tuple (tuple : Expression) (index : String) (span : Span)
  | static (inner : Expression) (name : Identifier) (type_ : Ty) (span : Span)

inductive SpreadOrExpression where
  | expression (e : Expression)
  | spread (e : Expression)

inductive CircuitVariableInitializer where
  | mk (identifier : Identifier) (expression : Option Expression)
end

/-- Accessor for `CircuitVariableInitializer.identifier`. -/
def CircuitVariableInitializer.identifier : CircuitVariableInitializer → Identifier
  | .mk id _ => id

/-- Accessor for `CircuitVariableInitializer.expression`. -/
def CircuitVariableInitializer.expression : CircuitVariableInitializer → Option Expression
  | .mk _ e => e

/-- `leo_ast::AssigneeAccess`. -/
inductive AssigneeAccess where
  | arrayRange (left right : Option Expression)
  | arrayIndex (index : Expression)
  | tuple (index : String) (span : Span)
  | member (id : Identifier)

/-- `leo_ast::Assignee`. -/
structure Assignee where
  identifier : Identifier
  accesses : List AssigneeAccess
  span : Span

/-- `leo_ast::AssignStatement`. -/
structure AssignStatement where
  operation : AssignOperation
  assignee : Assignee
  value : Expression
  span : Span

/-- `leo_ast::Declare` (`let` / `const`). -/
inductive Declare where
  | constDecl
  | letDecl
  deriving Repr, DecidableEq

/-- `leo_ast::VariableName`. -/
structure VariableName where
  mutable : Bool
  identifier : Identifier
  span : Span
  deriving Repr, DecidableEq

/-- `leo_ast::DefinitionStatement`. -/
structure DefinitionStatement where
  declarationType : Declare
  variableNames : List VariableName
  type_ : Ty
  value : Expression
  span : Span

/-- `leo_ast::ConsoleArgs`. -/
structure ConsoleArgs where
  string : List LChar
  parameters : List Expression
  span : Span

/-- `leo_ast::ConsoleFunction`. -/
inductive ConsoleFunction where
  | assert (e : Expression)
  | error (args : ConsoleArgs)
  | log (args : ConsoleArgs)

/- The statement family (`leo_ast::Statement`, `Block`).  The per-variant
structs (`ReturnStatement`, `ConditionalStatement`, `IterationStatement`,
`ConsoleStatement`, `ExpressionStatement`) are inlined as constructor
fields, in source field order; `variable'` stands for the Rust field
`variable` (a Lean keyword). -/
mutual
inductive Statement where
  | ret (expression : Expression) (span : Span)
  | definition (d : DefinitionStatement)
  | assign (a : AssignStatement)
  | conditional (condition : Expression) (block : Block) (next : Option Statement) (span : Span)
  | iteration (variable' : Identifier) (type_ : Ty) (start stop : Expression)
      (inclusive : Bool) (block : Block) (span : Span)
  | console (function : ConsoleFunction) (span : Span)
  | expression (expression : Expression) (span : Span)
  | block (b : Block)

inductive Block where
  | mk (statements : List Statement) (span : Span)
end

/-- Accessor for `Block.statements`. -/
def Block.statements : Block → List Statement
  | .mk ss _ => ss

/-- Accessor for `Block.span`. -/
def Block.span : Block → Span
  | .mk _ sp => sp

/-- `leo_ast::Annotation` (named `Annot` here because the source name embeds
a Lean keyword). -/
structure Annot where
  name : String
  arguments : List String
  span : Span
  deriving Repr, DecidableEq

/-- `leo_ast::FunctionInputVariable`. -/
structure FunctionInputVariable where
  identifier : Identifier
  const_ : Bool
  mutable : Bool
  type_ : Ty
  span : Span

/-- `leo_ast::FunctionInput`; `variable'` stands for the Rust variant
`Variable` (a Lean keyword). -/
inductive FunctionInput where
  | variable' (v : FunctionInputVariable)
  | inputKeyword (span : Span)
  | selfKeyword (span : Span)
  | constSelfKeyword (span : Span)
  | mutSelfKeyword (span : Span)

/-- `leo_ast::Function` (named `Func` here to avoid shadowing Lean's
`Function` namespace).  `core_mapping` is a `RefCell<Option<String>>` in the
source, modelled by its contents. -/
structure Func where
  annotations : List (String × Annot)
  identifier : Identifier
  input : List FunctionInput
  const_ : Bool
  output : Ty
  block : Block
  coreMapping : Option String
  span : Span

/-- `leo_ast::CircuitMember`. -/
inductive CircuitMember where
  | circuitConst (id : Identifier) (type_ : Ty) (value : Expression)
  | circuitVariable (id : Identifier) (type_ : Ty)
  | circuitFunction (f : Func)

/-- `leo_ast::Circuit`. -/
structure Circuit where
  circuitName : Identifier
  members : List CircuitMember

/-- `leo_ast::Alias`. -/
structure Alias where
  name : Identifier
  represents : Ty
  span : Span

/-- `leo_ast::ImportStatement`, opaque to canonicalization (cloned through). -/
structure ImportStatement where
  path : List String
  span : Span
  deriving Repr, DecidableEq

/-- `leo_ast::Program` (ast/src/program.rs).  `IndexMap`s become ordered
association lists.  The resolved import sub-programs (`imports`) are
populated by cross-file import resolution, which the spec places outside
this pipeline's scope; they are not part of the canonicalization walk and
are omitted from the embedding. -/
structure Program where
  name : String
  expectedInput : List FunctionInput
  importStatements : List ImportStatement
  aliases : List (Identifier × Alias)
  circuits : List (Identifier × Circuit)
  globalConsts : List (List Identifier × DefinitionStatement)
  functions : List (Identifier × Func)

/-! ## The `Canonicalizer`'s own methods (canonicalizer.rs)

The canonicalizer's one piece of state, `circuit_name : Option<Identifier>`,
is threaded as the explicit `name` argument (it is `some` exactly while
`reduce_circuit` re-canonicalizes the members of a circuit).  The methods
return `Except CErr` because `canonicalize_self_type` can panic on `unwrap`.
-/

mutual
/-- `Canonicalizer::canonicalize_expression` (canonicalizer.rs lines 133-314). -/
def canonicalizeExpression (name : Option Identifier) : Expression → Except CErr Expression
  | .unary inner op span => do
    let inner' ← canonicalizeExpression name inner
    .ok (.unary inner' op span)
  | .binary left right op span => do
    let left' ← canonicalizeExpression name left
    let right' ← canonicalizeExpression name right
    .ok (.binary left' right' op span)
  | .ternary condition ifTrue ifFalse span => do
    let condition' ← canonicalizeExpression name condition
    let ifTrue' ← canonicalizeExpression name ifTrue
    let ifFalse' ← canonicalizeExpression name ifFalse
    .ok (.ternary condition' ifTrue' ifFalse' span)
  | .cast inner targetType span => do
    let inner' ← canonicalizeExpression name inner
    let targetType' ← canonicalizeSelfType name targetType
    .ok (.cast inner' targetType' span)
  | .access a => do
    let a' ← canonicalizeAccessExpression name a
    .ok (.access a')
  | .arrayInline elements span => do
    let elements' ← canonicalizeSpreadList name elements
    .ok (.arrayInline elements' span)
  | .arrayInit dimensions element span => do
    let element' ← canonicalizeExpression name element
    .ok (.arrayInit dimensions element' span)
  | .tupleInit elements span => do
    let elements' ← canonicalizeExpressionList name elements
    .ok (.tupleInit elements' span)
  | .circuitInit cname members span => do
    let newName :=
      match name with
      | some n => if cname.name == "Self" then n else cname
      | none => cname
    let members' ← canonicalizeMemberInits name members
    .ok (.circuitInit newName members' span)
  | .call function arguments span => do
    let function' ← canonicalizeExpression name function
    let arguments' ← canonicalizeExpressionList name arguments
    .ok (.call function' arguments' span)
  | .identifier id =>
    match name with
    | some n => if id.name == "Self" then .ok (.identifier n) else .ok (.identifier id)
    | none => .ok (.identifier id)
  | e => .ok e

/-- The `Expression::Access` arm of `canonicalize_expression`
(canonicalizer.rs lines 179-233).  The member-access case resets
`type_` to `None`; the static-access case canonicalizes its type. -/
def canonicalizeAccessExpression (name : Option Identifier) :
    AccessExpression → Except CErr AccessExpression
  | .array array index span => do
    let array' ← canonicalizeExpression name array
    let index' ← canonicalizeExpression name index
    .ok (.array array' index' span)
  | .arrayRange array left right span => do
    let array' ← canonicalizeExpression name array
    let left' ← canonicalizeOptExpression name left
    let right' ← canonicalizeOptExpression name right
    .ok (.arrayRange array' left' right' span)
  | .member inner mname span _ => do
    let inner' ← canonicalizeExpression name inner
    .ok (.member inner' mname span none)
  | .tuple tuple index span => do
    let tuple' ← canonicalizeExpression name tuple
    .ok (.tuple tuple' index span)
  | .static inner sname type_ span => do
    let inner' ← canonicalizeExpression name inner
    let type' ← canonicalizeSelfType name type_
    .ok (.static inner' sname type' span)

def canonicalizeOptExpression (name : Option Identifier) :
    Option Expression → Except CErr (Option Expression)
  | none => .ok none
  | some e => do
    let e' ← canonicalizeExpression name e
    .ok (some e')

def canonicalizeExpressionList (name : Option Identifier) :
    List Expression → Except CErr (List Expression)
  | [] => .ok []
  | e :: es => do
    let e' ← canonicalizeExpression name e
    let es' ← canonicalizeExpressionList name es
    .ok (e' :: es')

def canonicalizeSpreadList (name : Option Identifier) :
    List SpreadOrExpression → Except CErr (List SpreadOrExpression)
  | [] => .ok []
  | .expression e :: rest => do
    let e' ← canonicalizeExpression name e
    let rest' ← canonicalizeSpreadList name rest
    .ok (.expression e' :: rest')
  | .spread e :: rest => do
    let e' ← canonicalizeExpression name e
    let rest' ← canonicalizeSpreadList name rest
    .ok (.spread e' :: rest')

/-- `Canonicalizer::canonicalize_circuit_variable_initializer`
(canonicalizer.rs lines 120-131), mapped over a member list. -/
def canonicalizeMemberInits (name : Option Identifier) :
    List CircuitVariableInitializer → Except CErr (List CircuitVariableInitializer)
  | [] => .ok []
  | .mk id expr :: rest => do
    let expr' ← canonicalizeOptExpression name expr
    let rest' ← canonicalizeMemberInits name rest
    .ok (.mk id expr' :: rest')
end

/-- `Canonicalizer::canonicalize_assignee_access` (canonicalizer.rs
lines 316-327). -/
def canonicalizeAssigneeAccess (name : Option Identifier) :
    AssigneeAccess → Except CErr AssigneeAccess
  | .arrayRange left right => do
    let left' ← canonicalizeOptExpression name left
    let right' ← canonicalizeOptExpression name right
    .ok (.arrayRange left' right')
  | .arrayIndex index => do
    let index' ← canonicalizeExpression name index
    .ok (.arrayIndex index')
  | a => .ok a

/-- `Canonicalizer::canonicalize_accesses` (canonicalizer.rs lines 43-87):
materialize an access chain as a read expression, every created node
carrying the given `span`. -/
def canonicalizeAccesses (name : Option Identifier) (start : Expression)
    (accesses : List AssigneeAccess) (span : Span) : Except CErr Expression :=
  match accesses with
  | [] => .ok start
  | access :: rest => do
    let a ← canonicalizeAssigneeAccess name access
    let left :=
      match a with
      | .arrayIndex index => Expression.access (.array start index span)
      | .arrayRange left right => Expression.access (.arrayRange start left right span)
      | .tuple positiveNumber _ => Expression.access (.tuple start positiveNumber span)
      | .member id => Expression.access (.member start id span none)
    canonicalizeAccesses name left rest span

/-- `Canonicalizer::compound_operation_conversion` (canonicalizer.rs
lines 89-107).  The `Assign` arm is `unreachable!` in the source. -/
def compoundOperationConversion : AssignOperation → Except CErr BinaryOperation
  | .assign => .error (.panic "internal error: entered unreachable code")
  | .add => .ok .add
  | .sub => .ok .sub
  | .mul => .ok .mul
  | .div => .ok .div
  | .pow => .ok .pow
  | .or => .ok .or
  | .and => .ok .and
  | .bitOr => .ok .bitOr
  | .bitAnd => .ok .bitAnd
  | .bitXor => .ok .bitXor
  | .shr => .ok .shr
  | .shrSigned => .ok .shrSigned
  | .shl => .ok .shl
  | .mod => .ok .mod

/-- `Canonicalizer::canonicalize_assignee` (canonicalizer.rs lines 329-341). -/
def canonicalizeAssignee (name : Option Identifier) (assignee : Assignee) :
    Except CErr Assignee := do
  let accesses ← canonicalizeAssigneeAccessList name assignee.accesses
  .ok { identifier := assignee.identifier, accesses, span := assignee.span }
where
  canonicalizeAssigneeAccessList (name : Option Identifier) :
      List AssigneeAccess → Except CErr (List AssigneeAccess)
    | [] => .ok []
    | a :: rest => do
      let a' ← canonicalizeAssigneeAccess name a
      let rest' ← canonicalizeAssigneeAccessList name rest
      .ok (a' :: rest')

mutual
/-- `Canonicalizer::canonicalize_statement` (canonicalizer.rs lines 356-456). -/
def canonicalizeStatement (name : Option Identifier) : Statement → Except CErr Statement
  | .ret expression span => do
    let expression' ← canonicalizeExpression name expression
    .ok (.ret expression' span)
  | .definition d => do
    let value' ← canonicalizeExpression name d.value
    let type' ← canonicalizeSelfType name d.type_
    .ok (.definition { declarationType := d.declarationType,
                       variableNames := d.variableNames,
                       type_ := type', value := value', span := d.span })
  | .assign a => do
    let assignee' ← canonicalizeAssignee name a.assignee
    let value' ← canonicalizeExpression name a.value
    .ok (.assign { assignee := assignee', value := value',
                   operation := a.operation, span := a.span })
  | .conditional condition block next span => do
    let condition' ← canonicalizeExpression name condition
    let block' ← canonicalizeBlock name block
    let next' ← canonicalizeOptStatement name next
    .ok (.conditional condition' block' next' span)
  | .iteration variable' type_ start stop inclusive block span => do
    let type' ← canonicalizeSelfType name type_
    let start' ← canonicalizeExpression name start
    let stop' ← canonicalizeExpression name stop
    let block' ← canonicalizeBlock name block
    .ok (.iteration variable' type' start' stop' inclusive block' span)
  | .console function span => do
    let function' ←
      match function with
      | .assert e => do
        let e' ← canonicalizeExpression name e
        pure (ConsoleFunction.assert e')
      | .error args => do
        let parameters' ← canonicalizeExpressionList name args.parameters
        pure (ConsoleFunction.error { string := args.string, parameters := parameters',
                                      span := args.span })
      | .log args => do
        let parameters' ← canonicalizeExpressionList name args.parameters
        pure (ConsoleFunction.log { string := args.string, parameters := parameters',
                                    span := args.span })
    .ok (.console function' span)
  | .expression expression span => do
    let expression' ← canonicalizeExpression name expression
    .ok (.expression expression' span)
  | .block b => do
    let b' ← canonicalizeBlock name b
    .ok (.block b')

/-- `Canonicalizer::canonicalize_block` (canonicalizer.rs lines 343-354). -/
def canonicalizeBlock (name : Option Identifier) : Block → Except CErr Block
  | .mk statements span => do
    let statements' ← canonicalizeStatementList name statements
    .ok (.mk statements' span)

def canonicalizeStatementList (name : Option Identifier) :
    List Statement → Except CErr (List Statement)
  | [] => .ok []
  | s :: rest => do
    let s' ← canonicalizeStatement name s
    let rest' ← canonicalizeStatementList name rest
    .ok (s' :: rest')

def canonicalizeOptStatement (name : Option Identifier) :
    Option Statement → Except CErr (Option Statement)
  | none => .ok none
  | some s => do
    let s' ← canonicalizeStatement name s
    .ok (some s')
end

/-- `Canonicalizer::canonicalize_function_input` (canonicalizer.rs
lines 458-472). -/
def canonicalizeFunctionInput (name : Option Identifier) :
    FunctionInput → Except CErr FunctionInput
  | .variable' v => do
    let type' ← canonicalizeSelfType name v.type_
    .ok (.variable' { identifier := v.identifier, const_ := v.const_,
                      mutable := v.mutable, type_ := type', span := v.span })
  | i => .ok i

def canonicalizeFunctionInputList (name : Option Identifier) :
    List FunctionInput → Except CErr (List FunctionInput)
  | [] => .ok []
  | i :: rest => do
    let i' ← canonicalizeFunctionInput name i
    let rest' ← canonicalizeFunctionInputList name rest
    .ok (i' :: rest')

/-- `Canonicalizer::canonicalize_circuit_member` (canonicalizer.rs
lines 474-507).  A `CircuitVariable` member is returned unchanged (the
source's `CircuitMember::CircuitVariable(_, _) => {}` falls through to
`circuit_member.clone()`). -/
def canonicalizeCircuitMember (name : Option Identifier) :
    CircuitMember → Except CErr CircuitMember
  | .circuitConst id type_ value => do
    let value' ← canonicalizeExpression name value
    .ok (.circuitConst id type_ value')
  | .circuitVariable id type_ => .ok (.circuitVariable id type_)
  | .circuitFunction f => do
    let input' ← canonicalizeFunctionInputList name f.input
    let output' ← canonicalizeSelfType name f.output
    let block' ← canonicalizeBlock name f.block
    .ok (.circuitFunction { annotations := f.annotations, identifier := f.identifier,
                            const_ := f.const_, input := input', output := output',
                            block := block', coreMapping := f.coreMapping, span := f.span })

def canonicalizeCircuitMemberList (name : Option Identifier) :
    List CircuitMember → Except CErr (List CircuitMember)
  | [] => .ok []
  | m :: rest => do
    let m' ← canonicalizeCircuitMember name m
    let rest' ← canonicalizeCircuitMemberList name rest
    .ok (m' :: rest')

/-! ## The remaining `ReconstructingReducer` hooks (canonicalizer.rs) -/

/-- The escape-width scan inside `reduce_string`'s `b'u'` arm
(canonicalizer.rs lines 552-560): starting at `bytes[col_start + 1]`,
count bytes until the closing `}`, then one more.  Out-of-range indexing
panics, as in Rust. -/
def scanUnicodeWidth (bytes : List UInt8) (colStart : Nat) (index width : Nat) :
    Except CErr Nat :=
  match h : bytes.get? (colStart + index) with
  | none => .error (.panic "index out of bounds")
  | some b =>
    if b == 125 then .ok (width + 1)
    else scanUnicodeWidth bytes colStart (index + 1) (width + 1)
termination_by bytes.length - (colStart + index)
decreasing_by
  have : colStart + index < bytes.length := List.get?_eq_some.mp h |>.1
  omega

/-- The per-character loop of `Canonicalizer::reduce_string`
(canonicalizer.rs lines 542-582): rebuild each character as a char-literal
expression whose span is recomputed from the source bytes, advancing
`col_adder` over escape sequences. -/
def reduceStringChars (span : Span) (bytes : List UInt8) :
    List LChar → Nat → Nat → Except CErr (List SpreadOrExpression)
  | [], _, _ => .ok []
  | character :: rest, index, colAdder => do
    let colStart := span.colStart + index + 1 + colAdder
    match bytes.get? (colStart - 1) with
    | none => .error (.panic "index out of bounds")
    | some b => do
      let (colStop, colAdder') ←
        if b == 92 then  -- b'\\'
          match bytes.get? colStart with
          | none => .error (.panic "index out of bounds")
          | some b2 => do
            let width ←
              if b2 == 120 then pure 3           -- b'x'
              else if b2 == 117 then scanUnicodeWidth bytes colStart 1 1  -- b'u'
              else pure 1
            pure (colStart + 1 + width, colAdder + width)
        else
          pure (colStart + 1, colAdder)
      let el := SpreadOrExpression.expression (.value (.char
        { character,
          span := { lineStart := span.lineStart, lineStop := span.lineStop,
                    colStart := colStart, colStop := colStop,
                    path := span.path, content := span.content } }))
      let rest' ← reduceStringChars span bytes rest (index + 1) colAdder'
      .ok (el :: rest')

/-- `Canonicalizer::reduce_string` (canonicalizer.rs lines 537-592): an
empty string literal is an error; otherwise the string explodes into an
inline array of char literals. -/
def reduceString (string : List LChar) (span : Span) : Except CErr Expression :=
  if string.isEmpty then .error (.emptyString span)
  else do
    let elements ← reduceStringChars span span.content string 0 0
    if elements.isEmpty then .error (.invalidArrayDimensionSize span)
    else .ok (.arrayInline elements span)

/-- `Canonicalizer::reduce_array_init` (canonicalizer.rs lines 594-609):
fold the dimension list into nested single-dimension array initializers,
innermost dimension first, every created node carrying the original node's
span.  On an empty dimension list the source's `iter.next().unwrap()`
panics. -/
def reduceArrayInit (dimensions : List Nat) (span : Span) (element : Expression) :
    Except CErr Expression :=
  match dimensions.reverse with
  | [] => .error (.panic "called Option::unwrap on a None value")
  | d :: rest =>
    .ok (rest.foldl (fun elem dim => Expression.arrayInit [dim] elem span)
          (Expression.arrayInit [d] element span))

/-- `Canonicalizer::reduce_definition` (canonicalizer.rs lines 611-627). -/
def reduceDefinition (name : Option Identifier) (definition : DefinitionStatement)
    (variableNames : List VariableName) (type_ : Ty) (value : Expression) :
    Except CErr DefinitionStatement := do
  let type' ← canonicalizeSelfType name type_
  .ok { declarationType := definition.declarationType, variableNames,
        type_ := type', value, span := definition.span }

/-- `Canonicalizer::reduce_assign` (canonicalizer.rs lines 629-666): a
compound assignment is rewritten into a plain assignment whose value is a
binary expression `lhs op rhs`, with the left operand the assignee
materialized as a read expression; a plain assignment is passed through. -/
def reduceAssign (name : Option Identifier) (assign : AssignStatement)
    (assignee : Assignee) (value : Expression) : Except CErr AssignStatement :=
  if assign.operation ≠ AssignOperation.assign then do
    let left ← canonicalizeAccesses name (.identifier assignee.identifier)
                assignee.accesses assign.span
    let op ← compoundOperationConversion assign.operation
    .ok { operation := .assign, assignee,
          value := .binary left value op assign.span, span := assign.span }
  else
    .ok { operation := .assign, assignee, value, span := assign.span }

/-- `Canonicalizer::reduce_function` (canonicalizer.rs lines 668-688). -/
def reduceFunction (function : Func) (identifier : Identifier)
    (annotations : List (String × Annot)) (input : List FunctionInput)
    (const_ : Bool) (output : Ty) (block : Block) : Except CErr Func :=
  .ok { identifier, annotations, input, const_, output, block,
        coreMapping := function.coreMapping, span := function.span }

/-- `Canonicalizer::reduce_circuit` (canonicalizer.rs lines 690-706): set
`circuit_name`, re-canonicalize every (already reduced) member with the
name in scope, then clear it. -/
def reduceCircuit (_circuit : Circuit) (circuitName : Identifier)
    (members : List CircuitMember) : Except CErr Circuit := do
  let members' ← canonicalizeCircuitMemberList (some circuitName) members
  .ok { circuitName, members := members' }

/-! ## The reduction driver

Modelled from the spec: the driver (`ReconstructingDirector`, repository
code not under `src/`) rebuilds every AST node bottom-up from its
already-canonicalized children and hands the rebuilt node to the
matching `Canonicalizer` hook; hooks the canonicalizer does not override
are identity rebuilds.  The `in_circuit` flag is toggled
(`swap_in_circuit`) around the reduction of a circuit's members, and the
`circuit_name` context is only ever set by the `reduce_circuit` hook
itself, so all hook calls issued by the driver pass `name = none`.
-/

mutual
/-- Driver reduction of an expression.  A string literal value goes through
the `reduce_string` hook; an array-initializer goes through
`reduce_array_init` after its element is reduced; types embedded in casts
and accesses are reduced with `dirType`; everything else is an identity
rebuild from reduced children. -/
def dirExpression (ic : Bool) : Expression → Except CErr Expression
  | .identifier id => .ok (.identifier id)
  | .value v =>
    match v with
    | .string s span => reduceString s span
    | v => .ok (.value v)
  | .binary left right op span => do
    let left' ← dirExpression ic left
    let right' ← dirExpression ic right
    .ok (.binary left' right' op span)
  | .unary inner op span => do
    let inner' ← dirExpression ic inner
    .ok (.unary inner' op span)
  | .ternary condition ifTrue ifFalse span => do
    let condition' ← dirExpression ic condition
    let ifTrue' ← dirExpression ic ifTrue
    let ifFalse' ← dirExpression ic ifFalse
    .ok (.ternary condition' ifTrue' ifFalse' span)
  | .cast inner targetType span => do
    let inner' ← dirExpression ic inner
    let targetType' ← dirType ic span targetType
    .ok (.cast inner' targetType' span)
  | .access a => do
    let a' ← dirAccess ic a
    .ok (.access a')
  | .arrayInline elements span => do
    let elements' ← dirSpreadList ic elements
    .ok (.arrayInline elements' span)
  | .arrayInit dimensions element span => do
    let element' ← dirExpression ic element
    reduceArrayInit dimensions span element'
  | .tupleInit elements span => do
    let elements' ← dirExpressionList ic elements
    .ok (.tupleInit elements' span)
  | .circuitInit cname members span => do
    let members' ← dirMemberInits ic members
    .ok (.circuitInit cname members' span)
  | .call function arguments span => do
    let function' ← dirExpression ic function
    let arguments' ← dirExpressionList ic arguments
    .ok (.call function' arguments' span)
  | .err span => .ok (.err span)

def dirAccess (ic : Bool) : AccessExpression → Except CErr AccessExpression
  | .array array index span => do
    let array' ← dirExpression ic array
    let index' ← dirExpression ic index
    .ok (.array array' index' span)
  | .arrayRange array left right span => do
    let array' ← dirExpression ic array
    let left' ← dirOptExpression ic left
    let right' ← dirOptExpression ic right
    .ok (.arrayRange array' left' right' span)
  | .member inner mname span type_ => do
    let inner' ← dirExpression ic inner
    let type' ←
      match type_ with
      | some t => do
        let t' ← dirType ic span t
        pure (some t')
      | none => pure none
    .ok (.member inner' mname span type')
  | .tuple tuple index span => do
    let tuple' ← dirExpression ic tuple
    .ok (.tuple tuple' index span)
  | .static inner sname type_ span => do
    let inner' ← dirExpression ic inner
    let type' ← dirType ic span type_
    .ok (.static inner' sname type' span)

def dirOptExpression (ic : Bool) : Option Expression → Except CErr (Option Expression)
  | none => .ok none
  | some e => do
    let e' ← dirExpression ic e
    .ok (some e')

def dirExpressionList (ic : Bool) : List Expression → Except CErr (List Expression)
  | [] => .ok []
  | e :: es => do
    let e' ← dirExpression ic e
    let es' ← dirExpressionList ic es
    .ok (e' :: es')

def dirSpreadList (ic : Bool) : List SpreadOrExpression → Except CErr (List SpreadOrExpression)
  | [] => .ok []
  | .expression e :: rest => do
    let e' ← dirExpression ic e
    let rest' ← dirSpreadList ic rest
    .ok (.expression e' :: rest')
  | .spread e :: rest => do
    let e' ← dirExpression ic e
    let rest' ← dirSpreadList ic rest
    .ok (.spread e' :: rest')

def dirMemberInits (ic : Bool) :
    List CircuitVariableInitializer → Except CErr (List CircuitVariableInitializer)
  | [] => .ok []
  | .mk id expr :: rest => do
    let expr' ← dirOptExpression ic expr
    let rest' ← dirMemberInits ic rest
    .ok (.mk id expr' :: rest')
end

/-- Driver reduction of one assignee access. -/
def dirAssigneeAccess (ic : Bool) : AssigneeAccess → Except CErr AssigneeAccess
  | .arrayRange left right => do
    let left' ← dirOptExpression ic left
    let right' ← dirOptExpression ic right
    .ok (.arrayRange left' right')
  | .arrayIndex index => do
    let index' ← dirExpression ic index
    .ok (.arrayIndex index')
  | a => .ok a

def dirAssigneeAccessList (ic : Bool) : List AssigneeAccess → Except CErr (List AssigneeAccess)
  | [] => .ok []
  | a :: rest => do
    let a' ← dirAssigneeAccess ic a
    let rest' ← dirAssigneeAccessList ic rest
    .ok (a' :: rest')

/-- Driver reduction of an assignee. -/
def dirAssignee (ic : Bool) (assignee : Assignee) : Except CErr Assignee := do
  let accesses ← dirAssigneeAccessList ic assignee.accesses
  .ok { identifier := assignee.identifier, accesses, span := assignee.span }

def dirConsoleFunction (ic : Bool) : ConsoleFunction → Except CErr ConsoleFunction
  | .assert e => do
    let e' ← dirExpression ic e
    .ok (.assert e')
  | .error args => do
    let parameters' ← dirExpressionList ic args.parameters
    .ok (.error { string := args.string, parameters := parameters', span := args.span })
  | .log args => do
    let parameters' ← dirExpressionList ic args.parameters
    .ok (.log { string := args.string, parameters := parameters', span := args.span })

mutual
/-- Driver reduction of a statement: rebuild from reduced children, then
apply the canonicalizer's `reduce_definition` / `reduce_assign` hooks where
the canonicalizer overrides them (with no circuit name in scope, see above). -/
def dirStatement (ic : Bool) : Statement → Except CErr Statement
  | .ret expression span => do
    let expression' ← dirExpression ic expression
    .ok (.ret expression' span)
  | .definition d => do
    let type' ← dirType ic d.span d.type_
    let value' ← dirExpression ic d.value
    let d' ← reduceDefinition none d d.variableNames type' value'
    .ok (.definition d')
  | .assign a => do
    let assignee' ← dirAssignee ic a.assignee
    let value' ← dirExpression ic a.value
    let a' ← reduceAssign none a assignee' value'
    .ok (.assign a')
  | .conditional condition block next span => do
    let condition' ← dirExpression ic condition
    let block' ← dirBlock ic block
    let next' ← dirOptStatement ic next
    .ok (.conditional condition' block' next' span)
  | .iteration variable' type_ start stop inclusive block span => do
    let type' ← dirType ic span type_
    let start' ← dirExpression ic start
    let stop' ← dirExpression ic stop
    let block' ← dirBlock ic block
    .ok (.iteration variable' type' start' stop' inclusive block' span)
  | .console function span => do
    let function' ← dirConsoleFunction ic function
    .ok (.console function' span)
  | .expression expression span => do
    let expression' ← dirExpression ic expression
    .ok (.expression expression' span)
  | .block b => do
    let b' ← dirBlock ic b
    .ok (.block b')

def dirBlock (ic : Bool) : Block → Except CErr Block
  | .mk statements span => do
    let statements' ← dirStatementList ic statements
    .ok (.mk statements' span)

def dirStatementList (ic : Bool) : List Statement → Except CErr (List Statement)
  | [] => .ok []
  | s :: rest => do
    let s' ← dirStatement ic s
    let rest' ← dirStatementList ic rest
    .ok (s' :: rest')

def dirOptStatement (ic : Bool) : Option Statement → Except CErr (Option Statement)
  | none => .ok none
  | some s => do
    let s' ← dirStatement ic s
    .ok (some s')
end

/-- Driver reduction of a function input (identity rebuild with a reduced
type). -/
def dirFunctionInput (ic : Bool) : FunctionInput → Except CErr FunctionInput
  | .variable' v => do
    let type' ← dirType ic v.span v.type_
    .ok (.variable' { identifier := v.identifier, const_ := v.const_,
                      mutable := v.mutable, type_ := type', span := v.span })
  | i => .ok i

def dirFunctionInputList (ic : Bool) : List FunctionInput → Except CErr (List FunctionInput)
  | [] => .ok []
  | i :: rest => do
    let i' ← dirFunctionInput ic i
    let rest' ← dirFunctionInputList ic rest
    .ok (i' :: rest')

/-- Driver reduction of a function, ending in the `reduce_function` hook. -/
def dirFunc (ic : Bool) (f : Func) : Except CErr Func := do
  let input' ← dirFunctionInputList ic f.input
  let output' ← dirType ic f.span f.output
  let block' ← dirBlock ic f.block
  reduceFunction f f.identifier f.annotations input' f.const_ output' block'

/-- Driver reduction of a circuit member (identity rebuild from reduced
parts; the member-level hook is not overridden by the canonicalizer). -/
def dirCircuitMember (ic : Bool) : CircuitMember → Except CErr CircuitMember
  | .circuitConst id type_ value => do
    let type' ← dirType ic id.span type_
    let value' ← dirExpression ic value
    .ok (.circuitConst id type' value')
  | .circuitVariable id type_ => do
    let type' ← dirType ic id.span type_
    .ok (.circuitVariable id type')
  | .circuitFunction f => do
    let f' ← dirFunc ic f
    .ok (.circuitFunction f')

def dirCircuitMemberList (ic : Bool) : List CircuitMember → Except CErr (List CircuitMember)
  | [] => .ok []
  | m :: rest => do
    let m' ← dirCircuitMember ic m
    let rest' ← dirCircuitMemberList ic rest
    .ok (m' :: rest')

/-- Driver reduction of a circuit: toggle `in_circuit`, reduce the members,
toggle back, then apply the `reduce_circuit` hook, which re-canonicalizes
the members with the circuit name in scope. -/
def dirCircuit (ic : Bool) (c : Circuit) : Except CErr Circuit := do
  let members ← dirCircuitMemberList (!ic) c.members
  reduceCircuit c c.circuitName members

/-- Driver reduction of one alias. -/
def dirAlias (ic : Bool) (a : Alias) : Except CErr Alias := do
  let represents' ← dirType ic a.span a.represents
  .ok { name := a.name, represents := represents', span := a.span }

def dirAliasList (ic : Bool) :
    List (Identifier × Alias) → Except CErr (List (Identifier × Alias))
  | [] => .ok []
  | (id, a) :: rest => do
    let a' ← dirAlias ic a
    let rest' ← dirAliasList ic rest
    .ok ((id, a') :: rest')

def dirCircuitList (ic : Bool) :
    List (Identifier × Circuit) → Except CErr (List (Identifier × Circuit))
  | [] => .ok []
  | (id, c) :: rest => do
    let c' ← dirCircuit ic c
    let rest' ← dirCircuitList ic rest
    .ok ((id, c') :: rest')

/-- Driver reduction of one global constant (the definition-statement path,
including the `reduce_definition` hook). -/
def dirGlobalConst (ic : Bool) (d : DefinitionStatement) :
    Except CErr DefinitionStatement := do
  let type' ← dirType ic d.span d.type_
  let value' ← dirExpression ic d.value
  reduceDefinition none d d.variableNames type' value'

def dirGlobalConstList (ic : Bool) :
    List (List Identifier × DefinitionStatement) →
    Except CErr (List (List Identifier × DefinitionStatement))
  | [] => .ok []
  | (ids, d) :: rest => do
    let d' ← dirGlobalConst ic d
    let rest' ← dirGlobalConstList ic rest
    .ok ((ids, d') :: rest')

def dirFuncList (ic : Bool) :
    List (Identifier × Func) → Except CErr (List (Identifier × Func))
  | [] => .ok []
  | (id, f) :: rest => do
    let f' ← dirFunc ic f
    let rest' ← dirFuncList ic rest
    .ok ((id, f') :: rest')

/-- The whole canonicalization pass over a program
(`Ast::canonicalize`, driving the `Canonicalizer` over every top-level
item; modelled from the spec).  Top-level reduction starts outside any
circuit. -/
def canonicalizeProgram (p : Program) : Except CErr Program := do
  let expectedInput' ← dirFunctionInputList false p.expectedInput
  let aliases' ← dirAliasList false p.aliases
  let circuits' ← dirCircuitList false p.circuits
  let globalConsts' ← dirGlobalConstList false p.globalConsts
  let functions' ← dirFuncList false p.functions
  .ok { name := p.name, expectedInput := expectedInput',
        importStatements := p.importStatements,
        aliases := aliases', circuits := circuits',
        globalConsts := globalConsts', functions := functions' }

/-! ## Canonical-form invariants (proof infrastructure) -/

mutual
/-- A type is in canonical form for circuit-flag `ic`: every array node is
either dimensionless or single-dimension nonzero, no 1-tuples, and
`SelfType` only inside a circuit. -/
def Ty.canonical (ic : Bool) : Ty → Bool
  | .array t dims => (dims.isEmpty || (dims.length == 1 && !dims.contains 0)) && t.canonical ic
  | .tuple ts => !(ts.length == 1) && tyListCanonical ic ts
  | .selfType => ic
  | _ => true

def tyListCanonical (ic : Bool) : List Ty → Bool
  | [] => true
  | t :: ts => t.canonical ic && tyListCanonical ic ts
end

mutual
/-- An expression is a fixed point of driver reduction for circuit-flag
`ic`: no string-literal values remain, every array-initializer is
single-dimension, and every embedded type is canonical. -/
def Expression.dirFixed (ic : Bool) : Expression → Bool
  | .identifier _ => true
  | .value v =>
    match v with
    | .string _ _ => false
    | _ => true
  | .binary left right _ _ => left.dirFixed ic && right.dirFixed ic
  | .unary inner _ _ => inner.dirFixed ic
  | .ternary condition ifTrue ifFalse _ =>
    condition.dirFixed ic && ifTrue.dirFixed ic && ifFalse.dirFixed ic
  | .cast inner targetType _ => inner.dirFixed ic && targetType.canonical ic
  | .access a => a.dirFixed ic
  | .arrayInline elements _ => spreadListDirFixed ic elements
  | .arrayInit dimensions element _ => dimensions.length == 1 && element.dirFixed ic
  | .tupleInit elements _ => exprListDirFixed ic elements
  | .circuitInit _ members _ => memberInitsDirFixed ic members
  | .call function arguments _ => function.dirFixed ic && exprListDirFixed ic arguments
  | .err _ => true

def AccessExpression.dirFixed (ic : Bool) : AccessExpression → Bool
  | .array array index _ => array.dirFixed ic && index.dirFixed ic
  | .arrayRange array left right _ =>
    array.dirFixed ic && optExprDirFixed ic left && optExprDirFixed ic right
  | .member inner _ _ type_ =>
    inner.dirFixed ic &&
      (match type_ with
       | some t => t.canonical ic
       | none => true)
  | .tuple tuple _ _ => tuple.dirFixed ic
  | .static inner _ type_ _ => inner.dirFixed ic && type_.canonical ic

def optExprDirFixed (ic : Bool) : Option Expression → Bool
  | none => true
  | some e => e.dirFixed ic

def exprListDirFixed (ic : Bool) : List Expression → Bool
  | [] => true
  | e :: es => e.dirFixed ic && exprListDirFixed ic es

def spreadListDirFixed (ic : Bool) : List SpreadOrExpression → Bool
  | [] => true
  | .expression e :: rest => e.dirFixed ic && spreadListDirFixed ic rest
  | .spread e :: rest => e.dirFixed ic && spreadListDirFixed ic rest

def memberInitsDirFixed (ic : Bool) : List CircuitVariableInitializer → Bool
  | [] => true
  | .mk _ expr :: rest => optExprDirFixed ic expr && memberInitsDirFixed ic rest
end

/-- Fixed-point invariant for one assignee access. -/
def AssigneeAccess.dirFixed (ic : Bool) : AssigneeAccess → Bool
  | .arrayRange left right => optExprDirFixed ic left && optExprDirFixed ic right
  | .arrayIndex index => index.dirFixed ic
  | _ => true

def assigneeAccessListDirFixed (ic : Bool) : List AssigneeAccess → Bool
  | [] => true
  | a :: rest => a.dirFixed ic && assigneeAccessListDirFixed ic rest

/-- Fixed-point invariant for an assignee. -/
def Assignee.dirFixed (ic : Bool) (a : Assignee) : Bool :=
  assigneeAccessListDirFixed ic a.accesses

/-- Fixed-point invariant for a console call. -/
def ConsoleFunction.dirFixed (ic : Bool) : ConsoleFunction → Bool
  | .assert e => e.dirFixed ic
  | .error args => exprListDirFixed ic args.parameters
  | .log args => exprListDirFixed ic args.parameters

mutual
/-- A statement is a fixed point of driver reduction: every assignment is
already plain (`reduce_assign` leaves only plain assignments), every
definition's type is canonical and self-free (`reduce_definition` resolved
it), iteration types are canonical, and all subexpressions are fixed. -/
def Statement.dirFixed (ic : Bool) : Statement → Bool
  | .ret expression _ => expression.dirFixed ic
  | .definition d => d.type_.canonical ic && d.type_.noSelf && d.value.dirFixed ic
  | .assign a =>
    (a.operation == .assign) && a.assignee.dirFixed ic && a.value.dirFixed ic
  | .conditional condition block next _ =>
    condition.dirFixed ic && block.dirFixed ic && optStmtDirFixed ic next
  | .iteration _ type_ start stop _ block _ =>
    type_.canonical ic && start.dirFixed ic && stop.dirFixed ic && block.dirFixed ic
  | .console function _ => function.dirFixed ic
  | .expression expression _ => expression.dirFixed ic
  | .block b => b.dirFixed ic

def Block.dirFixed (ic : Bool) : Block → Bool
  | .mk statements _ => stmtListDirFixed ic statements

def stmtListDirFixed (ic : Bool) : List Statement → Bool
  | [] => true
  | s :: rest => s.dirFixed ic && stmtListDirFixed ic rest

def optStmtDirFixed (ic : Bool) : Option Statement → Bool
  | none => true
  | some s => s.dirFixed ic
end

/-- Fixed-point invariant for a function input. -/
def FunctionInput.dirFixed (ic : Bool) : FunctionInput → Bool
  | .variable' v => v.type_.canonical ic
  | _ => true

def inputListDirFixed (ic : Bool) : List FunctionInput → Bool
  | [] => true
  | i :: rest => i.dirFixed ic && inputListDirFixed ic rest

/-- Fixed-point invariant for a function. -/
def Func.dirFixed (ic : Bool) (f : Func) : Bool :=
  inputListDirFixed ic f.input && f.output.canonical ic && f.block.dirFixed ic

/-- Fixed-point invariant for a circuit member. -/
def CircuitMember.dirFixed (ic : Bool) : CircuitMember → Bool
  | .circuitConst _ type_ value => type_.canonical ic && value.dirFixed ic
  | .circuitVariable _ type_ => type_.canonical ic
  | .circuitFunction f => f.dirFixed ic

def memberListDirFixed (ic : Bool) : List CircuitMember → Bool
  | [] => true
  | m :: rest => m.dirFixed ic && memberListDirFixed ic rest

/-! ### Concrete sample data for witnesses and counterexamples -/

/-- A concrete span. -/
def sampleSpan : Span :=
  { lineStart := 1, lineStop := 1, colStart := 1, colStop := 1, path := "", content := [] }

/-- The identifier `Foo` (a circuit name). -/
def fooIdent : Identifier := { name := "Foo", span := sampleSpan }

/-- The identifier `x`. -/
def xIdent : Identifier := { name := "x", span := sampleSpan }

/-- The identifier `y`. -/
def yIdent : Identifier := { name := "y", span := sampleSpan }

/-- The circuit `circuit Foo { x: Self }` — one member variable whose
declared type is `Self`. -/
def fooCircuit : Circuit :=
  { circuitName := fooIdent, members := [.circuitVariable xIdent .selfType] }

/-- The compound assignment `x += y;`. -/
def xPlusEqY : AssignStatement :=
  { operation := .add, assignee := { identifier := xIdent, accesses := [], span := sampleSpan },
    value := .identifier yIdent, span := sampleSpan }

/-- The identifier `main`. -/
def mainIdent : Identifier := { name := "main", span := sampleSpan }

/-- The function `function main(x: u8, y: u8) { x += y; }`. -/
def mainFunc : Func :=
  { annotations := [], identifier := mainIdent,
    input := [.variable' { identifier := xIdent, const_ := false, mutable := true,
                           type_ := .integer .u8, span := sampleSpan },
              .variable' { identifier := yIdent, const_ := false, mutable := false,
                           type_ := .integer .u8, span := sampleSpan }],
    const_ := false, output := .tuple [],
    block := .mk [.assign xPlusEqY] sampleSpan,
    coreMapping := none, span := sampleSpan }

/-- A small program holding the circuit `Foo` and the function `main`. -/
def sampleProgram : Program :=
  { name := "test", expectedInput := [], importStatements := [],
    aliases := [], circuits := [(fooIdent, fooCircuit)],
    globalConsts := [], functions := [(mainIdent, mainFunc)] }

/-- `sampleProgram` after one canonicalization run: the compound assignment
`x += y;` in `main` has been desugared to `x = x + y;`; everything else is
unchanged. -/
def sampleProgramCanon : Program :=
  { sampleProgram with
    functions := [(mainIdent,
      { mainFunc with block := .mk [.assign
        { operation := .assign,
          assignee := { identifier := xIdent, accesses := [], span := sampleSpan },
          value := .binary (.identifier xIdent) (.identifier yIdent) .add sampleSpan,
          span := sampleSpan }] sampleSpan })] }

end Canon

namespace Parser

/-!
## Parser (compiler/parser/src/parser/expression.rs, parser/mod.rs)

The parser-era `leo_span::Span` is a byte range `lo..hi`.  Only the parts
of the parser the claims are about are embedded; the token-stream plumbing
(`ParserContext`, `parse_paren_comma_list`, `eat_group_partial`) is
repository code not under `src/`, abstracted by its visible result where a
claim needs it.
-/

/-- Parser-era span: a byte range (`lo`, `hi` are `BytePos`). -/
structure Span where
  lo : Nat
  hi : Nat
  deriving Repr, DecidableEq

/-- `Span + Span` (used for `span + suffix_span`): the range covering both. -/
def Span.add (a b : Span) : Span := { lo := a.lo, hi := b.hi }

/-- The tokens `parse_primary_expression`'s integer-literal arm can meet as
a following token.  `INT_TYPES` (expression.rs lines 22-35) is the list of
admissible suffix tokens. -/
inductive Token where
  | i8 | i16 | i32 | i64 | i128
  | u8 | u16 | u32 | u64 | u128
  | field
  | group
  | other   -- any token not in INT_TYPES (so `eat_any(INT_TYPES)` fails)
  deriving Repr, DecidableEq

/-- `INT_TYPES` membership (expression.rs lines 22-35). -/
def Token.isIntType : Token → Bool
  | .other => false
  | _ => true

/-- `leo_ast::IntegerType` as produced by `token_to_int_type`. -/
inductive IntegerType where
  | u8 | u16 | u32 | u64 | u128
  | i8 | i16 | i32 | i64 | i128
  deriving Repr, DecidableEq

/-- `ParserContext::token_to_int_type`, restricted to the integer-width
tokens (on `Field`/`Group` the primary-expression arm takes its own path
first, and on any other token it is not reached). -/
def tokenToIntType : Token → Option IntegerType
  | .i8 => some .i8
  | .i16 => some .i16
  | .i32 => some .i32
  | .i64 => some .i64
  | .i128 => some .i128
  | .u8 => some .u8
  | .u16 => some .u16
  | .u32 => some .u32
  | .u64 => some .u64
  | .u128 => some .u128
  | _ => none

/-- The parser errors the embedded fragments can produce
(`leo_errors::ParserError`). -/
inductive ParserError where
  | unexpectedWhitespace (left right : String) (span : Span)
  | implicitValuesNotAllowed (value : String) (span : Span)
  | unexpected (got expected : String) (span : Span)
  deriving Repr, DecidableEq

/-- The expression forms the embedded parser fragments can produce
(`leo_ast::Expression` / `ValueExpression` of the parser-era AST,
restricted to the value forms reachable from the integer-literal arm). -/
inductive Expression where
  | fieldValue (v : String) (span : Span)
  | groupSingle (v : String) (span : Span)
  | integer (t : IntegerType) (v : String) (span : Span)
  | tuplePlaceholder (n : Nat)   -- stands for any expression parsed by a sub-parser
  deriving Repr, DecidableEq

/-- `assert_no_whitespace` (parser/mod.rs lines 42-49): the two spans must
be adjacent (`left_span.hi == right_span.lo`), otherwise a dedicated
unexpected-whitespace error over the span between them. -/
def assertNoWhitespace (leftSpan rightSpan : Span) (left right : String) :
    Except ParserError Unit :=
  if leftSpan.hi ≠ rightSpan.lo then
    .error (.unexpectedWhitespace left right { lo := leftSpan.hi, hi := rightSpan.lo })
  else
    .ok ()

/-- `Token::to_string` for the integer-width suffix tokens (used as the
`right` argument of `assert_no_whitespace`). -/
def Token.str : Token → String
  | .i8 => "i8"
  | .i16 => "i16"
  | .i32 => "i32"
  | .i64 => "i64"
  | .i128 => "i128"
  | .u8 => "u8"
  | .u16 => "u16"
  | .u32 => "u32"
  | .u64 => "u64"
  | .u128 => "u128"
  | .field => "field"
  | .group => "group"
  | .other => "other"

/-- The `Token::Int(value)` arm of `ParserContext::parse_primary_expression`
(expression.rs lines 282-305).  `value`/`span` are the integer literal token
already bumped past; `next`/`nextSpan` are the current token (the candidate
suffix) and its span.  `eat_any(INT_TYPES)` consumes the suffix when it is
one of the admissible tokens; `full_span = span + suffix_span` is computed
before the whitespace check, and spans both tokens. -/
def parsePrimaryInt (value : String) (span : Span) (next : Token) (nextSpan : Span) :
    Except ParserError Expression :=
  let suffixSpan := nextSpan
  let fullSpan := Span.add span suffixSpan
  if next.isIntType then
    match next with
    | .field => do
      let _ ← assertNoWhitespace span suffixSpan value "field"
      .ok (.fieldValue value fullSpan)
    | .group => do
      let _ ← assertNoWhitespace span suffixSpan value "group"
      .ok (.groupSingle value fullSpan)
    | suffix => do
      let _ ← assertNoWhitespace span suffixSpan value suffix.str
      match tokenToIntType suffix with
      | some intTy => .ok (.integer intTy value fullSpan)
      | none => .error (.unexpected "unknown int type token" "int type" span)
        -- unreachable: `suffix` is an integer-width token here (`expect` in the source)
  else
    .error (.implicitValuesNotAllowed value span)

/-- The decision at the end of `ParserContext::parse_tuple_expression`
(expression.rs lines 257-263), abstracted over the already-parsed
parenthesized comma-list: `tuple` is the element list, `trailing` whether a
trailing comma was present, `span` the list's span.  With exactly one
element and no trailing comma the single inner expression is returned;
every other case is the `unexpected` error ("A tuple expression."). -/
def tupleExpressionResult (tuple : List Expression) (trailing : Bool) (span : Span) :
    Except ParserError Expression :=
  if !trailing && tuple.length == 1 then
    match tuple with
    | e :: _ => .ok e
    | [] => .error (.unexpected "A tuple expression." "A valid expression." span)
      -- unreachable: guarded by `tuple.len() == 1`
  else
    .error (.unexpected "A tuple expression." "A valid expression." span)

end Parser

namespace Ir

/-!
## IR emitter (compiler/passes/src/ir_emitter)

The emitter-era `leo_ast` is the reduced AST under `src/compiler/ast`
(`Expression` with Identifier/Value/Binary/Unary/Ternary/Call/Err).
`snarkvm` types are external collaborators: a `Register` is its locator
(`Register::Locator(u64)`, a dense id), and a literal `Value` is carried by
the text/typed data the emitter would hand to the snarkvm parsers (the
parsing itself is out of scope per the spec).

Rust panics (`unimplemented!`, `unreachable!`, `unwrap`) are modelled by
the `panicked` outcome; the Rust signatures (`VisitResult`, `Register`)
have no error channel at all.
-/

/-- `leo_ast::IntegerType` (emitter era). -/
inductive IntegerType where
  | u8 | u16 | u32 | u64 | u128
  | i8 | i16 | i32 | i64 | i128
  deriving Repr, DecidableEq

/-- `leo_ast::GroupValue` (emitter era), by its textual content. -/
inductive GroupValue where
  | single (v : String)
  | tuple (v : String)
  deriving Repr, DecidableEq

/-- `leo_ast::ValueExpression` (emitter era), literals by their textual
form. -/
inductive ValueExpression where
  | address (v : String)
  | boolean (v : String)
  | char (v : String)
  | field (v : String)
  | group (g : GroupValue)
  | integer (t : IntegerType) (v : String)
  | string (v : String)
  deriving Repr, DecidableEq

/-- `leo_ast::BinaryOperation` (emitter era, emit_expressions.rs
lines 80-94). -/
inductive BinaryOperation where
  | add | sub | mul | div | pow | or | and
  | eq | ne | ge | gt | le | lt
  deriving Repr, DecidableEq

/-- `leo_ast::UnaryOperation` (emitter era; `BitNot` exists in the AST but
has no arm in `emit_unary`, which covers `Not` and `Negate`). -/
inductive UnaryOperation where
  | not
  | negate
  | bitNot
  deriving Repr, DecidableEq

/-- `leo_ast::Expression` (emitter era, src/compiler/ast). -/
inductive Expression where
  | identifier (name : String)
  | value (v : ValueExpression)
  | binary (left right : Expression) (op : BinaryOperation)
  | unary (inner : Expression) (op : UnaryOperation)
  | ternary (condition ifTrue ifFalse : Expression)
  | call (function : Expression) (arguments : List Expression)
  | err
  deriving Repr

/-- `leo_ast::Statement` (emitter era), with the fields the emitter
reads. -/
inductive Statement where
  | ret (expression : Expression)
  | definition (const_ : Bool) (name : String) (value : Expression)
  | assign (name : String) (value : Expression)
  | conditional (condition : Expression)
  | iteration (start stop : Expression)
  | console (expression : Expression)
  | expression (expression : Expression)
  | block (statements : List Statement)
  deriving Repr

/-- `snarkvm_bytecode::register::Register::Locator`. -/
structure Register where
  locator : Nat
  deriving Repr, DecidableEq

/-- `IrEmitter`'s register-table entry `Reg` (emitter.rs lines 6-9): a
register optionally tagged with the source symbol it holds. -/
structure Reg where
  register : Register
  symbol : Option String
  deriving Repr, DecidableEq

/-- `impl PartialEq<Symbol> for Reg` (emitter.rs lines 11-15). -/
def Reg.eqSymbol (r : Reg) (other : String) : Bool :=
  match r.symbol with
  | some s => s == other
  | none => false

/-- A literal value operand (`snarkvm_bytecode::Value`), carried by the
`ValueExpression` the emitter lowered it from; the snarkvm text parsers it
feeds are external. -/
structure Value where
  literal : ValueExpression
  deriving Repr, DecidableEq

/-- `snarkvm_bytecode::parsers::Operand`. -/
inductive Operand where
  | register (r : Register)
  | value (v : Value)
  deriving Repr, DecidableEq

/-- Instruction opcodes of the closed instruction set
(`snarkvm_bytecode::instructions`). -/
inductive Opcode where
  | add | sub | mul | div | pow | or | and
  | equal | notEqual
  | greaterThanOrEqual | greaterThan | lessThanOrEqual | lessThan
  | not | neg
  deriving Repr, DecidableEq

/-- An emitted instruction: an opcode with its `BinaryOperation`/
`UnaryOperation` operand struct (named fields `first`, `second`,
`destination` — not positional). -/
structure Instruction where
  opcode : Opcode
  first : Operand
  second : Option Operand   -- `none` for unary instructions
  destination : Register
  deriving Repr, DecidableEq

/-- The mutable part of `IrEmitter` the embedded fragments touch: the live
register table and the append-only instruction buffer. -/
structure EmitState where
  registers : List Reg
  buffer : List Instruction
  deriving Repr, DecidableEq

/-- Outcome of running emitter code: a value, or a Rust panic
(`unimplemented!` / `unreachable!` / `unwrap` on `None`).  The Rust return
types (`Operand`, `Register`, `VisitResult`) have no error channel, so
there is no error-value constructor to model. -/
inductive Outcome (α : Type) where
  | ok (a : α)
  | panicked (msg : String)
  deriving Repr, DecidableEq

/-- `IrEmitter::spawn_reg` (emitter.rs lines 40-47): the new register's
locator is the current live-register count; the entry is pushed at the
end. -/
def spawnReg (st : EmitState) (symbol : Option String) : EmitState × Register :=
  let register : Register := { locator := st.registers.length }
  ({ st with registers := st.registers ++ [{ register, symbol }] }, register)

/-- `IrEmitter::drop_reg` (emitter.rs lines 49-51): pop the most recently
pushed register; `unwrap` panics when none is live. -/
def dropReg (st : EmitState) : Outcome (EmitState × Reg) :=
  match st.registers.getLast? with
  | some r => .ok ({ st with registers := st.registers.dropLast }, r)
  | none => .panicked "called Option::unwrap on a None value"

/-- `IrEmitter::emit` (emitter.rs lines 36-38): append to the buffer. -/
def emit (st : EmitState) (v : Instruction) : EmitState :=
  { st with buffer := st.buffer ++ [v] }

/-- `IrEmitter::find_register` (emit_expressions.rs lines 27-34):
`self.registers.iter().find(|i| **i == input.name)` — the first entry, in
push order, whose tag equals the name; `unwrap` panics when there is
none. -/
def findRegister (st : EmitState) (name : String) : Outcome Register :=
  match st.registers.find? (fun i => i.eqSymbol name) with
  | some reg => .ok reg.register
  | none => .panicked "called Option::unwrap on a None value"

/-- `IrEmitter::get_value` (emit_expressions.rs lines 36-68): lower a
literal to a typed constant.  The snarkvm text parsers are external; the
embedded value carries the literal.  A char literal is
`unimplemented!`. -/
def getValue (v : ValueExpression) : Outcome Value :=
  match v with
  | .char _ => .panicked "char not implemented in IR"
  | v => .ok { literal := v }

/-- `emit_binary`'s opcode table (emit_expressions.rs lines 80-94). -/
def binaryOpcode : BinaryOperation → Opcode
  | .add => .add
  | .sub => .sub
  | .mul => .mul
  | .div => .div
  | .pow => .pow
  | .or => .or
  | .and => .and
  | .eq => .equal
  | .ne => .notEqual
  | .ge => .greaterThanOrEqual
  | .gt => .greaterThan
  | .le => .lessThanOrEqual
  | .lt => .lessThan

/-- `emit_unary`'s opcode table (emit_expressions.rs lines 108-111).
`BitNot` has no arm in the source `match`, which is non-exhaustive over the
AST's `UnaryOperation`; reaching it would be a compile-time-impossible
state, modelled as a panic. -/
def unaryOpcode : UnaryOperation → Outcome Opcode
  | .not => .ok .not
  | .negate => .ok .neg
  | .bitNot => .panicked "non-exhaustive match on UnaryOperation"

theorem Expression.sizeOf_positive (e : Expression) : 0 < sizeOf e := by
  cases e <;> simp_arith

theorem UnaryOperation.unop_sizeOf_positive (op : UnaryOperation) : 0 < sizeOf op := by
  cases op <;> simp_arith

mutual
/-- `IrEmitter::emit_expr` (emit_expressions.rs lines 15-25). -/
def emitExpr (st : EmitState) : Expression → Outcome (EmitState × Operand)
  | .identifier r =>
    match findRegister st r with
    | .ok reg => .ok (st, .register reg)
    | .panicked msg => .panicked msg
  | .value v =>
    match getValue v with
    | .ok val => .ok (st, .value val)
    | .panicked msg => .panicked msg
  | .binary left right op =>
    match emitBinary st left right op with
    | .ok (st', reg) => .ok (st', .register reg)
    | .panicked msg => .panicked msg
  | .unary inner op =>
    match emitUnary st inner op with
    | .ok (st', reg) => .ok (st', .register reg)
    | .panicked msg => .panicked msg
  | .ternary _ _ _ => .panicked "ternary not implemented in IR"
  | .call _ _ => .panicked "call not implemented in IR"
  | .err => .panicked "errors shouldn't exist at the IR level"
termination_by e => sizeOf e
decreasing_by
  all_goals simp_wf
  all_goals try omega
  all_goals (rename_i op; have := UnaryOperation.unop_sizeOf_positive op; omega)

/-- `IrEmitter::emit_binary` (emit_expressions.rs lines 70-98): emit the
operands, spawn a fresh destination, append exactly one instruction whose
opcode is the direct image of the operator, return the destination. -/
def emitBinary (st : EmitState) (left right : Expression) (op : BinaryOperation) :
    Outcome (EmitState × Register) :=
  match emitExpr st left with
  | .panicked msg => .panicked msg
  | .ok (st1, first) =>
    match emitExpr st1 right with
    | .panicked msg => .panicked msg
    | .ok (st2, second) =>
      let (st3, dest) := spawnReg st2 none
      let instruction : Instruction :=
        { opcode := binaryOpcode op, first, second := some second, destination := dest }
      .ok (emit st3 instruction, dest)
termination_by sizeOf left + sizeOf right
decreasing_by
  all_goals simp_wf
  · have := Expression.sizeOf_positive right; omega
  · have := Expression.sizeOf_positive left; omega

/-- `IrEmitter::emit_unary` (emit_expressions.rs lines 100-115). -/
def emitUnary (st : EmitState) (inner : Expression) (op : UnaryOperation) :
    Outcome (EmitState × Register) :=
  match emitExpr st inner with
  | .panicked msg => .panicked msg
  | .ok (st1, first) =>
    match unaryOpcode op with
    | .panicked msg => .panicked msg
    | .ok opc =>
      let (st2, dest) := spawnReg st1 none
      let instruction : Instruction :=
        { opcode := opc, first, second := none, destination := dest }
      .ok (emit st2 instruction, dest)
termination_by sizeOf inner + 1
decreasing_by
  all_goals simp_wf
end

/-- `StatementVisitor::visit_expression_statement` (emit_statements.rs
lines 46-50): emit the expression, then release one register
(`drop_reg`). -/
def visitExpressionStatement (st : EmitState) (e : Expression) : Outcome EmitState :=
  match emitExpr st e with
  | .panicked msg => .panicked msg
  | .ok (st1, _) =>
    match dropReg st1 with
    | .ok (st2, _) => .ok st2
    | .panicked msg => .panicked msg

/-- `StatementVisitor::visit_conditional` (emit_statements.rs lines 34-36):
`unimplemented!`. -/
def visitConditional (_st : EmitState) (_condition : Expression) : Outcome EmitState :=
  .panicked "conditional statements don't exits in IR"

/-- `StatementVisitor::visit_iteration` (emit_statements.rs lines 38-40):
`unimplemented!`. -/
def visitIteration (_st : EmitState) (_start _stop : Expression) : Outcome EmitState :=
  .panicked "iteration statements don't exist in IR"

/-- `ExpressionVisitor::visit_call` (emit_expressions.rs lines 123-125):
`unimplemented!`. -/
def visitCall (_st : EmitState) (_f : Expression) (_args : List Expression) :
    Outcome EmitState :=
  .panicked "call not implemented in IR"

/-! ### Concrete sample data for witnesses and counterexamples -/

/-- A live register with locator `n` tagged with symbol `s`. -/
def taggedReg (n : Nat) (s : String) : Reg :=
  { register := { locator := n }, symbol := some s }

/-- An emitter state with the variables `a`, `b`, `c` bound to registers
0, 1, 2 and an empty buffer. -/
def sampleState : EmitState :=
  { registers := [taggedReg 0 "a", taggedReg 1 "b", taggedReg 2 "c"], buffer := [] }

/-- The expression `(a + b) * c`. -/
def exprABtimesC : Expression :=
  .binary (.binary (.identifier "a") (.identifier "b") .add) (.identifier "c") .mul

end Ir

/-! # Proofs -/

@[simp] theorem ok_bind {ε α β : Type} (a : α) (f : α → Except ε β) :
    (Except.ok a >>= f : Except ε β) = f a := rfl

@[simp] theorem error_bind {ε α β : Type} (e : ε) (f : α → Except ε β) :
    ((Except.error e : Except ε α) >>= f : Except ε β) = .error e := rfl

@[simp] theorem pure_eq_ok {ε α : Type} (a : α) : (pure a : Except ε α) = .ok a := rfl

theorem bind_eq_ok_iff {ε α β : Type} {m : Except ε α} {f : α → Except ε β} {b : β} :
    (m >>= f) = .ok b ↔ ∃ a, m = .ok a ∧ f a = .ok b := by
  cases m <;> simp [Bind.bind, Except.bind]

namespace Canon

/-! ## Type-level lemmas -/

theorem canonical_foldl (ic : Bool) (rest : List Nat) (base : Ty)
    (hbase : base.canonical ic = true) (hnz : ∀ d ∈ rest, d ≠ 0) :
    (rest.foldl (fun ty dim => Ty.array ty [dim]) base).canonical ic = true := by
  induction rest generalizing base with
  | nil => simpa using hbase
  | cons d rest ih =>
    simp only [List.foldl_cons]
    refine ih (Ty.array base [d]) ?_ (fun d' hd' => hnz d' (by simp [hd']))
    have hd : d ≠ 0 := hnz d (by simp)
    simp [Ty.canonical, hbase]
    omega

theorem dirType_ok_canonical (ic : Bool) (span : Span) :
    ∀ t t', dirType ic span t = .ok t' → t'.canonical ic = true := by
  have main :=
    dirType.induct ic span
      (fun t => ∀ t', dirType ic span t = .ok t' → t'.canonical ic = true)
      (fun ts => ∀ ts', dirTypeList ic span ts = .ok ts' → tyListCanonical ic ts' = true)
      ?_ ?_ ?_ ?_ ?_
  · exact fun t => main t
  · -- array
    intro elem dims ih t' h
    simp only [dirType] at h
    cases he : dirType ic span elem with
    | error e => rw [he] at h; simp at h
    | ok elem' =>
      rw [he] at h
      have hel := ih elem' he
      simp only [ok_bind, reduceType] at h
      split_ifs at h with h1 h2
      · cases h
        simp [Ty.canonical, h1, hel]
      · have hnz : ∀ x ∈ dims, x ≠ 0 := by
          intro x hx hx0
          exact h2 (by simpa using (hx0 ▸ hx))
        cases hrev : dims.reverse with
        | nil =>
          rw [hrev] at h
          cases h
          simp [Ty.canonical, hel, List.isEmpty_iff.mpr (List.reverse_eq_nil_iff.mp hrev)]
        | cons d rest =>
          rw [hrev] at h
          cases h
          refine canonical_foldl ic rest (Ty.array elem' [d]) ?_ ?_
          · have hd : d ≠ 0 := by
              refine hnz d ?_
              have : d ∈ dims.reverse := by rw [hrev]; simp
              simpa using this
            simp [Ty.canonical, hel]
            omega
          · intro d' hd'
            refine hnz d' ?_
            have : d' ∈ dims.reverse := by rw [hrev]; simp [hd']
            simpa using this
  · -- tuple
    intro types ih t' h
    simp only [dirType] at h
    cases hts : dirTypeList ic span types with
    | error e => rw [hts] at h; simp at h
    | ok types' =>
      rw [hts] at h
      have hl := ih types' hts
      simp only [ok_bind, reduceType] at h
      by_cases h1 : types'.length == 1
      · simp [h1] at h
      · simp only [h1, if_false] at h
        cases h
        simp [Ty.canonical, h1, hl]
  · -- fallback: not array, not tuple
    intro t hna hnt t' h
    cases t with
    | array elem dims => exact absurd rfl (hna elem dims)
    | tuple types => exact absurd rfl (hnt types)
    | selfType =>
      simp only [dirType, reduceType] at h
      cases hic : ic with
      | false => rw [hic] at h; simp at h
      | true => rw [hic] at h; simp at h; cases h; simp [Ty.canonical]
    | address => simp only [dirType, reduceType] at h; cases h; simp [Ty.canonical]
    | boolean => simp only [dirType, reduceType] at h; cases h; simp [Ty.canonical]
    | char => simp only [dirType, reduceType] at h; cases h; simp [Ty.canonical]
    | field => simp only [dirType, reduceType] at h; cases h; simp [Ty.canonical]
    | group => simp only [dirType, reduceType] at h; cases h; simp [Ty.canonical]
    | integer i => simp only [dirType, reduceType] at h; cases h; simp [Ty.canonical]
    | identifier id => simp only [dirType, reduceType] at h; cases h; simp [Ty.canonical]
    | err => simp only [dirType, reduceType] at h; cases h; simp [Ty.canonical]
  · -- list nil
    intro ts' h
    simp only [dirTypeList] at h
    cases h
    simp [tyListCanonical]
  · -- list cons
    intro t ts ih1 ih2 ts' h
    simp only [dirTypeList] at h
    cases ht : dirType ic span t with
    | error e => rw [ht] at h; simp at h
    | ok t' =>
      rw [ht] at h
      cases hts : dirTypeList ic span ts with
      | error e => rw [hts] at h; simp at h
      | ok ts2 =>
        rw [hts] at h
        simp only [ok_bind] at h
        cases h
        simp [tyListCanonical, ih1 t' ht, ih2 ts2 hts]

theorem dirTypeList_ok_canonical (ic : Bool) (span : Span) :
    ∀ ts ts', dirTypeList ic span ts = .ok ts' → tyListCanonical ic ts' = true := by
  intro ts
  induction ts with
  | nil =>
    intro ts' h
    simp only [dirTypeList] at h
    cases h
    simp [tyListCanonical]
  | cons t ts ih =>
    intro ts' h
    simp only [dirTypeList] at h
    cases ht : dirType ic span t with
    | error e => rw [ht] at h; simp at h
    | ok t' =>
      rw [ht] at h
      cases hts : dirTypeList ic span ts with
      | error e => rw [hts] at h; simp at h
      | ok ts2 =>
        rw [hts] at h
        simp only [ok_bind] at h
        cases h
        simp [tyListCanonical, dirType_ok_canonical ic span t t' ht, ih ts2 hts]

theorem canonical_dirType_fix (ic : Bool) (span : Span) :
    ∀ t, t.canonical ic = true → dirType ic span t = .ok t := by
  have main :=
    dirType.induct ic span
      (fun t => t.canonical ic = true → dirType ic span t = .ok t)
      (fun ts => tyListCanonical ic ts = true → dirTypeList ic span ts = .ok ts)
      ?_ ?_ ?_ ?_ ?_
  · exact fun t => main t
  · -- array
    intro elem dims ih hc
    simp only [Ty.canonical, Bool.and_eq_true] at hc
    obtain ⟨hdims, hel⟩ := hc
    simp only [dirType, ih hel, ok_bind, reduceType]
    rcases Bool.or_eq_true _ _ |>.mp hdims with hemp | hone
    · simp [hemp]
    · simp only [Bool.and_eq_true, beq_iff_eq, Bool.not_eq_true'] at hone
      obtain ⟨hlen, hnc⟩ := hone
      match dims, hlen with
      | [d], _ =>
        have hd' : d ≠ 0 := by
          intro h0
          subst h0
          simp at hnc
        have hmem : ¬((0 : Nat) ∈ [d]) := by simp; omega
        simp [hmem]
        omega
  · -- tuple
    intro types ih hc
    simp only [Ty.canonical, Bool.and_eq_true, Bool.not_eq_true'] at hc
    obtain ⟨hlen, hl⟩ := hc
    simp only [dirType, ih hl, ok_bind, reduceType, hlen]
    simp
  · -- fallback
    intro t hna hnt hc
    cases t with
    | array elem dims => exact absurd rfl (hna elem dims)
    | tuple types => exact absurd rfl (hnt types)
    | selfType =>
      simp only [Ty.canonical] at hc
      simp [dirType, reduceType, hc]
    | address => simp [dirType, reduceType]
    | boolean => simp [dirType, reduceType]
    | char => simp [dirType, reduceType]
    | field => simp [dirType, reduceType]
    | group => simp [dirType, reduceType]
    | integer i => simp [dirType, reduceType]
    | identifier id => simp [dirType, reduceType]
    | err => simp [dirType, reduceType]
  · -- list nil
    intro _
    simp [dirTypeList]
  · -- list cons
    intro t ts ih1 ih2 hc
    simp only [tyListCanonical, Bool.and_eq_true] at hc
    simp [dirTypeList, ih1 hc.1, ih2 hc.2]

theorem canonicalList_dirTypeList_fix (ic : Bool) (span : Span) :
    ∀ ts, tyListCanonical ic ts = true → dirTypeList ic span ts = .ok ts := by
  intro ts
  induction ts with
  | nil => intro _; simp [dirTypeList]
  | cons t ts ih =>
    intro hc
    simp only [tyListCanonical, Bool.and_eq_true] at hc
    simp [dirTypeList, canonical_dirType_fix ic span t hc.1, ih hc.2]

/-- Driver type reduction is idempotent. -/
theorem dirType_idem (ic : Bool) (span : Span) (t t' : Ty)
    (h : dirType ic span t = .ok t') : dirType ic span t' = .ok t' :=
  canonical_dirType_fix ic span t' (dirType_ok_canonical ic span t t' h)

/-! ### `canonicalize_self_type` lemmas -/

/-- With no circuit name in scope, `canonicalize_self_type` succeeds exactly
on self-free types, and is then the identity. -/
theorem canonicalizeSelfType_none_spec :
    ∀ t t', canonicalizeSelfType none t = .ok t' → t' = t ∧ t.noSelf = true := by
  have main :=
    canonicalizeSelfType.induct none
      (fun t => ∀ t', canonicalizeSelfType none t = .ok t' → t' = t ∧ t.noSelf = true)
      (fun ts => ∀ ts', canonicalizeSelfTypeList none ts = .ok ts' →
        ts' = ts ∧ tyListNoSelf ts = true)
      ?_ ?_ ?_ ?_ ?_ ?_ ?_
  · exact fun t => main t
  · intro n hn; simp at hn
  · intro _ t' h
    simp [canonicalizeSelfType] at h
  · intro t dims ih t' h
    simp only [canonicalizeSelfType] at h
    cases ht : canonicalizeSelfType none t with
    | error e => rw [ht] at h; simp at h
    | ok t2 =>
      rw [ht] at h
      simp only [ok_bind] at h
      cases h
      obtain ⟨he, hn⟩ := ih t2 ht
      subst he
      simp [Ty.noSelf, hn]
  · intro types ih t' h
    simp only [canonicalizeSelfType] at h
    cases hts : canonicalizeSelfTypeList none types with
    | error e => rw [hts] at h; simp at h
    | ok ts2 =>
      rw [hts] at h
      simp only [ok_bind] at h
      cases h
      obtain ⟨he, hn⟩ := ih ts2 hts
      subst he
      simp [Ty.noSelf, hn]
  · intro t hns hna hnt t' h
    cases t with
    | selfType => exact absurd rfl hns
    | array t2 dims => exact absurd rfl (hna t2 dims)
    | tuple types => exact absurd rfl (hnt types)
    | address => simp only [canonicalizeSelfType] at h; cases h; simp [Ty.noSelf]
    | boolean => simp only [canonicalizeSelfType] at h; cases h; simp [Ty.noSelf]
    | char => simp only [canonicalizeSelfType] at h; cases h; simp [Ty.noSelf]
    | field => simp only [canonicalizeSelfType] at h; cases h; simp [Ty.noSelf]
    | group => simp only [canonicalizeSelfType] at h; cases h; simp [Ty.noSelf]
    | integer i => simp only [canonicalizeSelfType] at h; cases h; simp [Ty.noSelf]
    | identifier id => simp only [canonicalizeSelfType] at h; cases h; simp [Ty.noSelf]
    | err => simp only [canonicalizeSelfType] at h; cases h; simp [Ty.noSelf]
  · intro ts' h
    simp only [canonicalizeSelfTypeList] at h
    cases h
    simp [tyListNoSelf]
  · intro t ts ih1 ih2 ts' h
    simp only [canonicalizeSelfTypeList] at h
    cases ht : canonicalizeSelfType none t with
    | error e => rw [ht] at h; simp at h
    | ok t2 =>
      rw [ht] at h
      cases hts : canonicalizeSelfTypeList none ts with
      | error e => rw [hts] at h; simp at h
      | ok ts2 =>
        rw [hts] at h
        simp only [ok_bind] at h
        cases h
        obtain ⟨he1, hn1⟩ := ih1 t2 ht
        obtain ⟨he2, hn2⟩ := ih2 ts2 hts
        subst he1; subst he2
        simp [tyListNoSelf, hn1, hn2]

/-- On a self-free type, `canonicalize_self_type` is the identity for any
circuit-name context. -/
theorem noSelf_canonicalizeSelfType (name : Option Identifier) :
    ∀ t, t.noSelf = true → canonicalizeSelfType name t = .ok t := by
  have main :=
    canonicalizeSelfType.induct name
      (fun t => t.noSelf = true → canonicalizeSelfType name t = .ok t)
      (fun ts => tyListNoSelf ts = true → canonicalizeSelfTypeList name ts = .ok ts)
      ?_ ?_ ?_ ?_ ?_ ?_ ?_
  · exact fun t => main t
  · intro n _ h; simp [Ty.noSelf] at h
  · intro _ h; simp [Ty.noSelf] at h
  · intro t dims ih h
    simp only [Ty.noSelf] at h
    simp [canonicalizeSelfType, ih h]
  · intro types ih h
    simp only [Ty.noSelf] at h
    simp [canonicalizeSelfType, ih h]
  · intro t hns hna hnt _
    cases t with
    | selfType => exact absurd rfl hns
    | array t2 dims => exact absurd rfl (hna t2 dims)
    | tuple types => exact absurd rfl (hnt types)
    | address => simp [canonicalizeSelfType]
    | boolean => simp [canonicalizeSelfType]
    | char => simp [canonicalizeSelfType]
    | field => simp [canonicalizeSelfType]
    | group => simp [canonicalizeSelfType]
    | integer i => simp [canonicalizeSelfType]
    | identifier id => simp [canonicalizeSelfType]
    | err => simp [canonicalizeSelfType]
  · intro _
    simp [canonicalizeSelfTypeList]
  · intro t ts ih1 ih2 h
    simp only [tyListNoSelf, Bool.and_eq_true] at h
    simp [canonicalizeSelfTypeList, ih1 h.1, ih2 h.2]

/-- With a circuit name in scope, `canonicalize_self_type` always succeeds,
its output is self-free, and it preserves canonical structure (array
dimensions and tuple arities are untouched). -/
theorem canonicalizeSelfType_some_spec (n : Identifier) :
    ∀ t t', canonicalizeSelfType (some n) t = .ok t' →
      t'.noSelf = true ∧ ∀ ic ic', t.canonical ic = true → t'.canonical ic' = true := by
  have main :=
    canonicalizeSelfType.induct (some n)
      (fun t => ∀ t', canonicalizeSelfType (some n) t = .ok t' →
        t'.noSelf = true ∧ ∀ ic ic', t.canonical ic = true → t'.canonical ic' = true)
      (fun ts => ∀ ts', canonicalizeSelfTypeList (some n) ts = .ok ts' →
        ts'.length = ts.length ∧ tyListNoSelf ts' = true ∧
        ∀ ic ic', tyListCanonical ic ts = true → tyListCanonical ic' ts' = true)
      ?_ ?_ ?_ ?_ ?_ ?_ ?_
  · exact fun t => main t
  · intro n' hn t' h
    simp only [canonicalizeSelfType] at h
    cases h
    exact ⟨by simp [Ty.noSelf], fun ic ic' _ => by simp [Ty.canonical]⟩
  · intro hn; simp at hn
  · intro t dims ih t' h
    simp only [canonicalizeSelfType] at h
    cases ht : canonicalizeSelfType (some n) t with
    | error e => rw [ht] at h; simp at h
    | ok t2 =>
      rw [ht] at h
      simp only [ok_bind] at h
      cases h
      obtain ⟨hn2, hc2⟩ := ih t2 ht
      refine ⟨by simp [Ty.noSelf, hn2], fun ic ic' hc => ?_⟩
      simp only [Ty.canonical, Bool.and_eq_true] at hc ⊢
      exact ⟨hc.1, hc2 ic ic' hc.2⟩
  · intro types ih t' h
    simp only [canonicalizeSelfType] at h
    cases hts : canonicalizeSelfTypeList (some n) types with
    | error e => rw [hts] at h; simp at h
    | ok ts2 =>
      rw [hts] at h
      simp only [ok_bind] at h
      cases h
      obtain ⟨hlen, hn2, hc2⟩ := ih ts2 hts
      refine ⟨by simp [Ty.noSelf, hn2], fun ic ic' hc => ?_⟩
      simp only [Ty.canonical, Bool.and_eq_true] at hc ⊢
      refine ⟨by rw [hlen]; exact hc.1, hc2 ic ic' hc.2⟩
  · intro t hns hna hnt t' h
    cases t with
    | selfType => exact absurd rfl hns
    | array t2 dims => exact absurd rfl (hna t2 dims)
    | tuple types => exact absurd rfl (hnt types)
    | address =>
      simp only [canonicalizeSelfType] at h; cases h
      exact ⟨by simp [Ty.noSelf], fun ic ic' _ => by simp [Ty.canonical]⟩
    | boolean =>
      simp only [canonicalizeSelfType] at h; cases h
      exact ⟨by simp [Ty.noSelf], fun ic ic' _ => by simp [Ty.canonical]⟩
    | char =>
      simp only [canonicalizeSelfType] at h; cases h
      exact ⟨by simp [Ty.noSelf], fun ic ic' _ => by simp [Ty.canonical]⟩
    | field =>
      simp only [canonicalizeSelfType] at h; cases h
      exact ⟨by simp [Ty.noSelf], fun ic ic' _ => by simp [Ty.canonical]⟩
    | group =>
      simp only [canonicalizeSelfType] at h; cases h
      exact ⟨by simp [Ty.noSelf], fun ic ic' _ => by simp [Ty.canonical]⟩
    | integer i =>
      simp only [canonicalizeSelfType] at h; cases h
      exact ⟨by simp [Ty.noSelf], fun ic ic' _ => by simp [Ty.canonical]⟩
    | identifier id =>
      simp only [canonicalizeSelfType] at h; cases h
      exact ⟨by simp [Ty.noSelf], fun ic ic' _ => by simp [Ty.canonical]⟩
    | err =>
      simp only [canonicalizeSelfType] at h; cases h
      exact ⟨by simp [Ty.noSelf], fun ic ic' _ => by simp [Ty.canonical]⟩
  · intro ts' h
    simp only [canonicalizeSelfTypeList] at h
    cases h
    exact ⟨rfl, by simp [tyListNoSelf], fun ic ic' _ => by simp [tyListCanonical]⟩
  · intro t ts ih1 ih2 ts' h
    simp only [canonicalizeSelfTypeList] at h
    cases ht : canonicalizeSelfType (some n) t with
    | error e => rw [ht] at h; simp at h
    | ok t2 =>
      rw [ht] at h
      cases hts : canonicalizeSelfTypeList (some n) ts with
      | error e => rw [hts] at h; simp at h
      | ok ts2 =>
        rw [hts] at h
        simp only [ok_bind] at h
        cases h
        obtain ⟨hn1, hc1⟩ := ih1 t2 ht
        obtain ⟨hlen, hn2, hc2⟩ := ih2 ts2 hts
        refine ⟨by simp [hlen], by simp [tyListNoSelf, hn1, hn2], fun ic ic' hc => ?_⟩
        simp only [tyListCanonical, Bool.and_eq_true] at hc ⊢
        exact ⟨hc1 ic ic' hc.1, hc2 ic ic' hc.2⟩

/-- A self-free type is canonical for one circuit flag exactly when it is
for the other. -/
theorem canonical_of_noSelf :
    ∀ t : Ty, t.noSelf = true → ∀ ic ic', t.canonical ic = true → t.canonical ic' = true := by
  have main :=
    Ty.noSelf.induct
      (fun t => t.noSelf = true → ∀ ic ic', t.canonical ic = true → t.canonical ic' = true)
      (fun ts => tyListNoSelf ts = true →
        ∀ ic ic', tyListCanonical ic ts = true → tyListCanonical ic' ts = true)
      ?_ ?_ ?_ ?_ ?_ ?_
  · exact fun t => main t
  · intro h; simp [Ty.noSelf] at h
  · intro t dims ih h ic ic' hc
    simp only [Ty.noSelf] at h
    simp only [Ty.canonical, Bool.and_eq_true] at hc ⊢
    exact ⟨hc.1, ih h ic ic' hc.2⟩
  · intro types ih h ic ic' hc
    simp only [Ty.noSelf] at h
    simp only [Ty.canonical, Bool.and_eq_true] at hc ⊢
    exact ⟨hc.1, ih h ic ic' hc.2⟩
  · intro t hns hna hnt _ ic ic' hc
    cases t with
    | selfType => exact absurd rfl hns
    | array t2 dims => exact absurd rfl (hna t2 dims)
    | tuple types => exact absurd rfl (hnt types)
    | address => simp [Ty.canonical]
    | boolean => simp [Ty.canonical]
    | char => simp [Ty.canonical]
    | field => simp [Ty.canonical]
    | group => simp [Ty.canonical]
    | integer i => simp [Ty.canonical]
    | identifier id => simp [Ty.canonical]
    | err => simp [Ty.canonical]
  · intro _ ic ic' _
    simp [tyListCanonical]
  · intro t ts ih1 ih2 h ic ic' hc
    simp only [tyListNoSelf, Bool.and_eq_true] at h
    simp only [tyListCanonical, Bool.and_eq_true] at hc ⊢
    exact ⟨ih1 h.1 ic ic' hc.1, ih2 h.2 ic ic' hc.2⟩

/-! ### Expression-level lemmas -/

theorem reduceStringChars_fixed (ic : Bool) (span : Span) (bytes : List UInt8) :
    ∀ (cs : List LChar) (index colAdder : Nat) (els : List SpreadOrExpression),
      reduceStringChars span bytes cs index colAdder = .ok els →
      spreadListDirFixed ic els = true := by
  intro cs
  induction cs with
  | nil =>
    intro index colAdder els h
    simp only [reduceStringChars] at h
    cases h
    simp [spreadListDirFixed]
  | cons c rest ih =>
    intro index colAdder els h
    simp only [reduceStringChars] at h
    split at h
    · -- bytes[col_start - 1] out of range
      simp at h
    · -- some b
      split at h
      · -- escape: bytes[col_start - 1] == b'\\'
        split at h
        · -- bytes[col_start] out of range
          simp at h
        · -- some b2
          split_ifs at h with h120 h117
          · -- \xNN
            simp only [pure_eq_ok, ok_bind, bind_eq_ok_iff, Except.ok.injEq] at h
            obtain ⟨rest', hrest, h⟩ := h
            subst h
            simp only [spreadListDirFixed, Expression.dirFixed, Bool.and_eq_true]
            exact ⟨trivial, ih _ _ rest' hrest⟩
          · -- \u{...}
            simp only [pure_eq_ok, ok_bind, bind_eq_ok_iff, Except.ok.injEq] at h
            obtain ⟨w, hw, rest', hrest, h⟩ := h
            subst h
            simp only [spreadListDirFixed, Expression.dirFixed, Bool.and_eq_true]
            exact ⟨trivial, ih _ _ rest' hrest⟩
          · -- single-character escape
            simp only [pure_eq_ok, ok_bind, bind_eq_ok_iff, Except.ok.injEq] at h
            obtain ⟨rest', hrest, h⟩ := h
            subst h
            simp only [spreadListDirFixed, Expression.dirFixed, Bool.and_eq_true]
            exact ⟨trivial, ih _ _ rest' hrest⟩
      · -- plain character
        simp only [pure_eq_ok, ok_bind, bind_eq_ok_iff, Except.ok.injEq] at h
        obtain ⟨rest', hrest, h⟩ := h
        subst h
        simp only [spreadListDirFixed, Expression.dirFixed, Bool.and_eq_true]
        exact ⟨trivial, ih _ _ rest' hrest⟩

theorem reduceString_fixed (ic : Bool) (s : List LChar) (span : Span) (e' : Expression)
    (h : reduceString s span = .ok e') : e'.dirFixed ic = true := by
  simp only [reduceString] at h
  split_ifs at h with h1
  cases hc : reduceStringChars span span.content s 0 0 with
  | error e => rw [hc] at h; simp at h
  | ok els =>
    rw [hc] at h
    simp only [ok_bind] at h
    split_ifs at h with h2
    cases h
    simpa [Expression.dirFixed] using reduceStringChars_fixed ic span span.content s 0 0 els hc

theorem arrayInitFold_fixed (ic : Bool) (span : Span) :
    ∀ (rest : List Nat) (base : Expression), base.dirFixed ic = true →
      (rest.foldl (fun elem dim => Expression.arrayInit [dim] elem span) base).dirFixed ic
        = true := by
  intro rest
  induction rest with
  | nil => intro base hb; simpa using hb
  | cons d rest ih =>
    intro base hb
    simp only [List.foldl_cons]
    exact ih (Expression.arrayInit [d] base span) (by simp [Expression.dirFixed, hb])

theorem reduceArrayInit_fixed (ic : Bool) (dims : List Nat) (span : Span)
    (el out : Expression) (hel : el.dirFixed ic = true)
    (h : reduceArrayInit dims span el = .ok out) : out.dirFixed ic = true := by
  simp only [reduceArrayInit] at h
  cases hrev : dims.reverse with
  | nil => rw [hrev] at h; simp at h
  | cons d rest =>
    rw [hrev] at h
    simp only [Except.ok.injEq] at h
    subst h
    exact arrayInitFold_fixed ic span rest (Expression.arrayInit [d] el span)
      (by simp [Expression.dirFixed, hel])

theorem dirExpression_ok_fixed (ic : Bool) :
    ∀ e e', dirExpression ic e = .ok e' → e'.dirFixed ic = true := by
  have main :=
    dirExpression.induct ic
      (fun e => ∀ e', dirExpression ic e = .ok e' → e'.dirFixed ic = true)
      (fun ms => ∀ ms', dirMemberInits ic ms = .ok ms' → memberInitsDirFixed ic ms' = true)
      (fun o => ∀ o', dirOptExpression ic o = .ok o' → optExprDirFixed ic o' = true)
      (fun es => ∀ es', dirExpressionList ic es = .ok es' → exprListDirFixed ic es' = true)
      (fun sp => ∀ sp', dirSpreadList ic sp = .ok sp' → spreadListDirFixed ic sp' = true)
      (fun a => ∀ a', dirAccess ic a = .ok a' → a'.dirFixed ic = true)
      ?_ ?_ ?_ ?_ ?_ ?_ ?_ ?_ ?_ ?_ ?_ ?_ ?_ ?_ ?_ ?_ ?_ ?_ ?_ ?_ ?_ ?_ ?_ ?_ ?_ ?_ ?_ ?_
  · exact fun e => main e
  · -- identifier
    intro id e' h
    simp only [dirExpression] at h
    cases h
    simp [Expression.dirFixed]
  · -- value: string
    intro s span e' h
    simp only [dirExpression] at h
    exact reduceString_fixed ic s span e' h
  · -- value: non-string
    intro v hns e' h
    cases v with
    | string s span => exact absurd rfl (hns s span)
    | address a span => simp only [dirExpression] at h; cases h; simp [Expression.dirFixed]
    | boolean b span => simp only [dirExpression] at h; cases h; simp [Expression.dirFixed]
    | char c => simp only [dirExpression] at h; cases h; simp [Expression.dirFixed]
    | field f span => simp only [dirExpression] at h; cases h; simp [Expression.dirFixed]
    | group g => simp only [dirExpression] at h; cases h; simp [Expression.dirFixed]
    | integer t v span => simp only [dirExpression] at h; cases h; simp [Expression.dirFixed]
  · -- binary
    intro left right op span ihl ihr e' h
    simp only [dirExpression, bind_eq_ok_iff, Except.ok.injEq] at h
    obtain ⟨l', hl, r', hr, h⟩ := h
    subst h
    simp [Expression.dirFixed, ihl l' hl, ihr r' hr]
  · -- unary
    intro inner op span ih e' h
    simp only [dirExpression, bind_eq_ok_iff, Except.ok.injEq] at h
    obtain ⟨i', hi, h⟩ := h
    subst h
    simp [Expression.dirFixed, ih i' hi]
  · -- ternary
    intro condition ifTrue ifFalse span ihc iht ihf e' h
    simp only [dirExpression, bind_eq_ok_iff, Except.ok.injEq] at h
    obtain ⟨c', hc, t', ht, f', hf, h⟩ := h
    subst h
    simp [Expression.dirFixed, ihc c' hc, iht t' ht, ihf f' hf]
  · -- cast
    intro inner targetType span ih e' h
    simp only [dirExpression, bind_eq_ok_iff, Except.ok.injEq] at h
    obtain ⟨i', hi, t', ht, h⟩ := h
    subst h
    simp [Expression.dirFixed, ih i' hi, dirType_ok_canonical ic span targetType t' ht]
  · -- access
    intro a iha e' h
    simp only [dirExpression, bind_eq_ok_iff, Except.ok.injEq] at h
    obtain ⟨a', ha, h⟩ := h
    subst h
    simp [Expression.dirFixed, iha a' ha]
  · -- arrayInline
    intro elements span ih e' h
    simp only [dirExpression, bind_eq_ok_iff, Except.ok.injEq] at h
    obtain ⟨els', hels, h⟩ := h
    subst h
    simp [Expression.dirFixed, ih els' hels]
  · -- arrayInit
    intro dimensions element span ih e' h
    simp only [dirExpression, bind_eq_ok_iff] at h
    obtain ⟨el', hel, h⟩ := h
    exact reduceArrayInit_fixed ic dimensions span el' e' (ih el' hel) h
  · -- tupleInit
    intro elements span ih e' h
    simp only [dirExpression, bind_eq_ok_iff, Except.ok.injEq] at h
    obtain ⟨els', hels, h⟩ := h
    subst h
    simp [Expression.dirFixed, ih els' hels]
  · -- circuitInit
    intro cname members span ih e' h
    simp only [dirExpression, bind_eq_ok_iff, Except.ok.injEq] at h
    obtain ⟨ms', hms, h⟩ := h
    subst h
    simp [Expression.dirFixed, ih ms' hms]
  · -- call
    intro function arguments span ihf iha e' h
    simp only [dirExpression, bind_eq_ok_iff, Except.ok.injEq] at h
    obtain ⟨f', hf, as', has, h⟩ := h
    subst h
    simp [Expression.dirFixed, ihf f' hf, iha as' has]
  · -- err
    intro span e' h
    simp only [dirExpression] at h
    cases h
    simp [Expression.dirFixed]
  · -- access: array
    intro array index span iha ihi a' h
    simp only [dirAccess, bind_eq_ok_iff, Except.ok.injEq] at h
    obtain ⟨x', hx, i', hi, h⟩ := h
    subst h
    simp [AccessExpression.dirFixed, iha x' hx, ihi i' hi]
  · -- access: arrayRange
    intro array left right span iha ihl ihr a' h
    simp only [dirAccess, bind_eq_ok_iff, Except.ok.injEq] at h
    obtain ⟨x', hx, l', hl, r', hr, h⟩ := h
    subst h
    simp [AccessExpression.dirFixed, iha x' hx, ihl l' hl, ihr r' hr]
  · -- access: member
    intro inner mname span type_ ih a' h
    simp only [dirAccess, bind_eq_ok_iff, Except.ok.injEq] at h
    obtain ⟨i', hi, h⟩ := h
    cases type_ with
    | none =>
      simp only [pure_eq_ok, ok_bind, Except.ok.injEq] at h
      subst h
      simp [AccessExpression.dirFixed, ih i' hi]
    | some t =>
      simp only [bind_eq_ok_iff, pure_eq_ok, Except.ok.injEq] at h
      obtain ⟨t', ht, a2, ha2, h⟩ := h
      subst ha2
      subst h
      simp [AccessExpression.dirFixed, ih i' hi, dirType_ok_canonical ic span t t' ht]
  · -- access: tuple
    intro tuple index span ih a' h
    simp only [dirAccess, bind_eq_ok_iff, Except.ok.injEq] at h
    obtain ⟨t', ht, h⟩ := h
    subst h
    simp [AccessExpression.dirFixed, ih t' ht]
  · -- access: static
    intro inner sname type_ span ih a' h
    simp only [dirAccess, bind_eq_ok_iff, Except.ok.injEq] at h
    obtain ⟨i', hi, t', ht, h⟩ := h
    subst h
    simp [AccessExpression.dirFixed, ih i' hi, dirType_ok_canonical ic span type_ t' ht]
  · -- spread list nil
    intro sp' h
    simp only [dirSpreadList] at h
    cases h
    simp [spreadListDirFixed]
  · -- spread list cons expression
    intro e rest ihe ihr sp' h
    simp only [dirSpreadList, bind_eq_ok_iff, Except.ok.injEq] at h
    obtain ⟨e', he, r', hr, h⟩ := h
    subst h
    simp [spreadListDirFixed, ihe e' he, ihr r' hr]
  · -- spread list cons spread
    intro e rest ihe ihr sp' h
    simp only [dirSpreadList, bind_eq_ok_iff, Except.ok.injEq] at h
    obtain ⟨e', he, r', hr, h⟩ := h
    subst h
    simp [spreadListDirFixed, ihe e' he, ihr r' hr]
  · -- expr list nil
    intro es' h
    simp only [dirExpressionList] at h
    cases h
    simp [exprListDirFixed]
  · -- expr list cons
    intro e es ihe ihs es' h
    simp only [dirExpressionList, bind_eq_ok_iff, Except.ok.injEq] at h
    obtain ⟨e', he, es2, hes, h⟩ := h
    subst h
    simp [exprListDirFixed, ihe e' he, ihs es2 hes]
  · -- member inits nil
    intro ms' h
    simp only [dirMemberInits] at h
    cases h
    simp [memberInitsDirFixed]
  · -- member inits cons
    intro id expr rest ihe ihr ms' h
    simp only [dirMemberInits, bind_eq_ok_iff, Except.ok.injEq] at h
    obtain ⟨e', he, r', hr, h⟩ := h
    subst h
    simp [memberInitsDirFixed, ihe e' he, ihr r' hr]
  · -- opt none
    intro o' h
    simp only [dirOptExpression] at h
    cases h
    simp [optExprDirFixed]
  · -- opt some
    intro e ih o' h
    simp only [dirOptExpression, bind_eq_ok_iff, Except.ok.injEq] at h
    obtain ⟨e', he, h⟩ := h
    subst h
    simpa [optExprDirFixed] using ih e' he

theorem fixed_dirExpression_id (ic : Bool) :
    ∀ e : Expression, e.dirFixed ic = true → dirExpression ic e = .ok e := by
  have main :=
    dirExpression.induct ic
      (fun e => e.dirFixed ic = true → dirExpression ic e = .ok e)
      (fun ms => memberInitsDirFixed ic ms = true → dirMemberInits ic ms = .ok ms)
      (fun o => optExprDirFixed ic o = true → dirOptExpression ic o = .ok o)
      (fun es => exprListDirFixed ic es = true → dirExpressionList ic es = .ok es)
      (fun sp => spreadListDirFixed ic sp = true → dirSpreadList ic sp = .ok sp)
      (fun a => a.dirFixed ic = true → dirAccess ic a = .ok a)
      ?_ ?_ ?_ ?_ ?_ ?_ ?_ ?_ ?_ ?_ ?_ ?_ ?_ ?_ ?_ ?_ ?_ ?_ ?_ ?_ ?_ ?_ ?_ ?_ ?_ ?_ ?_ ?_
  · exact fun e => main e
  · -- identifier
    intro id _
    simp [dirExpression]
  · -- value: string
    intro s span hf
    simp [Expression.dirFixed] at hf
  · -- value: non-string
    intro v hns _
    cases v with
    | string s span => exact absurd rfl (hns s span)
    | address a span => simp [dirExpression]
    | boolean b span => simp [dirExpression]
    | char c => simp [dirExpression]
    | field f span => simp [dirExpression]
    | group g => simp [dirExpression]
    | integer t v span => simp [dirExpression]
  · -- binary
    intro left right op span ihl ihr hf
    simp only [Expression.dirFixed, Bool.and_eq_true] at hf
    simp [dirExpression, ihl hf.1, ihr hf.2]
  · -- unary
    intro inner op span ih hf
    simp only [Expression.dirFixed] at hf
    simp [dirExpression, ih hf]
  · -- ternary
    intro condition ifTrue ifFalse span ihc iht ihf hf
    simp only [Expression.dirFixed, Bool.and_eq_true] at hf
    simp [dirExpression, ihc hf.1.1, iht hf.1.2, ihf hf.2]
  · -- cast
    intro inner targetType span ih hf
    simp only [Expression.dirFixed, Bool.and_eq_true] at hf
    simp [dirExpression, ih hf.1, canonical_dirType_fix ic span targetType hf.2]
  · -- access
    intro a iha hf
    simp only [Expression.dirFixed] at hf
    simp [dirExpression, iha hf]
  · -- arrayInline
    intro elements span ih hf
    simp only [Expression.dirFixed] at hf
    simp [dirExpression, ih hf]
  · -- arrayInit
    intro dimensions element span ih hf
    simp only [Expression.dirFixed, Bool.and_eq_true, beq_iff_eq] at hf
    obtain ⟨hlen, hel⟩ := hf
    match dimensions, hlen with
    | [d], _ =>
      simp [dirExpression, ih hel, reduceArrayInit]
  · -- tupleInit
    intro elements span ih hf
    simp only [Expression.dirFixed] at hf
    simp [dirExpression, ih hf]
  · -- circuitInit
    intro cname members span ih hf
    simp only [Expression.dirFixed] at hf
    simp [dirExpression, ih hf]
  · -- call
    intro function arguments span ihf iha hf
    simp only [Expression.dirFixed, Bool.and_eq_true] at hf
    simp [dirExpression, ihf hf.1, iha hf.2]
  · -- err
    intro span _
    simp [dirExpression]
  · -- access: array
    intro array index span iha ihi hf
    simp only [AccessExpression.dirFixed, Bool.and_eq_true] at hf
    simp [dirAccess, iha hf.1, ihi hf.2]
  · -- access: arrayRange
    intro array left right span iha ihl ihr hf
    simp only [AccessExpression.dirFixed, Bool.and_eq_true] at hf
    simp [dirAccess, iha hf.1.1, ihl hf.1.2, ihr hf.2]
  · -- access: member
    intro inner mname span type_ ih hf
    simp only [AccessExpression.dirFixed, Bool.and_eq_true] at hf
    cases type_ with
    | none => simp [dirAccess, ih hf.1]
    | some t =>
      simp [dirAccess, ih hf.1, canonical_dirType_fix ic span t hf.2]
  · -- access: tuple
    intro tuple index span ih hf
    simp only [AccessExpression.dirFixed] at hf
    simp [dirAccess, ih hf]
  · -- access: static
    intro inner sname type_ span ih hf
    simp only [AccessExpression.dirFixed, Bool.and_eq_true] at hf
    simp [dirAccess, ih hf.1, canonical_dirType_fix ic span type_ hf.2]
  · -- spread list nil
    intro _
    simp [dirSpreadList]
  · -- spread list cons expression
    intro e rest ihe ihr hf
    simp only [spreadListDirFixed, Bool.and_eq_true] at hf
    simp [dirSpreadList, ihe hf.1, ihr hf.2]
  · -- spread list cons spread
    intro e rest ihe ihr hf
    simp only [spreadListDirFixed, Bool.and_eq_true] at hf
    simp [dirSpreadList, ihe hf.1, ihr hf.2]
  · -- expr list nil
    intro _
    simp [dirExpressionList]
  · -- expr list cons
    intro e es ihe ihs hf
    simp only [exprListDirFixed, Bool.and_eq_true] at hf
    simp [dirExpressionList, ihe hf.1, ihs hf.2]
  · -- member inits nil
    intro _
    simp [dirMemberInits]
  · -- member inits cons
    intro id expr rest ihe ihr hf
    simp only [memberInitsDirFixed, Bool.and_eq_true] at hf
    simp [dirMemberInits, ihe hf.1, ihr hf.2]
  · -- opt none
    intro _
    simp [dirOptExpression]
  · -- opt some
    intro e ih hf
    simp only [optExprDirFixed] at hf
    simp [dirOptExpression, ih hf]

/-- Driver reduction of expressions is idempotent. -/
theorem dirExpression_idem (ic : Bool) (e e' : Expression)
    (h : dirExpression ic e = .ok e') : dirExpression ic e' = .ok e' :=
  fixed_dirExpression_id ic e' (dirExpression_ok_fixed ic e e' h)

/-- `canonicalize_self_type` preserves canonical structure, for any
circuit-name context. -/
theorem canonicalizeSelfType_preserves_canonical (name : Option Identifier) (ic : Bool)
    (t t' : Ty) (hc : t.canonical ic = true)
    (h : canonicalizeSelfType name t = .ok t') : t'.canonical ic = true := by
  cases name with
  | none =>
    obtain ⟨he, _⟩ := canonicalizeSelfType_none_spec t t' h
    subst he
    exact hc
  | some n => exact (canonicalizeSelfType_some_spec n t t' h).2 ic ic hc

/-- `canonicalize_self_type` is idempotent. -/
theorem canonicalizeSelfType_idem (name : Option Identifier) (t t' : Ty)
    (h : canonicalizeSelfType name t = .ok t') : canonicalizeSelfType name t' = .ok t' := by
  cases name with
  | none =>
    obtain ⟨he, hn⟩ := canonicalizeSelfType_none_spec t t' h
    subst he
    exact noSelf_canonicalizeSelfType none t' hn
  | some n =>
    exact noSelf_canonicalizeSelfType (some n) t' (canonicalizeSelfType_some_spec n t t' h).1

theorem canonicalizeExpression_preserves_fixed (name : Option Identifier) (ic : Bool) :
    ∀ e e', e.dirFixed ic = true → canonicalizeExpression name e = .ok e' →
      e'.dirFixed ic = true := by
  have main :=
    canonicalizeExpression.induct name
      (fun e => ∀ e', e.dirFixed ic = true → canonicalizeExpression name e = .ok e' →
        e'.dirFixed ic = true)
      (fun ms => ∀ ms', memberInitsDirFixed ic ms = true →
        canonicalizeMemberInits name ms = .ok ms' → memberInitsDirFixed ic ms' = true)
      (fun o => ∀ o', optExprDirFixed ic o = true →
        canonicalizeOptExpression name o = .ok o' → optExprDirFixed ic o' = true)
      (fun es => ∀ es', exprListDirFixed ic es = true →
        canonicalizeExpressionList name es = .ok es' → exprListDirFixed ic es' = true)
      (fun sp => ∀ sp', spreadListDirFixed ic sp = true →
        canonicalizeSpreadList name sp = .ok sp' → spreadListDirFixed ic sp' = true)
      (fun a => ∀ a', a.dirFixed ic = true →
        canonicalizeAccessExpression name a = .ok a' → a'.dirFixed ic = true)
      ?_ ?_ ?_ ?_ ?_ ?_ ?_ ?_ ?_ ?_ ?_ ?_ ?_ ?_ ?_ ?_ ?_ ?_ ?_ ?_ ?_ ?_ ?_ ?_ ?_ ?_ ?_ ?_
  · exact fun e => main e
  · -- unary
    intro inner op span ih e' hf h
    simp only [Expression.dirFixed] at hf
    simp only [canonicalizeExpression, bind_eq_ok_iff, Except.ok.injEq] at h
    obtain ⟨i', hi, h⟩ := h
    subst h
    simp [Expression.dirFixed, ih i' hf hi]
  · -- binary
    intro left right op span ihl ihr e' hf h
    simp only [Expression.dirFixed, Bool.and_eq_true] at hf
    simp only [canonicalizeExpression, bind_eq_ok_iff, Except.ok.injEq] at h
    obtain ⟨l', hl, r', hr, h⟩ := h
    subst h
    simp [Expression.dirFixed, ihl l' hf.1 hl, ihr r' hf.2 hr]
  · -- ternary
    intro condition ifTrue ifFalse span ihc iht ihf e' hf h
    simp only [Expression.dirFixed, Bool.and_eq_true] at hf
    simp only [canonicalizeExpression, bind_eq_ok_iff, Except.ok.injEq] at h
    obtain ⟨c', hc, t', ht, f', hfl, h⟩ := h
    subst h
    simp [Expression.dirFixed, ihc c' hf.1.1 hc, iht t' hf.1.2 ht, ihf f' hf.2 hfl]
  · -- cast
    intro inner targetType span ih e' hf h
    simp only [Expression.dirFixed, Bool.and_eq_true] at hf
    simp only [canonicalizeExpression, bind_eq_ok_iff, Except.ok.injEq] at h
    obtain ⟨i', hi, t', ht, h⟩ := h
    subst h
    simp [Expression.dirFixed, ih i' hf.1 hi,
      canonicalizeSelfType_preserves_canonical name ic targetType t' hf.2 ht]
  · -- access
    intro a iha e' hf h
    simp only [Expression.dirFixed] at hf
    simp only [canonicalizeExpression, bind_eq_ok_iff, Except.ok.injEq] at h
    obtain ⟨a', ha, h⟩ := h
    subst h
    simp [Expression.dirFixed, iha a' hf ha]
  · -- arrayInline
    intro elements span ih e' hf h
    simp only [Expression.dirFixed] at hf
    simp only [canonicalizeExpression, bind_eq_ok_iff, Except.ok.injEq] at h
    obtain ⟨els', hels, h⟩ := h
    subst h
    simp [Expression.dirFixed, ih els' hf hels]
  · -- arrayInit
    intro dimensions element span ih e' hf h
    simp only [Expression.dirFixed, Bool.and_eq_true] at hf
    simp only [canonicalizeExpression, bind_eq_ok_iff, Except.ok.injEq] at h
    obtain ⟨el', hel, h⟩ := h
    subst h
    simp [Expression.dirFixed, hf.1, ih el' hf.2 hel]
  · -- tupleInit
    intro elements span ih e' hf h
    simp only [Expression.dirFixed] at hf
    simp only [canonicalizeExpression, bind_eq_ok_iff, Except.ok.injEq] at h
    obtain ⟨els', hels, h⟩ := h
    subst h
    simp [Expression.dirFixed, ih els' hf hels]
  · -- circuitInit
    intro cname members span ih e' hf h
    simp only [Expression.dirFixed] at hf
    simp only [canonicalizeExpression, bind_eq_ok_iff, Except.ok.injEq] at h
    obtain ⟨ms', hms, h⟩ := h
    subst h
    simp [Expression.dirFixed, ih ms' hf hms]
  · -- call
    intro function arguments span ihf iha e' hf h
    simp only [Expression.dirFixed, Bool.and_eq_true] at hf
    simp only [canonicalizeExpression, bind_eq_ok_iff, Except.ok.injEq] at h
    obtain ⟨f', hfl, as', has, h⟩ := h
    subst h
    simp [Expression.dirFixed, ihf f' hf.1 hfl, iha as' hf.2 has]
  · -- identifier, name = some n, id = Self
    intro id n hn hself e' _ h
    subst hn
    simp only [canonicalizeExpression, hself, if_true, Except.ok.injEq] at h
    subst h
    simp [Expression.dirFixed]
  · -- identifier, name = some n, id ≠ Self
    intro id n hn hself e' _ h
    subst hn
    simp [canonicalizeExpression, hself] at h
    subst h
    simp [Expression.dirFixed]
  · -- identifier, name = none
    intro id hn e' _ h
    subst hn
    simp only [canonicalizeExpression, Except.ok.injEq] at h
    subst h
    simp [Expression.dirFixed]
  · -- fallback (value and err)
    intro e hnu hnb hnt hnc hna hnai hninit hntup hnci hncall hnid e' hf h
    cases e with
    | unary inner op span => exact absurd rfl (hnu inner op span)
    | binary left right op span => exact absurd rfl (hnb left right op span)
    | ternary c t f span => exact absurd rfl (hnt c t f span)
    | cast inner tt span => exact absurd rfl (hnc inner tt span)
    | access a => exact absurd rfl (hna a)
    | arrayInline els span => exact absurd rfl (hnai els span)
    | arrayInit dims el span => exact absurd rfl (hninit dims el span)
    | tupleInit els span => exact absurd rfl (hntup els span)
    | circuitInit cname ms span => exact absurd rfl (hnci cname ms span)
    | call f args span => exact absurd rfl (hncall f args span)
    | identifier id => exact absurd rfl (hnid id)
    | value v =>
      simp only [canonicalizeExpression, Except.ok.injEq] at h
      subst h
      exact hf
    | err span =>
      simp only [canonicalizeExpression, Except.ok.injEq] at h
      subst h
      exact hf
  · -- access: array
    intro array index span iha ihi a' hf h
    simp only [AccessExpression.dirFixed, Bool.and_eq_true] at hf
    simp only [canonicalizeAccessExpression, bind_eq_ok_iff, Except.ok.injEq] at h
    obtain ⟨x', hx, i', hi, h⟩ := h
    subst h
    simp [AccessExpression.dirFixed, iha x' hf.1 hx, ihi i' hf.2 hi]
  · -- access: arrayRange
    intro array left right span iha ihl ihr a' hf h
    simp only [AccessExpression.dirFixed, Bool.and_eq_true] at hf
    simp only [canonicalizeAccessExpression, bind_eq_ok_iff, Except.ok.injEq] at h
    obtain ⟨x', hx, l', hl, r', hr, h⟩ := h
    subst h
    simp [AccessExpression.dirFixed, iha x' hf.1.1 hx, ihl l' hf.1.2 hl, ihr r' hf.2 hr]
  · -- access: member
    intro inner mname span type_ ih a' hf h
    simp only [AccessExpression.dirFixed, Bool.and_eq_true] at hf
    simp only [canonicalizeAccessExpression, bind_eq_ok_iff, Except.ok.injEq] at h
    obtain ⟨i', hi, h⟩ := h
    subst h
    simp [AccessExpression.dirFixed, ih i' hf.1 hi]
  · -- access: tuple
    intro tuple index span ih a' hf h
    simp only [AccessExpression.dirFixed] at hf
    simp only [canonicalizeAccessExpression, bind_eq_ok_iff, Except.ok.injEq] at h
    obtain ⟨t', ht, h⟩ := h
    subst h
    simp [AccessExpression.dirFixed, ih t' hf ht]
  · -- access: static
    intro inner sname type_ span ih a' hf h
    simp only [AccessExpression.dirFixed, Bool.and_eq_true] at hf
    simp only [canonicalizeAccessExpression, bind_eq_ok_iff, Except.ok.injEq] at h
    obtain ⟨i', hi, t', ht, h⟩ := h
    subst h
    simp [AccessExpression.dirFixed, ih i' hf.1 hi,
      canonicalizeSelfType_preserves_canonical name ic type_ t' hf.2 ht]
  · -- spread nil
    intro sp' _ h
    simp only [canonicalizeSpreadList] at h
    cases h
    simp [spreadListDirFixed]
  · -- spread cons expression
    intro e rest ihe ihr sp' hf h
    simp only [spreadListDirFixed, Bool.and_eq_true] at hf
    simp only [canonicalizeSpreadList, bind_eq_ok_iff, Except.ok.injEq] at h
    obtain ⟨e', he, r', hr, h⟩ := h
    subst h
    simp [spreadListDirFixed, ihe e' hf.1 he, ihr r' hf.2 hr]
  · -- spread cons spread
    intro e rest ihe ihr sp' hf h
    simp only [spreadListDirFixed, Bool.and_eq_true] at hf
    simp only [canonicalizeSpreadList, bind_eq_ok_iff, Except.ok.injEq] at h
    obtain ⟨e', he, r', hr, h⟩ := h
    subst h
    simp [spreadListDirFixed, ihe e' hf.1 he, ihr r' hf.2 hr]
  · -- expr list nil
    intro es' _ h
    simp only [canonicalizeExpressionList] at h
    cases h
    simp [exprListDirFixed]
  · -- expr list cons
    intro e es ihe ihs es' hf h
    simp only [exprListDirFixed, Bool.and_eq_true] at hf
    simp only [canonicalizeExpressionList, bind_eq_ok_iff, Except.ok.injEq] at h
    obtain ⟨e', he, es2, hes, h⟩ := h
    subst h
    simp [exprListDirFixed, ihe e' hf.1 he, ihs es2 hf.2 hes]
  · -- member inits nil
    intro ms' _ h
    simp only [canonicalizeMemberInits] at h
    cases h
    simp [memberInitsDirFixed]
  · -- member inits cons
    intro id expr rest ihe ihr ms' hf h
    simp only [memberInitsDirFixed, Bool.and_eq_true] at hf
    simp only [canonicalizeMemberInits, bind_eq_ok_iff, Except.ok.injEq] at h
    obtain ⟨e', he, r', hr, h⟩ := h
    subst h
    simp [memberInitsDirFixed, ihe e' hf.1 he, ihr r' hf.2 hr]
  · -- opt none
    intro o' _ h
    simp only [canonicalizeOptExpression] at h
    cases h
    simp [optExprDirFixed]
  · -- opt some
    intro e ih o' hf h
    simp only [optExprDirFixed] at hf
    simp only [canonicalizeOptExpression, bind_eq_ok_iff, Except.ok.injEq] at h
    obtain ⟨e', he, h⟩ := h
    subst h
    simpa [optExprDirFixed] using ih e' hf he

theorem canonicalizeExpression_idem (name : Option Identifier) :
    ∀ e e', canonicalizeExpression name e = .ok e' →
      canonicalizeExpression name e' = .ok e' := by
  have main :=
    canonicalizeExpression.induct name
      (fun e => ∀ e', canonicalizeExpression name e = .ok e' →
        canonicalizeExpression name e' = .ok e')
      (fun ms => ∀ ms', canonicalizeMemberInits name ms = .ok ms' →
        canonicalizeMemberInits name ms' = .ok ms')
      (fun o => ∀ o', canonicalizeOptExpression name o = .ok o' →
        canonicalizeOptExpression name o' = .ok o')
      (fun es => ∀ es', canonicalizeExpressionList name es = .ok es' →
        canonicalizeExpressionList name es' = .ok es')
      (fun sp => ∀ sp', canonicalizeSpreadList name sp = .ok sp' →
        canonicalizeSpreadList name sp' = .ok sp')
      (fun a => ∀ a', canonicalizeAccessExpression name a = .ok a' →
        canonicalizeAccessExpression name a' = .ok a')
      ?_ ?_ ?_ ?_ ?_ ?_ ?_ ?_ ?_ ?_ ?_ ?_ ?_ ?_ ?_ ?_ ?_ ?_ ?_ ?_ ?_ ?_ ?_ ?_ ?_ ?_ ?_ ?_
  · exact fun e => main e
  · -- unary
    intro inner op span ih e' h
    simp only [canonicalizeExpression, bind_eq_ok_iff, Except.ok.injEq] at h
    obtain ⟨i', hi, h⟩ := h
    subst h
    simp [canonicalizeExpression, ih i' hi]
  · -- binary
    intro left right op span ihl ihr e' h
    simp only [canonicalizeExpression, bind_eq_ok_iff, Except.ok.injEq] at h
    obtain ⟨l', hl, r', hr, h⟩ := h
    subst h
    simp [canonicalizeExpression, ihl l' hl, ihr r' hr]
  · -- ternary
    intro condition ifTrue ifFalse span ihc iht ihf e' h
    simp only [canonicalizeExpression, bind_eq_ok_iff, Except.ok.injEq] at h
    obtain ⟨c', hc, t', ht, f', hfl, h⟩ := h
    subst h
    simp [canonicalizeExpression, ihc c' hc, iht t' ht, ihf f' hfl]
  · -- cast
    intro inner targetType span ih e' h
    simp only [canonicalizeExpression, bind_eq_ok_iff, Except.ok.injEq] at h
    obtain ⟨i', hi, t', ht, h⟩ := h
    subst h
    simp [canonicalizeExpression, ih i' hi, canonicalizeSelfType_idem name targetType t' ht]
  · -- access
    intro a iha e' h
    simp only [canonicalizeExpression, bind_eq_ok_iff, Except.ok.injEq] at h
    obtain ⟨a', ha, h⟩ := h
    subst h
    simp [canonicalizeExpression, iha a' ha]
  · -- arrayInline
    intro elements span ih e' h
    simp only [canonicalizeExpression, bind_eq_ok_iff, Except.ok.injEq] at h
    obtain ⟨els', hels, h⟩ := h
    subst h
    simp [canonicalizeExpression, ih els' hels]
  · -- arrayInit
    intro dimensions element span ih e' h
    simp only [canonicalizeExpression, bind_eq_ok_iff, Except.ok.injEq] at h
    obtain ⟨el', hel, h⟩ := h
    subst h
    simp [canonicalizeExpression, ih el' hel]
  · -- tupleInit
    intro elements span ih e' h
    simp only [canonicalizeExpression, bind_eq_ok_iff, Except.ok.injEq] at h
    obtain ⟨els', hels, h⟩ := h
    subst h
    simp [canonicalizeExpression, ih els' hels]
  · -- circuitInit
    intro cname members span ih e' h
    simp only [canonicalizeExpression, bind_eq_ok_iff, Except.ok.injEq] at h
    obtain ⟨ms', hms, h⟩ := h
    subst h
    cases name with
    | none => simp [canonicalizeExpression, ih ms' hms]
    | some n =>
      by_cases hc : (cname.name == "Self") = true
      · simp only [hc, if_true]
        cases h2 : (n.name == "Self") <;>
          simp [canonicalizeExpression, ih ms' hms, h2]
      · simp only [hc, if_false]
        simp [canonicalizeExpression, ih ms' hms, hc]
  · -- call
    intro function arguments span ihf iha e' h
    simp only [canonicalizeExpression, bind_eq_ok_iff, Except.ok.injEq] at h
    obtain ⟨f', hfl, as', has, h⟩ := h
    subst h
    simp [canonicalizeExpression, ihf f' hfl, iha as' has]
  · -- identifier, name = some n, id = Self
    intro id n hn hself e' h
    subst hn
    simp only [canonicalizeExpression, hself, if_true, Except.ok.injEq] at h
    subst h
    cases h2 : (n.name == "Self") <;> simp [canonicalizeExpression, h2]
  · -- identifier, name = some n, id ≠ Self
    intro id n hn hself e' h
    subst hn
    simp [canonicalizeExpression, hself] at h
    subst h
    simp [canonicalizeExpression, hself]
  · -- identifier, name = none
    intro id hn e' h
    subst hn
    simp only [canonicalizeExpression, Except.ok.injEq] at h
    subst h
    simp [canonicalizeExpression]
  · -- fallback (value and err)
    intro e hnu hnb hnt hnc hna hnai hninit hntup hnci hncall hnid e' h
    cases e with
    | unary inner op span => exact absurd rfl (hnu inner op span)
    | binary left right op span => exact absurd rfl (hnb left right op span)
    | ternary c t f span => exact absurd rfl (hnt c t f span)
    | cast inner tt span => exact absurd rfl (hnc inner tt span)
    | access a => exact absurd rfl (hna a)
    | arrayInline els span => exact absurd rfl (hnai els span)
    | arrayInit dims el span => exact absurd rfl (hninit dims el span)
    | tupleInit els span => exact absurd rfl (hntup els span)
    | circuitInit cname ms span => exact absurd rfl (hnci cname ms span)
    | call f args span => exact absurd rfl (hncall f args span)
    | identifier id => exact absurd rfl (hnid id)
    | value v =>
      simp only [canonicalizeExpression, Except.ok.injEq] at h
      subst h
      simp [canonicalizeExpression]
    | err span =>
      simp only [canonicalizeExpression, Except.ok.injEq] at h
      subst h
      simp [canonicalizeExpression]
  · -- access: array
    intro array index span iha ihi a' h
    simp only [canonicalizeAccessExpression, bind_eq_ok_iff, Except.ok.injEq] at h
    obtain ⟨x', hx, i', hi, h⟩ := h
    subst h
    simp [canonicalizeAccessExpression, iha x' hx, ihi i' hi]
  · -- access: arrayRange
    intro array left right span iha ihl ihr a' h
    simp only [canonicalizeAccessExpression, bind_eq_ok_iff, Except.ok.injEq] at h
    obtain ⟨x', hx, l', hl, r', hr, h⟩ := h
    subst h
    simp [canonicalizeAccessExpression, iha x' hx, ihl l' hl, ihr r' hr]
  · -- access: member
    intro inner mname span type_ ih a' h
    simp only [canonicalizeAccessExpression, bind_eq_ok_iff, Except.ok.injEq] at h
    obtain ⟨i', hi, h⟩ := h
    subst h
    simp [canonicalizeAccessExpression, ih i' hi]
  · -- access: tuple
    intro tuple index span ih a' h
    simp only [canonicalizeAccessExpression, bind_eq_ok_iff, Except.ok.injEq] at h
    obtain ⟨t', ht, h⟩ := h
    subst h
    simp [canonicalizeAccessExpression, ih t' ht]
  · -- access: static
    intro inner sname type_ span ih a' h
    simp only [canonicalizeAccessExpression, bind_eq_ok_iff, Except.ok.injEq] at h
    obtain ⟨i', hi, t', ht, h⟩ := h
    subst h
    simp [canonicalizeAccessExpression, ih i' hi, canonicalizeSelfType_idem name type_ t' ht]
  · -- spread nil
    intro sp' h
    simp only [canonicalizeSpreadList] at h
    cases h
    simp [canonicalizeSpreadList]
  · -- spread cons expression
    intro e rest ihe ihr sp' h
    simp only [canonicalizeSpreadList, bind_eq_ok_iff, Except.ok.injEq] at h
    obtain ⟨e', he, r', hr, h⟩ := h
    subst h
    simp [canonicalizeSpreadList, ihe e' he, ihr r' hr]
  · -- spread cons spread
    intro e rest ihe ihr sp' h
    simp only [canonicalizeSpreadList, bind_eq_ok_iff, Except.ok.injEq] at h
    obtain ⟨e', he, r', hr, h⟩ := h
    subst h
    simp [canonicalizeSpreadList, ihe e' he, ihr r' hr]
  · -- expr list nil
    intro es' h
    simp only [canonicalizeExpressionList] at h
    cases h
    simp [canonicalizeExpressionList]
  · -- expr list cons
    intro e es ihe ihs es' h
    simp only [canonicalizeExpressionList, bind_eq_ok_iff, Except.ok.injEq] at h
    obtain ⟨e', he, es2, hes, h⟩ := h
    subst h
    simp [canonicalizeExpressionList, ihe e' he, ihs es2 hes]
  · -- member inits nil
    intro ms' h
    simp only [canonicalizeMemberInits] at h
    cases h
    simp [canonicalizeMemberInits]
  · -- member inits cons
    intro id expr rest ihe ihr ms' h
    simp only [canonicalizeMemberInits, bind_eq_ok_iff, Except.ok.injEq] at h
    obtain ⟨e', he, r', hr, h⟩ := h
    subst h
    simp [canonicalizeMemberInits, ihe e' he, ihr r' hr]
  · -- opt none
    intro o' h
    simp only [canonicalizeOptExpression] at h
    cases h
    simp [canonicalizeOptExpression]
  · -- opt some
    intro e ih o' h
    simp only [canonicalizeOptExpression, bind_eq_ok_iff, Except.ok.injEq] at h
    obtain ⟨e', he, h⟩ := h
    subst h
    simp [canonicalizeOptExpression, ih e' he]

/-! ### Standalone list/option corollaries of the expression lemmas -/

theorem dirExpressionList_ok_fixed (ic : Bool) :
    ∀ es es', dirExpressionList ic es = .ok es' → exprListDirFixed ic es' = true := by
  intro es
  induction es with
  | nil => intro es' h; simp only [dirExpressionList] at h; cases h; simp [exprListDirFixed]
  | cons e es ih =>
    intro es' h
    simp only [dirExpressionList, bind_eq_ok_iff, Except.ok.injEq] at h
    obtain ⟨e', he, es2, hes, h⟩ := h
    subst h
    simp [exprListDirFixed, dirExpression_ok_fixed ic e e' he, ih es2 hes]

theorem fixed_dirExpressionList_id (ic : Bool) :
    ∀ es, exprListDirFixed ic es = true → dirExpressionList ic es = .ok es := by
  intro es
  induction es with
  | nil => intro _; simp [dirExpressionList]
  | cons e es ih =>
    intro hf
    simp only [exprListDirFixed, Bool.and_eq_true] at hf
    simp [dirExpressionList, fixed_dirExpression_id ic e hf.1, ih hf.2]

theorem canonicalizeExpressionList_preserves_fixed (name : Option Identifier) (ic : Bool) :
    ∀ es es', exprListDirFixed ic es = true → canonicalizeExpressionList name es = .ok es' →
      exprListDirFixed ic es' = true := by
  intro es
  induction es with
  | nil => intro es' _ h; simp only [canonicalizeExpressionList] at h; cases h; simp [exprListDirFixed]
  | cons e es ih =>
    intro es' hf h
    simp only [exprListDirFixed, Bool.and_eq_true] at hf
    simp only [canonicalizeExpressionList, bind_eq_ok_iff, Except.ok.injEq] at h
    obtain ⟨e', he, es2, hes, h⟩ := h
    subst h
    simp [exprListDirFixed, canonicalizeExpression_preserves_fixed name ic e e' hf.1 he,
      ih es2 hf.2 hes]

theorem canonicalizeExpressionList_idem (name : Option Identifier) :
    ∀ es es', canonicalizeExpressionList name es = .ok es' →
      canonicalizeExpressionList name es' = .ok es' := by
  intro es
  induction es with
  | nil => intro es' h; simp only [canonicalizeExpressionList] at h; cases h; simp [canonicalizeExpressionList]
  | cons e es ih =>
    intro es' h
    simp only [canonicalizeExpressionList, bind_eq_ok_iff, Except.ok.injEq] at h
    obtain ⟨e', he, es2, hes, h⟩ := h
    subst h
    simp [canonicalizeExpressionList, canonicalizeExpression_idem name e e' he, ih es2 hes]

theorem dirOptExpression_ok_fixed (ic : Bool) :
    ∀ o o', dirOptExpression ic o = .ok o' → optExprDirFixed ic o' = true := by
  intro o o' h
  cases o with
  | none => simp only [dirOptExpression] at h; cases h; simp [optExprDirFixed]
  | some e =>
    simp only [dirOptExpression, bind_eq_ok_iff, Except.ok.injEq] at h
    obtain ⟨e', he, h⟩ := h
    subst h
    simpa [optExprDirFixed] using dirExpression_ok_fixed ic e e' he

theorem fixed_dirOptExpression_id (ic : Bool) :
    ∀ o, optExprDirFixed ic o = true → dirOptExpression ic o = .ok o := by
  intro o hf
  cases o with
  | none => simp [dirOptExpression]
  | some e =>
    simp only [optExprDirFixed] at hf
    simp [dirOptExpression, fixed_dirExpression_id ic e hf]

theorem canonicalizeOptExpression_preserves_fixed (name : Option Identifier) (ic : Bool) :
    ∀ o o', optExprDirFixed ic o = true → canonicalizeOptExpression name o = .ok o' →
      optExprDirFixed ic o' = true := by
  intro o o' hf h
  cases o with
  | none => simp only [canonicalizeOptExpression] at h; cases h; simp [optExprDirFixed]
  | some e =>
    simp only [optExprDirFixed] at hf
    simp only [canonicalizeOptExpression, bind_eq_ok_iff, Except.ok.injEq] at h
    obtain ⟨e', he, h⟩ := h
    subst h
    simpa [optExprDirFixed] using canonicalizeExpression_preserves_fixed name ic e e' hf he

theorem canonicalizeOptExpression_idem (name : Option Identifier) :
    ∀ o o', canonicalizeOptExpression name o = .ok o' →
      canonicalizeOptExpression name o' = .ok o' := by
  intro o o' h
  cases o with
  | none => simp only [canonicalizeOptExpression] at h; cases h; simp [canonicalizeOptExpression]
  | some e =>
    simp only [canonicalizeOptExpression, bind_eq_ok_iff, Except.ok.injEq] at h
    obtain ⟨e', he, h⟩ := h
    subst h
    simp [canonicalizeOptExpression, canonicalizeExpression_idem name e e' he]

/-! ### Assignee lemmas -/

theorem dirAssigneeAccess_ok_fixed (ic : Bool) :
    ∀ a a', dirAssigneeAccess ic a = .ok a' → a'.dirFixed ic = true := by
  intro a a' h
  cases a with
  | arrayRange left right =>
    simp only [dirAssigneeAccess, bind_eq_ok_iff, Except.ok.injEq] at h
    obtain ⟨l', hl, r', hr, h⟩ := h
    subst h
    simp [AssigneeAccess.dirFixed, dirOptExpression_ok_fixed ic left l' hl,
      dirOptExpression_ok_fixed ic right r' hr]
  | arrayIndex index =>
    simp only [dirAssigneeAccess, bind_eq_ok_iff, Except.ok.injEq] at h
    obtain ⟨i', hi, h⟩ := h
    subst h
    simpa [AssigneeAccess.dirFixed] using dirExpression_ok_fixed ic index i' hi
  | tuple index span => simp only [dirAssigneeAccess] at h; cases h; simp [AssigneeAccess.dirFixed]
  | member id => simp only [dirAssigneeAccess] at h; cases h; simp [AssigneeAccess.dirFixed]

theorem fixed_dirAssigneeAccess_id (ic : Bool) :
    ∀ a : AssigneeAccess, a.dirFixed ic = true → dirAssigneeAccess ic a = .ok a := by
  intro a hf
  cases a with
  | arrayRange left right =>
    simp only [AssigneeAccess.dirFixed, Bool.and_eq_true] at hf
    simp [dirAssigneeAccess, fixed_dirOptExpression_id ic left hf.1,
      fixed_dirOptExpression_id ic right hf.2]
  | arrayIndex index =>
    simp only [AssigneeAccess.dirFixed] at hf
    simp [dirAssigneeAccess, fixed_dirExpression_id ic index hf]
  | tuple index span => simp [dirAssigneeAccess]
  | member id => simp [dirAssigneeAccess]

theorem canonicalizeAssigneeAccess_preserves_fixed (name : Option Identifier) (ic : Bool) :
    ∀ a a', a.dirFixed ic = true → canonicalizeAssigneeAccess name a = .ok a' →
      a'.dirFixed ic = true := by
  intro a a' hf h
  cases a with
  | arrayRange left right =>
    simp only [AssigneeAccess.dirFixed, Bool.and_eq_true] at hf
    simp only [canonicalizeAssigneeAccess, bind_eq_ok_iff, Except.ok.injEq] at h
    obtain ⟨l', hl, r', hr, h⟩ := h
    subst h
    simp [AssigneeAccess.dirFixed,
      canonicalizeOptExpression_preserves_fixed name ic left l' hf.1 hl,
      canonicalizeOptExpression_preserves_fixed name ic right r' hf.2 hr]
  | arrayIndex index =>
    simp only [AssigneeAccess.dirFixed] at hf
    simp only [canonicalizeAssigneeAccess, bind_eq_ok_iff, Except.ok.injEq] at h
    obtain ⟨i', hi, h⟩ := h
    subst h
    simpa [AssigneeAccess.dirFixed] using
      canonicalizeExpression_preserves_fixed name ic index i' hf hi
  | tuple index span => simp only [canonicalizeAssigneeAccess] at h; cases h; exact hf
  | member id => simp only [canonicalizeAssigneeAccess] at h; cases h; exact hf

theorem canonicalizeAssigneeAccess_idem (name : Option Identifier) :
    ∀ a a', canonicalizeAssigneeAccess name a = .ok a' →
      canonicalizeAssigneeAccess name a' = .ok a' := by
  intro a a' h
  cases a with
  | arrayRange left right =>
    simp only [canonicalizeAssigneeAccess, bind_eq_ok_iff, Except.ok.injEq] at h
    obtain ⟨l', hl, r', hr, h⟩ := h
    subst h
    simp [canonicalizeAssigneeAccess, canonicalizeOptExpression_idem name left l' hl,
      canonicalizeOptExpression_idem name right r' hr]
  | arrayIndex index =>
    simp only [canonicalizeAssigneeAccess, bind_eq_ok_iff, Except.ok.injEq] at h
    obtain ⟨i', hi, h⟩ := h
    subst h
    simp [canonicalizeAssigneeAccess, canonicalizeExpression_idem name index i' hi]
  | tuple index span => simp only [canonicalizeAssigneeAccess] at h; cases h; simp [canonicalizeAssigneeAccess]
  | member id => simp only [canonicalizeAssigneeAccess] at h; cases h; simp [canonicalizeAssigneeAccess]

theorem dirAssigneeAccessList_ok_fixed (ic : Bool) :
    ∀ as as', dirAssigneeAccessList ic as = .ok as' →
      assigneeAccessListDirFixed ic as' = true := by
  intro as
  induction as with
  | nil => intro as' h; simp only [dirAssigneeAccessList] at h; cases h; simp [assigneeAccessListDirFixed]
  | cons a as ih =>
    intro as' h
    simp only [dirAssigneeAccessList, bind_eq_ok_iff, Except.ok.injEq] at h
    obtain ⟨a', ha, as2, has, h⟩ := h
    subst h
    simp [assigneeAccessListDirFixed, dirAssigneeAccess_ok_fixed ic a a' ha, ih as2 has]

theorem fixed_dirAssigneeAccessList_id (ic : Bool) :
    ∀ as, assigneeAccessListDirFixed ic as = true → dirAssigneeAccessList ic as = .ok as := by
  intro as
  induction as with
  | nil => intro _; simp [dirAssigneeAccessList]
  | cons a as ih =>
    intro hf
    simp only [assigneeAccessListDirFixed, Bool.and_eq_true] at hf
    simp [dirAssigneeAccessList, fixed_dirAssigneeAccess_id ic a hf.1, ih hf.2]

/-- The materialized access chain built by `canonicalize_accesses` is a
fixed point of driver reduction whenever the start expression and the
access list are. -/
theorem canonicalizeAccesses_fixed (name : Option Identifier) (ic : Bool) (span : Span) :
    ∀ (accesses : List AssigneeAccess) (start left : Expression),
      start.dirFixed ic = true →
      assigneeAccessListDirFixed ic accesses = true →
      canonicalizeAccesses name start accesses span = .ok left →
      left.dirFixed ic = true := by
  intro accesses
  induction accesses with
  | nil =>
    intro start left hs _ h
    simp only [canonicalizeAccesses] at h
    cases h
    exact hs
  | cons access rest ih =>
    intro start left hs hf h
    simp only [assigneeAccessListDirFixed, Bool.and_eq_true] at hf
    simp only [canonicalizeAccesses, bind_eq_ok_iff] at h
    obtain ⟨a', ha, h⟩ := h
    have ha' := canonicalizeAssigneeAccess_preserves_fixed name ic access a' hf.1 ha
    refine ih _ left ?_ hf.2 h
    cases a' with
    | arrayIndex index =>
      simp only [AssigneeAccess.dirFixed] at ha'
      simp [Expression.dirFixed, AccessExpression.dirFixed, hs, ha']
    | arrayRange l r =>
      simp only [AssigneeAccess.dirFixed, Bool.and_eq_true] at ha'
      simp [Expression.dirFixed, AccessExpression.dirFixed, hs, ha'.1, ha'.2]
    | tuple pn sp2 =>
      simp [Expression.dirFixed, AccessExpression.dirFixed, hs]
    | member id =>
      simp [Expression.dirFixed, AccessExpression.dirFixed, hs]

theorem dirAssignee_ok_fixed (ic : Bool) :
    ∀ a a', dirAssignee ic a = .ok a' → a'.dirFixed ic = true := by
  intro a a' h
  simp only [dirAssignee, bind_eq_ok_iff, Except.ok.injEq] at h
  obtain ⟨as', has, h⟩ := h
  subst h
  simpa [Assignee.dirFixed] using dirAssigneeAccessList_ok_fixed ic a.accesses as' has

theorem fixed_dirAssignee_id (ic : Bool) :
    ∀ a : Assignee, a.dirFixed ic = true → dirAssignee ic a = .ok a := by
  intro a hf
  simp only [Assignee.dirFixed] at hf
  simp [dirAssignee, fixed_dirAssigneeAccessList_id ic a.accesses hf]

theorem canonicalizeAssigneeAccessList_preserves_fixed (name : Option Identifier) (ic : Bool) :
    ∀ as as', assigneeAccessListDirFixed ic as = true →
      canonicalizeAssignee.canonicalizeAssigneeAccessList name as = .ok as' →
      assigneeAccessListDirFixed ic as' = true := by
  intro as
  induction as with
  | nil =>
    intro as' _ h
    simp only [canonicalizeAssignee.canonicalizeAssigneeAccessList] at h
    cases h
    simp [assigneeAccessListDirFixed]
  | cons a as ih =>
    intro as' hf h
    simp only [assigneeAccessListDirFixed, Bool.and_eq_true] at hf
    simp only [canonicalizeAssignee.canonicalizeAssigneeAccessList, bind_eq_ok_iff,
      Except.ok.injEq] at h
    obtain ⟨a', ha, as2, has, h⟩ := h
    subst h
    simp [assigneeAccessListDirFixed,
      canonicalizeAssigneeAccess_preserves_fixed name ic a a' hf.1 ha, ih as2 hf.2 has]

theorem canonicalizeAssigneeAccessList_idem (name : Option Identifier) :
    ∀ as as', canonicalizeAssignee.canonicalizeAssigneeAccessList name as = .ok as' →
      canonicalizeAssignee.canonicalizeAssigneeAccessList name as' = .ok as' := by
  intro as
  induction as with
  | nil =>
    intro as' h
    simp only [canonicalizeAssignee.canonicalizeAssigneeAccessList] at h
    cases h
    simp [canonicalizeAssignee.canonicalizeAssigneeAccessList]
  | cons a as ih =>
    intro as' h
    simp only [canonicalizeAssignee.canonicalizeAssigneeAccessList, bind_eq_ok_iff,
      Except.ok.injEq] at h
    obtain ⟨a', ha, as2, has, h⟩ := h
    subst h
    simp [canonicalizeAssignee.canonicalizeAssigneeAccessList,
      canonicalizeAssigneeAccess_idem name a a' ha, ih as2 has]

theorem canonicalizeAssignee_preserves_fixed (name : Option Identifier) (ic : Bool) :
    ∀ a a', a.dirFixed ic = true → canonicalizeAssignee name a = .ok a' →
      a'.dirFixed ic = true := by
  intro a a' hf h
  simp only [Assignee.dirFixed] at hf
  simp only [canonicalizeAssignee, bind_eq_ok_iff, Except.ok.injEq] at h
  obtain ⟨as', has, h⟩ := h
  subst h
  simpa [Assignee.dirFixed] using
    canonicalizeAssigneeAccessList_preserves_fixed name ic a.accesses as' hf has

theorem canonicalizeAssignee_idem (name : Option Identifier) :
    ∀ a a', canonicalizeAssignee name a = .ok a' → canonicalizeAssignee name a' = .ok a' := by
  intro a a' h
  simp only [canonicalizeAssignee, bind_eq_ok_iff, Except.ok.injEq] at h
  obtain ⟨as', has, h⟩ := h
  subst h
  simp [canonicalizeAssignee, canonicalizeAssigneeAccessList_idem name a.accesses as' has]

/-- The materialized access chain stays fixed when the access list comes
from canonicalizing an assignee (helper for the assign-statement case). -/
theorem canonicalizeAccesses_fixed_of_assignee (name : Option Identifier) (ic : Bool)
    (span : Span) (a : Assignee) (left : Expression)
    (hf : a.dirFixed ic = true)
    (h : canonicalizeAccesses name (.identifier a.identifier) a.accesses span = .ok left) :
    left.dirFixed ic = true :=
  canonicalizeAccesses_fixed name ic span a.accesses (.identifier a.identifier) left
    (by simp [Expression.dirFixed]) (by simpa [Assignee.dirFixed] using hf) h

/-! ### Console lemmas -/

theorem dirConsoleFunction_ok_fixed (ic : Bool) :
    ∀ f f', dirConsoleFunction ic f = .ok f' → f'.dirFixed ic = true := by
  intro f f' h
  cases f with
  | assert e =>
    simp only [dirConsoleFunction, bind_eq_ok_iff, Except.ok.injEq] at h
    obtain ⟨e', he, h⟩ := h
    subst h
    simpa [ConsoleFunction.dirFixed] using dirExpression_ok_fixed ic e e' he
  | error args =>
    simp only [dirConsoleFunction, bind_eq_ok_iff, Except.ok.injEq] at h
    obtain ⟨ps', hps, h⟩ := h
    subst h
    simpa [ConsoleFunction.dirFixed] using
      dirExpressionList_ok_fixed ic args.parameters ps' hps
  | log args =>
    simp only [dirConsoleFunction, bind_eq_ok_iff, Except.ok.injEq] at h
    obtain ⟨ps', hps, h⟩ := h
    subst h
    simpa [ConsoleFunction.dirFixed] using
      dirExpressionList_ok_fixed ic args.parameters ps' hps

theorem fixed_dirConsoleFunction_id (ic : Bool) :
    ∀ f : ConsoleFunction, f.dirFixed ic = true → dirConsoleFunction ic f = .ok f := by
  intro f hf
  cases f with
  | assert e =>
    simp only [ConsoleFunction.dirFixed] at hf
    simp [dirConsoleFunction, fixed_dirExpression_id ic e hf]
  | error args =>
    simp only [ConsoleFunction.dirFixed] at hf
    simp [dirConsoleFunction, fixed_dirExpressionList_id ic args.parameters hf]
  | log args =>
    simp only [ConsoleFunction.dirFixed] at hf
    simp [dirConsoleFunction, fixed_dirExpressionList_id ic args.parameters hf]

/-! ### Statement-level lemmas -/

theorem dirStatement_ok_fixed (ic : Bool) :
    ∀ s s', dirStatement ic s = .ok s' → s'.dirFixed ic = true := by
  have main :=
    dirStatement.induct ic
      (fun s => ∀ s', dirStatement ic s = .ok s' → s'.dirFixed ic = true)
      (fun o => ∀ o', dirOptStatement ic o = .ok o' → optStmtDirFixed ic o' = true)
      (fun b => ∀ b', dirBlock ic b = .ok b' → b'.dirFixed ic = true)
      (fun ss => ∀ ss', dirStatementList ic ss = .ok ss' → stmtListDirFixed ic ss' = true)
      ?_ ?_ ?_ ?_ ?_ ?_ ?_ ?_ ?_ ?_ ?_ ?_ ?_
  · exact fun s => main s
  · -- ret
    intro expression span s' h
    simp only [dirStatement, bind_eq_ok_iff, Except.ok.injEq] at h
    obtain ⟨e', he, h⟩ := h
    subst h
    simpa [Statement.dirFixed] using dirExpression_ok_fixed ic expression e' he
  · -- definition
    intro d s' h
    simp only [dirStatement, reduceDefinition, bind_eq_ok_iff, Except.ok.injEq] at h
    obtain ⟨ta, ht, v', hv, d', ⟨tb, ht2, hrec⟩, h⟩ := h
    subst hrec
    subst h
    obtain ⟨he, hns⟩ := canonicalizeSelfType_none_spec ta tb ht2
    subst he
    simp [Statement.dirFixed, dirType_ok_canonical ic d.span d.type_ tb ht, hns,
      dirExpression_ok_fixed ic d.value v' hv]
  · -- assign
    intro a s' h
    obtain ⟨op, assignee, value, span⟩ := a
    simp only [dirStatement, bind_eq_ok_iff, Except.ok.injEq] at h
    obtain ⟨assignee', hassignee, v', hv, a', ha', h⟩ := h
    subst h
    have hafix := dirAssignee_ok_fixed ic assignee assignee' hassignee
    have hvfix := dirExpression_ok_fixed ic value v' hv
    by_cases hop : op = AssignOperation.assign
    · have hne : ¬(op ≠ AssignOperation.assign) := by simp [hop]
      simp only [reduceAssign, if_neg hne, Except.ok.injEq] at ha'
      subst ha'
      simp [Statement.dirFixed, hafix, hvfix]
    · simp only [reduceAssign, if_pos hop, bind_eq_ok_iff, Except.ok.injEq] at ha'
      obtain ⟨left, hleft, op', hop', ha'⟩ := ha'
      subst ha'
      have hlfix := canonicalizeAccesses_fixed_of_assignee none ic span assignee'
        left hafix hleft
      simp [Statement.dirFixed, hafix, Expression.dirFixed, hlfix, hvfix]
  · -- conditional
    intro condition block next span ihb ihn s' h
    simp only [dirStatement, bind_eq_ok_iff, Except.ok.injEq] at h
    obtain ⟨c', hc, b', hb, n', hn, h⟩ := h
    subst h
    simp [Statement.dirFixed, dirExpression_ok_fixed ic condition c' hc, ihb b' hb,
      ihn n' hn]
  · -- iteration
    intro variable' type_ start stop inclusive block span ihb s' h
    simp only [dirStatement, bind_eq_ok_iff, Except.ok.injEq] at h
    obtain ⟨t', ht, st', hst, sp', hsp, b', hb, h⟩ := h
    subst h
    simp [Statement.dirFixed, dirType_ok_canonical ic span type_ t' ht,
      dirExpression_ok_fixed ic start st' hst, dirExpression_ok_fixed ic stop sp' hsp,
      ihb b' hb]
  · -- console
    intro function span s' h
    simp only [dirStatement, bind_eq_ok_iff, Except.ok.injEq] at h
    obtain ⟨f', hf, h⟩ := h
    subst h
    simpa [Statement.dirFixed] using dirConsoleFunction_ok_fixed ic function f' hf
  · -- expression
    intro expression span s' h
    simp only [dirStatement, bind_eq_ok_iff, Except.ok.injEq] at h
    obtain ⟨e', he, h⟩ := h
    subst h
    simpa [Statement.dirFixed] using dirExpression_ok_fixed ic expression e' he
  · -- block
    intro b ihb s' h
    simp only [dirStatement, bind_eq_ok_iff, Except.ok.injEq] at h
    obtain ⟨b', hb, h⟩ := h
    subst h
    simpa [Statement.dirFixed] using ihb b' hb
  · -- Block.mk
    intro ss span ihss b' h
    simp only [dirBlock, bind_eq_ok_iff, Except.ok.injEq] at h
    obtain ⟨ss', hss, h⟩ := h
    subst h
    simpa [Block.dirFixed] using ihss ss' hss
  · -- opt none
    intro o' h
    simp only [dirOptStatement] at h
    cases h
    simp [optStmtDirFixed]
  · -- opt some
    intro s ih o' h
    simp only [dirOptStatement, bind_eq_ok_iff, Except.ok.injEq] at h
    obtain ⟨s', hs, h⟩ := h
    subst h
    simpa [optStmtDirFixed] using ih s' hs
  · -- list nil
    intro ss' h
    simp only [dirStatementList] at h
    cases h
    simp [stmtListDirFixed]
  · -- list cons
    intro s rest ihs ihr ss' h
    simp only [dirStatementList, bind_eq_ok_iff, Except.ok.injEq] at h
    obtain ⟨s', hs, rest', hrest, h⟩ := h
    subst h
    simp [stmtListDirFixed, ihs s' hs, ihr rest' hrest]

theorem fixed_dirStatement_id (ic : Bool) :
    ∀ s : Statement, s.dirFixed ic = true → dirStatement ic s = .ok s := by
  have main :=
    dirStatement.induct ic
      (fun s => s.dirFixed ic = true → dirStatement ic s = .ok s)
      (fun o => optStmtDirFixed ic o = true → dirOptStatement ic o = .ok o)
      (fun b => b.dirFixed ic = true → dirBlock ic b = .ok b)
      (fun ss => stmtListDirFixed ic ss = true → dirStatementList ic ss = .ok ss)
      ?_ ?_ ?_ ?_ ?_ ?_ ?_ ?_ ?_ ?_ ?_ ?_ ?_
  · exact fun s => main s
  · -- ret
    intro expression span hf
    simp only [Statement.dirFixed] at hf
    simp [dirStatement, fixed_dirExpression_id ic expression hf]
  · -- definition
    intro d hf
    simp only [Statement.dirFixed, Bool.and_eq_true] at hf
    obtain ⟨⟨hcan, hns⟩, hval⟩ := hf
    simp [dirStatement, canonical_dirType_fix ic d.span d.type_ hcan,
      fixed_dirExpression_id ic d.value hval, reduceDefinition,
      noSelf_canonicalizeSelfType none d.type_ hns]
  · -- assign
    intro a hf
    obtain ⟨op, assignee, value, span⟩ := a
    simp only [Statement.dirFixed, Bool.and_eq_true, beq_iff_eq] at hf
    obtain ⟨⟨hop, hafix⟩, hval⟩ := hf
    subst hop
    simp [dirStatement, fixed_dirAssignee_id ic assignee hafix,
      fixed_dirExpression_id ic value hval, reduceAssign]
  · -- conditional
    intro condition block next span ihb ihn hf
    simp only [Statement.dirFixed, Bool.and_eq_true] at hf
    simp [dirStatement, fixed_dirExpression_id ic condition hf.1.1, ihb hf.1.2, ihn hf.2]
  · -- iteration
    intro variable' type_ start stop inclusive block span ihb hf
    simp only [Statement.dirFixed, Bool.and_eq_true] at hf
    simp [dirStatement, canonical_dirType_fix ic span type_ hf.1.1.1,
      fixed_dirExpression_id ic start hf.1.1.2, fixed_dirExpression_id ic stop hf.1.2,
      ihb hf.2]
  · -- console
    intro function span hf
    simp only [Statement.dirFixed] at hf
    simp [dirStatement, fixed_dirConsoleFunction_id ic function hf]
  · -- expression
    intro expression span hf
    simp only [Statement.dirFixed] at hf
    simp [dirStatement, fixed_dirExpression_id ic expression hf]
  · -- block
    intro b ihb hf
    simp only [Statement.dirFixed] at hf
    simp [dirStatement, ihb hf]
  · -- Block.mk
    intro ss span ihss hf
    simp only [Block.dirFixed] at hf
    simp [dirBlock, ihss hf]
  · -- opt none
    intro _
    simp [dirOptStatement]
  · -- opt some
    intro s ih hf
    simp only [optStmtDirFixed] at hf
    simp [dirOptStatement, ih hf]
  · -- list nil
    intro _
    simp [dirStatementList]
  · -- list cons
    intro s rest ihs ihr hf
    simp only [stmtListDirFixed, Bool.and_eq_true] at hf
    simp [dirStatementList, ihs hf.1, ihr hf.2]

theorem canonicalizeStatement_preserves_fixed (name : Option Identifier) (ic : Bool) :
    ∀ s s', s.dirFixed ic = true → canonicalizeStatement name s = .ok s' →
      s'.dirFixed ic = true := by
  have main :=
    canonicalizeStatement.induct name
      (fun s => ∀ s', s.dirFixed ic = true → canonicalizeStatement name s = .ok s' →
        s'.dirFixed ic = true)
      (fun o => ∀ o', optStmtDirFixed ic o = true → canonicalizeOptStatement name o = .ok o' →
        optStmtDirFixed ic o' = true)
      (fun b => ∀ b', b.dirFixed ic = true → canonicalizeBlock name b = .ok b' →
        b'.dirFixed ic = true)
      (fun ss => ∀ ss', stmtListDirFixed ic ss = true →
        canonicalizeStatementList name ss = .ok ss' → stmtListDirFixed ic ss' = true)
      ?_ ?_ ?_ ?_ ?_ ?_ ?_ ?_ ?_ ?_ ?_ ?_ ?_ ?_ ?_
  · exact fun s => main s
  · -- ret
    intro expression span s' hf h
    simp only [Statement.dirFixed] at hf
    simp only [canonicalizeStatement, bind_eq_ok_iff, Except.ok.injEq] at h
    obtain ⟨e', he, h⟩ := h
    subst h
    simpa [Statement.dirFixed] using
      canonicalizeExpression_preserves_fixed name ic expression e' hf he
  · -- definition
    intro d s' hf h
    simp only [Statement.dirFixed, Bool.and_eq_true] at hf
    obtain ⟨⟨hcan, hns⟩, hval⟩ := hf
    simp only [canonicalizeStatement, bind_eq_ok_iff, Except.ok.injEq] at h
    obtain ⟨v', hv, t', ht, h⟩ := h
    subst h
    have hid := noSelf_canonicalizeSelfType name d.type_ hns
    rw [hid] at ht
    cases ht
    simp [Statement.dirFixed, hcan, hns,
      canonicalizeExpression_preserves_fixed name ic d.value v' hval hv]
  · -- assign
    intro a s' hf h
    obtain ⟨op, assignee, value, span⟩ := a
    simp only [Statement.dirFixed, Bool.and_eq_true, beq_iff_eq] at hf
    obtain ⟨⟨hop, hafix⟩, hval⟩ := hf
    subst hop
    simp only [canonicalizeStatement, bind_eq_ok_iff, Except.ok.injEq] at h
    obtain ⟨assignee', ha, v', hv, h⟩ := h
    subst h
    simp [Statement.dirFixed, canonicalizeAssignee_preserves_fixed name ic assignee
      assignee' hafix ha, canonicalizeExpression_preserves_fixed name ic value v' hval hv]
  · -- conditional
    intro condition block next span ihb ihn s' hf h
    simp only [Statement.dirFixed, Bool.and_eq_true] at hf
    simp only [canonicalizeStatement, bind_eq_ok_iff, Except.ok.injEq] at h
    obtain ⟨c', hc, b', hb, n', hn, h⟩ := h
    subst h
    simp [Statement.dirFixed,
      canonicalizeExpression_preserves_fixed name ic condition c' hf.1.1 hc,
      ihb b' hf.1.2 hb, ihn n' hf.2 hn]
  · -- iteration
    intro variable' type_ start stop inclusive block span ihb s' hf h
    simp only [Statement.dirFixed, Bool.and_eq_true] at hf
    simp only [canonicalizeStatement, bind_eq_ok_iff, Except.ok.injEq] at h
    obtain ⟨t', ht, st', hst, sp', hsp, b', hb, h⟩ := h
    subst h
    simp [Statement.dirFixed,
      canonicalizeSelfType_preserves_canonical name ic type_ t' hf.1.1.1 ht,
      canonicalizeExpression_preserves_fixed name ic start st' hf.1.1.2 hst,
      canonicalizeExpression_preserves_fixed name ic stop sp' hf.1.2 hsp,
      ihb b' hf.2 hb]
  · -- console assert
    intro span e s' hf h
    simp only [Statement.dirFixed, ConsoleFunction.dirFixed] at hf
    simp only [canonicalizeStatement, bind_eq_ok_iff, pure_eq_ok, Except.ok.injEq] at h
    obtain ⟨e', he, f', hfl, h⟩ := h
    subst hfl
    subst h
    simpa [Statement.dirFixed, ConsoleFunction.dirFixed] using
      canonicalizeExpression_preserves_fixed name ic e e' hf he
  · -- console error
    intro span args s' hf h
    simp only [Statement.dirFixed, ConsoleFunction.dirFixed] at hf
    simp only [canonicalizeStatement, bind_eq_ok_iff, pure_eq_ok, Except.ok.injEq] at h
    obtain ⟨ps', hps, f', hfl, h⟩ := h
    subst hfl
    subst h
    simpa [Statement.dirFixed, ConsoleFunction.dirFixed] using
      canonicalizeExpressionList_preserves_fixed name ic args.parameters ps' hf hps
  · -- console log
    intro span args s' hf h
    simp only [Statement.dirFixed, ConsoleFunction.dirFixed] at hf
    simp only [canonicalizeStatement, bind_eq_ok_iff, pure_eq_ok, Except.ok.injEq] at h
    obtain ⟨ps', hps, f', hfl, h⟩ := h
    subst hfl
    subst h
    simpa [Statement.dirFixed, ConsoleFunction.dirFixed] using
      canonicalizeExpressionList_preserves_fixed name ic args.parameters ps' hf hps
  · -- expression
    intro expression span s' hf h
    simp only [Statement.dirFixed] at hf
    simp only [canonicalizeStatement, bind_eq_ok_iff, Except.ok.injEq] at h
    obtain ⟨e', he, h⟩ := h
    subst h
    simpa [Statement.dirFixed] using
      canonicalizeExpression_preserves_fixed name ic expression e' hf he
  · -- block
    intro b ihb s' hf h
    simp only [Statement.dirFixed] at hf
    simp only [canonicalizeStatement, bind_eq_ok_iff, Except.ok.injEq] at h
    obtain ⟨b', hb, h⟩ := h
    subst h
    simpa [Statement.dirFixed] using ihb b' hf hb
  · -- Block.mk
    intro ss span ihss b' hf h
    simp only [Block.dirFixed] at hf
    simp only [canonicalizeBlock, bind_eq_ok_iff, Except.ok.injEq] at h
    obtain ⟨ss', hss, h⟩ := h
    subst h
    simpa [Block.dirFixed] using ihss ss' hf hss
  · -- opt none
    intro o' _ h
    simp only [canonicalizeOptStatement] at h
    cases h
    simp [optStmtDirFixed]
  · -- opt some
    intro s ih o' hf h
    simp only [optStmtDirFixed] at hf
    simp only [canonicalizeOptStatement, bind_eq_ok_iff, Except.ok.injEq] at h
    obtain ⟨s', hs, h⟩ := h
    subst h
    simpa [optStmtDirFixed] using ih s' hf hs
  · -- list nil
    intro ss' _ h
    simp only [canonicalizeStatementList] at h
    cases h
    simp [stmtListDirFixed]
  · -- list cons
    intro s rest ihs ihr ss' hf h
    simp only [stmtListDirFixed, Bool.and_eq_true] at hf
    simp only [canonicalizeStatementList, bind_eq_ok_iff, Except.ok.injEq] at h
    obtain ⟨s', hs, rest', hrest, h⟩ := h
    subst h
    simp [stmtListDirFixed, ihs s' hf.1 hs, ihr rest' hf.2 hrest]

theorem canonicalizeStatement_idem (name : Option Identifier) :
    ∀ s s', canonicalizeStatement name s = .ok s' →
      canonicalizeStatement name s' = .ok s' := by
  have main :=
    canonicalizeStatement.induct name
      (fun s => ∀ s', canonicalizeStatement name s = .ok s' →
        canonicalizeStatement name s' = .ok s')
      (fun o => ∀ o', canonicalizeOptStatement name o = .ok o' →
        canonicalizeOptStatement name o' = .ok o')
      (fun b => ∀ b', canonicalizeBlock name b = .ok b' →
        canonicalizeBlock name b' = .ok b')
      (fun ss => ∀ ss', canonicalizeStatementList name ss = .ok ss' →
        canonicalizeStatementList name ss' = .ok ss')
      ?_ ?_ ?_ ?_ ?_ ?_ ?_ ?_ ?_ ?_ ?_ ?_ ?_ ?_ ?_
  · exact fun s => main s
  · -- ret
    intro expression span s' h
    simp only [canonicalizeStatement, bind_eq_ok_iff, Except.ok.injEq] at h
    obtain ⟨e', he, h⟩ := h
    subst h
    simp [canonicalizeStatement, canonicalizeExpression_idem name expression e' he]
  · -- definition
    intro d s' h
    simp only [canonicalizeStatement, bind_eq_ok_iff, Except.ok.injEq] at h
    obtain ⟨v', hv, t', ht, h⟩ := h
    subst h
    simp [canonicalizeStatement, canonicalizeExpression_idem name d.value v' hv,
      canonicalizeSelfType_idem name d.type_ t' ht]
  · -- assign
    intro a s' h
    simp only [canonicalizeStatement, bind_eq_ok_iff, Except.ok.injEq] at h
    obtain ⟨assignee', ha, v', hv, h⟩ := h
    subst h
    simp [canonicalizeStatement, canonicalizeAssignee_idem name a.assignee assignee' ha,
      canonicalizeExpression_idem name a.value v' hv]
  · -- conditional
    intro condition block next span ihb ihn s' h
    simp only [canonicalizeStatement, bind_eq_ok_iff, Except.ok.injEq] at h
    obtain ⟨c', hc, b', hb, n', hn, h⟩ := h
    subst h
    simp [canonicalizeStatement, canonicalizeExpression_idem name condition c' hc,
      ihb b' hb, ihn n' hn]
  · -- iteration
    intro variable' type_ start stop inclusive block span ihb s' h
    simp only [canonicalizeStatement, bind_eq_ok_iff, Except.ok.injEq] at h
    obtain ⟨t', ht, st', hst, sp', hsp, b', hb, h⟩ := h
    subst h
    simp [canonicalizeStatement, canonicalizeSelfType_idem name type_ t' ht,
      canonicalizeExpression_idem name start st' hst,
      canonicalizeExpression_idem name stop sp' hsp, ihb b' hb]
  · -- console assert
    intro span e s' h
    simp only [canonicalizeStatement, bind_eq_ok_iff, pure_eq_ok, Except.ok.injEq] at h
    obtain ⟨e', he, f', hfl, h⟩ := h
    subst hfl
    subst h
    simp [canonicalizeStatement, canonicalizeExpression_idem name e e' he]
  · -- console error
    intro span args s' h
    simp only [canonicalizeStatement, bind_eq_ok_iff, pure_eq_ok, Except.ok.injEq] at h
    obtain ⟨ps', hps, f', hfl, h⟩ := h
    subst hfl
    subst h
    simp [canonicalizeStatement, canonicalizeExpressionList_idem name args.parameters ps' hps]
  · -- console log
    intro span args s' h
    simp only [canonicalizeStatement, bind_eq_ok_iff, pure_eq_ok, Except.ok.injEq] at h
    obtain ⟨ps', hps, f', hfl, h⟩ := h
    subst hfl
    subst h
    simp [canonicalizeStatement, canonicalizeExpressionList_idem name args.parameters ps' hps]
  · -- expression
    intro expression span s' h
    simp only [canonicalizeStatement, bind_eq_ok_iff, Except.ok.injEq] at h
    obtain ⟨e', he, h⟩ := h
    subst h
    simp [canonicalizeStatement, canonicalizeExpression_idem name expression e' he]
  · -- block
    intro b ihb s' h
    simp only [canonicalizeStatement, bind_eq_ok_iff, Except.ok.injEq] at h
    obtain ⟨b', hb, h⟩ := h
    subst h
    simp [canonicalizeStatement, ihb b' hb]
  · -- Block.mk
    intro ss span ihss b' h
    simp only [canonicalizeBlock, bind_eq_ok_iff, Except.ok.injEq] at h
    obtain ⟨ss', hss, h⟩ := h
    subst h
    simp [canonicalizeBlock, ihss ss' hss]
  · -- opt none
    intro o' h
    simp only [canonicalizeOptStatement] at h
    cases h
    simp [canonicalizeOptStatement]
  · -- opt some
    intro s ih o' h
    simp only [canonicalizeOptStatement, bind_eq_ok_iff, Except.ok.injEq] at h
    obtain ⟨s', hs, h⟩ := h
    subst h
    simp [canonicalizeOptStatement, ih s' hs]
  · -- list nil
    intro ss' h
    simp only [canonicalizeStatementList] at h
    cases h
    simp [canonicalizeStatementList]
  · -- list cons
    intro s rest ihs ihr ss' h
    simp only [canonicalizeStatementList, bind_eq_ok_iff, Except.ok.injEq] at h
    obtain ⟨s', hs, rest', hrest, h⟩ := h
    subst h
    simp [canonicalizeStatementList, ihs s' hs, ihr rest' hrest]

/-! ### Function-, circuit- and program-level lemmas -/

theorem dirFunctionInput_ok_fixed (ic : Bool) :
    ∀ i i', dirFunctionInput ic i = .ok i' → i'.dirFixed ic = true := by
  intro i i' h
  cases i with
  | variable' v =>
    simp only [dirFunctionInput, bind_eq_ok_iff, Except.ok.injEq] at h
    obtain ⟨t', ht, h⟩ := h
    subst h
    simpa [FunctionInput.dirFixed] using dirType_ok_canonical ic v.span v.type_ t' ht
  | inputKeyword span => simp only [dirFunctionInput] at h; cases h; simp [FunctionInput.dirFixed]
  | selfKeyword span => simp only [dirFunctionInput] at h; cases h; simp [FunctionInput.dirFixed]
  | constSelfKeyword span => simp only [dirFunctionInput] at h; cases h; simp [FunctionInput.dirFixed]
  | mutSelfKeyword span => simp only [dirFunctionInput] at h; cases h; simp [FunctionInput.dirFixed]

theorem fixed_dirFunctionInput_id (ic : Bool) :
    ∀ i : FunctionInput, i.dirFixed ic = true → dirFunctionInput ic i = .ok i := by
  intro i hf
  cases i with
  | variable' v =>
    simp only [FunctionInput.dirFixed] at hf
    simp [dirFunctionInput, canonical_dirType_fix ic v.span v.type_ hf]
  | inputKeyword span => simp [dirFunctionInput]
  | selfKeyword span => simp [dirFunctionInput]
  | constSelfKeyword span => simp [dirFunctionInput]
  | mutSelfKeyword span => simp [dirFunctionInput]

theorem dirFunctionInputList_ok_fixed (ic : Bool) :
    ∀ is is', dirFunctionInputList ic is = .ok is' → inputListDirFixed ic is' = true := by
  intro is
  induction is with
  | nil => intro is' h; simp only [dirFunctionInputList] at h; cases h; simp [inputListDirFixed]
  | cons i is ih =>
    intro is' h
    simp only [dirFunctionInputList, bind_eq_ok_iff, Except.ok.injEq] at h
    obtain ⟨i', hi, is2, his, h⟩ := h
    subst h
    simp [inputListDirFixed, dirFunctionInput_ok_fixed ic i i' hi, ih is2 his]

theorem fixed_dirFunctionInputList_id (ic : Bool) :
    ∀ is, inputListDirFixed ic is = true → dirFunctionInputList ic is = .ok is := by
  intro is
  induction is with
  | nil => intro _; simp [dirFunctionInputList]
  | cons i is ih =>
    intro hf
    simp only [inputListDirFixed, Bool.and_eq_true] at hf
    simp [dirFunctionInputList, fixed_dirFunctionInput_id ic i hf.1, ih hf.2]

theorem canonicalizeFunctionInput_preserves_fixed (name : Option Identifier) (ic : Bool) :
    ∀ i i', i.dirFixed ic = true → canonicalizeFunctionInput name i = .ok i' →
      i'.dirFixed ic = true := by
  intro i i' hf h
  cases i with
  | variable' v =>
    simp only [FunctionInput.dirFixed] at hf
    simp only [canonicalizeFunctionInput, bind_eq_ok_iff, Except.ok.injEq] at h
    obtain ⟨t', ht, h⟩ := h
    subst h
    simpa [FunctionInput.dirFixed] using
      canonicalizeSelfType_preserves_canonical name ic v.type_ t' hf ht
  | inputKeyword span => simp only [canonicalizeFunctionInput] at h; cases h; exact hf
  | selfKeyword span => simp only [canonicalizeFunctionInput] at h; cases h; exact hf
  | constSelfKeyword span => simp only [canonicalizeFunctionInput] at h; cases h; exact hf
  | mutSelfKeyword span => simp only [canonicalizeFunctionInput] at h; cases h; exact hf

theorem canonicalizeFunctionInput_idem (name : Option Identifier) :
    ∀ i i', canonicalizeFunctionInput name i = .ok i' →
      canonicalizeFunctionInput name i' = .ok i' := by
  intro i i' h
  cases i with
  | variable' v =>
    simp only [canonicalizeFunctionInput, bind_eq_ok_iff, Except.ok.injEq] at h
    obtain ⟨t', ht, h⟩ := h
    subst h
    simp [canonicalizeFunctionInput, canonicalizeSelfType_idem name v.type_ t' ht]
  | inputKeyword span => simp only [canonicalizeFunctionInput] at h; cases h; simp [canonicalizeFunctionInput]
  | selfKeyword span => simp only [canonicalizeFunctionInput] at h; cases h; simp [canonicalizeFunctionInput]
  | constSelfKeyword span => simp only [canonicalizeFunctionInput] at h; cases h; simp [canonicalizeFunctionInput]
  | mutSelfKeyword span => simp only [canonicalizeFunctionInput] at h; cases h; simp [canonicalizeFunctionInput]

theorem canonicalizeFunctionInputList_preserves_fixed (name : Option Identifier) (ic : Bool) :
    ∀ is is', inputListDirFixed ic is = true →
      canonicalizeFunctionInputList name is = .ok is' → inputListDirFixed ic is' = true := by
  intro is
  induction is with
  | nil => intro is' _ h; simp only [canonicalizeFunctionInputList] at h; cases h; simp [inputListDirFixed]
  | cons i is ih =>
    intro is' hf h
    simp only [inputListDirFixed, Bool.and_eq_true] at hf
    simp only [canonicalizeFunctionInputList, bind_eq_ok_iff, Except.ok.injEq] at h
    obtain ⟨i', hi, is2, his, h⟩ := h
    subst h
    simp [inputListDirFixed, canonicalizeFunctionInput_preserves_fixed name ic i i' hf.1 hi,
      ih is2 hf.2 his]

theorem canonicalizeFunctionInputList_idem (name : Option Identifier) :
    ∀ is is', canonicalizeFunctionInputList name is = .ok is' →
      canonicalizeFunctionInputList name is' = .ok is' := by
  intro is
  induction is with
  | nil => intro is' h; simp only [canonicalizeFunctionInputList] at h; cases h; simp [canonicalizeFunctionInputList]
  | cons i is ih =>
    intro is' h
    simp only [canonicalizeFunctionInputList, bind_eq_ok_iff, Except.ok.injEq] at h
    obtain ⟨i', hi, is2, his, h⟩ := h
    subst h
    simp [canonicalizeFunctionInputList, canonicalizeFunctionInput_idem name i i' hi,
      ih is2 his]

theorem dirBlock_ok_fixed (ic : Bool) :
    ∀ b b', dirBlock ic b = .ok b' → b'.dirFixed ic = true := by
  intro b b' h
  have := dirStatement_ok_fixed ic (.block b) (.block b') (by simp [dirStatement, h])
  simpa [Statement.dirFixed] using this

theorem fixed_dirBlock_id (ic : Bool) :
    ∀ b : Block, b.dirFixed ic = true → dirBlock ic b = .ok b := by
  intro b hf
  have h := fixed_dirStatement_id ic (.block b) (by simpa [Statement.dirFixed] using hf)
  simp only [dirStatement, bind_eq_ok_iff, Except.ok.injEq] at h
  obtain ⟨b', hb', hbe⟩ := h
  cases hbe
  exact hb'

theorem canonicalizeBlock_preserves_fixed (name : Option Identifier) (ic : Bool) :
    ∀ b b', b.dirFixed ic = true → canonicalizeBlock name b = .ok b' →
      b'.dirFixed ic = true := by
  intro b b' hf h
  have := canonicalizeStatement_preserves_fixed name ic (.block b) (.block b')
    (by simpa [Statement.dirFixed] using hf) (by simp [canonicalizeStatement, h])
  simpa [Statement.dirFixed] using this

theorem canonicalizeBlock_idem (name : Option Identifier) :
    ∀ b b', canonicalizeBlock name b = .ok b' → canonicalizeBlock name b' = .ok b' := by
  intro b b' h
  have h2 := canonicalizeStatement_idem name (.block b) (.block b')
    (by simp [canonicalizeStatement, h])
  simp only [canonicalizeStatement, bind_eq_ok_iff, Except.ok.injEq] at h2
  obtain ⟨b2, hb2, hbe⟩ := h2
  cases hbe
  exact hb2

theorem dirFunc_ok_fixed (ic : Bool) :
    ∀ f f', dirFunc ic f = .ok f' → f'.dirFixed ic = true := by
  intro f f' h
  simp only [dirFunc, reduceFunction, bind_eq_ok_iff, Except.ok.injEq] at h
  obtain ⟨is', his, t', ht, b', hb, h⟩ := h
  subst h
  simp [Func.dirFixed, dirFunctionInputList_ok_fixed ic f.input is' his,
    dirType_ok_canonical ic f.span f.output t' ht, dirBlock_ok_fixed ic f.block b' hb]

theorem fixed_dirFunc_id (ic : Bool) :
    ∀ f : Func, f.dirFixed ic = true → dirFunc ic f = .ok f := by
  intro f hf
  simp only [Func.dirFixed, Bool.and_eq_true] at hf
  obtain ⟨⟨hin, hout⟩, hblock⟩ := hf
  simp [dirFunc, fixed_dirFunctionInputList_id ic f.input hin,
    canonical_dirType_fix ic f.span f.output hout, fixed_dirBlock_id ic f.block hblock,
    reduceFunction]

theorem dirCircuitMember_ok_fixed (ic : Bool) :
    ∀ m m', dirCircuitMember ic m = .ok m' → m'.dirFixed ic = true := by
  intro m m' h
  cases m with
  | circuitConst id type_ value =>
    simp only [dirCircuitMember, bind_eq_ok_iff, Except.ok.injEq] at h
    obtain ⟨t', ht, v', hv, h⟩ := h
    subst h
    simp [CircuitMember.dirFixed, dirType_ok_canonical ic id.span type_ t' ht,
      dirExpression_ok_fixed ic value v' hv]
  | circuitVariable id type_ =>
    simp only [dirCircuitMember, bind_eq_ok_iff, Except.ok.injEq] at h
    obtain ⟨t', ht, h⟩ := h
    subst h
    simpa [CircuitMember.dirFixed] using dirType_ok_canonical ic id.span type_ t' ht
  | circuitFunction f =>
    simp only [dirCircuitMember, bind_eq_ok_iff, Except.ok.injEq] at h
    obtain ⟨f', hf, h⟩ := h
    subst h
    simpa [CircuitMember.dirFixed] using dirFunc_ok_fixed ic f f' hf

theorem fixed_dirCircuitMember_id (ic : Bool) :
    ∀ m : CircuitMember, m.dirFixed ic = true → dirCircuitMember ic m = .ok m := by
  intro m hf
  cases m with
  | circuitConst id type_ value =>
    simp only [CircuitMember.dirFixed, Bool.and_eq_true] at hf
    simp [dirCircuitMember, canonical_dirType_fix ic id.span type_ hf.1,
      fixed_dirExpression_id ic value hf.2]
  | circuitVariable id type_ =>
    simp only [CircuitMember.dirFixed] at hf
    simp [dirCircuitMember, canonical_dirType_fix ic id.span type_ hf]
  | circuitFunction f =>
    simp only [CircuitMember.dirFixed] at hf
    simp [dirCircuitMember, fixed_dirFunc_id ic f hf]

theorem dirCircuitMemberList_ok_fixed (ic : Bool) :
    ∀ ms ms', dirCircuitMemberList ic ms = .ok ms' → memberListDirFixed ic ms' = true := by
  intro ms
  induction ms with
  | nil => intro ms' h; simp only [dirCircuitMemberList] at h; cases h; simp [memberListDirFixed]
  | cons m ms ih =>
    intro ms' h
    simp only [dirCircuitMemberList, bind_eq_ok_iff, Except.ok.injEq] at h
    obtain ⟨m', hm, ms2, hms, h⟩ := h
    subst h
    simp [memberListDirFixed, dirCircuitMember_ok_fixed ic m m' hm, ih ms2 hms]

theorem fixed_dirCircuitMemberList_id (ic : Bool) :
    ∀ ms, memberListDirFixed ic ms = true → dirCircuitMemberList ic ms = .ok ms := by
  intro ms
  induction ms with
  | nil => intro _; simp [dirCircuitMemberList]
  | cons m ms ih =>
    intro hf
    simp only [memberListDirFixed, Bool.and_eq_true] at hf
    simp [dirCircuitMemberList, fixed_dirCircuitMember_id ic m hf.1, ih hf.2]

theorem canonicalizeCircuitMember_preserves_fixed (name : Option Identifier) (ic : Bool) :
    ∀ m m', m.dirFixed ic = true → canonicalizeCircuitMember name m = .ok m' →
      m'.dirFixed ic = true := by
  intro m m' hf h
  cases m with
  | circuitConst id type_ value =>
    simp only [CircuitMember.dirFixed, Bool.and_eq_true] at hf
    simp only [canonicalizeCircuitMember, bind_eq_ok_iff, Except.ok.injEq] at h
    obtain ⟨v', hv, h⟩ := h
    subst h
    simp [CircuitMember.dirFixed, hf.1,
      canonicalizeExpression_preserves_fixed name ic value v' hf.2 hv]
  | circuitVariable id type_ =>
    simp only [canonicalizeCircuitMember] at h
    cases h
    exact hf
  | circuitFunction f =>
    simp only [CircuitMember.dirFixed] at hf
    simp only [Func.dirFixed, Bool.and_eq_true] at hf
    obtain ⟨⟨hin, hout⟩, hblock⟩ := hf
    simp only [canonicalizeCircuitMember, bind_eq_ok_iff, Except.ok.injEq] at h
    obtain ⟨is', his, t', ht, b', hb, h⟩ := h
    subst h
    simp [CircuitMember.dirFixed, Func.dirFixed,
      canonicalizeFunctionInputList_preserves_fixed name ic f.input is' hin his,
      canonicalizeSelfType_preserves_canonical name ic f.output t' hout ht,
      canonicalizeBlock_preserves_fixed name ic f.block b' hblock hb]

theorem canonicalizeCircuitMember_idem (name : Option Identifier) :
    ∀ m m', canonicalizeCircuitMember name m = .ok m' →
      canonicalizeCircuitMember name m' = .ok m' := by
  intro m m' h
  cases m with
  | circuitConst id type_ value =>
    simp only [canonicalizeCircuitMember, bind_eq_ok_iff, Except.ok.injEq] at h
    obtain ⟨v', hv, h⟩ := h
    subst h
    simp [canonicalizeCircuitMember, canonicalizeExpression_idem name value v' hv]
  | circuitVariable id type_ =>
    simp only [canonicalizeCircuitMember] at h
    cases h
    simp [canonicalizeCircuitMember]
  | circuitFunction f =>
    simp only [canonicalizeCircuitMember, bind_eq_ok_iff, Except.ok.injEq] at h
    obtain ⟨is', his, t', ht, b', hb, h⟩ := h
    subst h
    simp [canonicalizeCircuitMember, canonicalizeFunctionInputList_idem name f.input is' his,
      canonicalizeSelfType_idem name f.output t' ht, canonicalizeBlock_idem name f.block b' hb]

theorem canonicalizeCircuitMemberList_preserves_fixed (name : Option Identifier) (ic : Bool) :
    ∀ ms ms', memberListDirFixed ic ms = true →
      canonicalizeCircuitMemberList name ms = .ok ms' → memberListDirFixed ic ms' = true := by
  intro ms
  induction ms with
  | nil => intro ms' _ h; simp only [canonicalizeCircuitMemberList] at h; cases h; simp [memberListDirFixed]
  | cons m ms ih =>
    intro ms' hf h
    simp only [memberListDirFixed, Bool.and_eq_true] at hf
    simp only [canonicalizeCircuitMemberList, bind_eq_ok_iff, Except.ok.injEq] at h
    obtain ⟨m', hm, ms2, hms, h⟩ := h
    subst h
    simp [memberListDirFixed, canonicalizeCircuitMember_preserves_fixed name ic m m' hf.1 hm,
      ih ms2 hf.2 hms]

theorem canonicalizeCircuitMemberList_idem (name : Option Identifier) :
    ∀ ms ms', canonicalizeCircuitMemberList name ms = .ok ms' →
      canonicalizeCircuitMemberList name ms' = .ok ms' := by
  intro ms
  induction ms with
  | nil => intro ms' h; simp only [canonicalizeCircuitMemberList] at h; cases h; simp [canonicalizeCircuitMemberList]
  | cons m ms ih =>
    intro ms' h
    simp only [canonicalizeCircuitMemberList, bind_eq_ok_iff, Except.ok.injEq] at h
    obtain ⟨m', hm, ms2, hms, h⟩ := h
    subst h
    simp [canonicalizeCircuitMemberList, canonicalizeCircuitMember_idem name m m' hm,
      ih ms2 hms]

/-- Driver reduction of circuits is idempotent. -/
theorem dirCircuit_idem (ic : Bool) (c c' : Circuit)
    (h : dirCircuit ic c = .ok c') : dirCircuit ic c' = .ok c' := by
  simp only [dirCircuit, reduceCircuit, bind_eq_ok_iff, Except.ok.injEq] at h
  obtain ⟨ms1, hms1, ms2, hms2, h⟩ := h
  subst h
  have hfix1 := dirCircuitMemberList_ok_fixed (!ic) c.members ms1 hms1
  have hfix2 := canonicalizeCircuitMemberList_preserves_fixed (some c.circuitName) (!ic)
    ms1 ms2 hfix1 hms2
  simp [dirCircuit, reduceCircuit, fixed_dirCircuitMemberList_id (!ic) ms2 hfix2,
    canonicalizeCircuitMemberList_idem (some c.circuitName) ms1 ms2 hms2]

/-- Driver reduction of aliases is idempotent. -/
theorem dirAlias_idem (ic : Bool) (a a' : Alias)
    (h : dirAlias ic a = .ok a') : dirAlias ic a' = .ok a' := by
  simp only [dirAlias, bind_eq_ok_iff, Except.ok.injEq] at h
  obtain ⟨t', ht, h⟩ := h
  subst h
  simp [dirAlias, dirType_idem ic a.span a.represents t' ht]

/-- Driver reduction of global constants is idempotent. -/
theorem dirGlobalConst_idem (ic : Bool) (d d' : DefinitionStatement)
    (h : dirGlobalConst ic d = .ok d') : dirGlobalConst ic d' = .ok d' := by
  simp only [dirGlobalConst, reduceDefinition, bind_eq_ok_iff, Except.ok.injEq] at h
  obtain ⟨ta, ht, v', hv, tb, ht2, h⟩ := h
  subst h
  obtain ⟨he, hns⟩ := canonicalizeSelfType_none_spec ta tb ht2
  subst he
  have hcan := dirType_ok_canonical ic d.span d.type_ tb ht
  simp [dirGlobalConst, canonical_dirType_fix ic d.span tb hcan,
    fixed_dirExpression_id ic v' (dirExpression_ok_fixed ic d.value v' hv),
    reduceDefinition, noSelf_canonicalizeSelfType none tb hns]

theorem dirAliasList_idem (ic : Bool) :
    ∀ as as', dirAliasList ic as = .ok as' → dirAliasList ic as' = .ok as' := by
  intro as
  induction as with
  | nil => intro as' h; simp only [dirAliasList] at h; cases h; simp [dirAliasList]
  | cons a as ih =>
    intro as' h
    obtain ⟨id, al⟩ := a
    simp only [dirAliasList, bind_eq_ok_iff, Except.ok.injEq] at h
    obtain ⟨a', ha, as2, has, h⟩ := h
    subst h
    simp [dirAliasList, dirAlias_idem ic al a' ha, ih as2 has]

theorem dirCircuitList_idem (ic : Bool) :
    ∀ cs cs', dirCircuitList ic cs = .ok cs' → dirCircuitList ic cs' = .ok cs' := by
  intro cs
  induction cs with
  | nil => intro cs' h; simp only [dirCircuitList] at h; cases h; simp [dirCircuitList]
  | cons c cs ih =>
    intro cs' h
    obtain ⟨id, circ⟩ := c
    simp only [dirCircuitList, bind_eq_ok_iff, Except.ok.injEq] at h
    obtain ⟨c', hc, cs2, hcs, h⟩ := h
    subst h
    simp [dirCircuitList, dirCircuit_idem ic circ c' hc, ih cs2 hcs]

theorem dirGlobalConstList_idem (ic : Bool) :
    ∀ gs gs', dirGlobalConstList ic gs = .ok gs' → dirGlobalConstList ic gs' = .ok gs' := by
  intro gs
  induction gs with
  | nil => intro gs' h; simp only [dirGlobalConstList] at h; cases h; simp [dirGlobalConstList]
  | cons g gs ih =>
    intro gs' h
    obtain ⟨ids, d⟩ := g
    simp only [dirGlobalConstList, bind_eq_ok_iff, Except.ok.injEq] at h
    obtain ⟨d', hd, gs2, hgs, h⟩ := h
    subst h
    simp [dirGlobalConstList, dirGlobalConst_idem ic d d' hd, ih gs2 hgs]

theorem dirFuncList_idem (ic : Bool) :
    ∀ fs fs', dirFuncList ic fs = .ok fs' → dirFuncList ic fs' = .ok fs' := by
  intro fs
  induction fs with
  | nil => intro fs' h; simp only [dirFuncList] at h; cases h; simp [dirFuncList]
  | cons f fs ih =>
    intro fs' h
    obtain ⟨id, fn⟩ := f
    simp only [dirFuncList, bind_eq_ok_iff, Except.ok.injEq] at h
    obtain ⟨f', hf, fs2, hfs, h⟩ := h
    subst h
    have : dirFunc ic f' = .ok f' := fixed_dirFunc_id ic f' (dirFunc_ok_fixed ic fn f' hf)
    simp [dirFuncList, this, ih fs2 hfs]

theorem dirFunctionInputList_idem (ic : Bool) :
    ∀ is is', dirFunctionInputList ic is = .ok is' → dirFunctionInputList ic is' = .ok is' :=
  fun is is' h =>
    fixed_dirFunctionInputList_id ic is' (dirFunctionInputList_ok_fixed ic is is' h)

/-! ## Claim theorems for the canonicalization pass -/

/-- C1: canonicalization is idempotent.  For every program AST `p` the
canonicalizer accepts, running the pass a second time on its own output `q`
succeeds and returns `q` itself (`canonicalize (canonicalize p) =
canonicalize p`). -/
theorem C1_canonicalization_idempotent (p q : Program)
    (h : canonicalizeProgram p = .ok q) : canonicalizeProgram q = .ok q := by
  simp only [canonicalizeProgram, bind_eq_ok_iff, Except.ok.injEq] at h
  obtain ⟨ei, hei, as, has, cs, hcs, gs, hgs, fs, hfs, h⟩ := h
  subst h
  simp [canonicalizeProgram,
    dirFunctionInputList_idem false p.expectedInput ei hei,
    dirAliasList_idem false p.aliases as has,
    dirCircuitList_idem false p.circuits cs hcs,
    dirGlobalConstList_idem false p.globalConsts gs hgs,
    dirFuncList_idem false p.functions fs hfs]

/-- Witness for C1 at a concrete accepted program: canonicalizing
`sampleProgram` (circuit `Foo` plus `function main { x += y; }`) yields
`sampleProgramCanon`, and the theorem gives that a second run returns
`sampleProgramCanon` unchanged. -/
theorem C1_canonicalization_idempotent_witness :
    canonicalizeProgram sampleProgramCanon = .ok sampleProgramCanon :=
  C1_canonicalization_idempotent sampleProgram sampleProgramCanon (by rfl)

/-- C4: canonicalizing the multi-dimensional array type `[u8; (2, 1)]`
yields the same nested `Type::Array` tree as `[[u8; 1]; 2]` (outer
dimension 2, inner dimension 1); an array type with an empty dimension
list is kept unchanged; and a dimension equal to zero fails with the
invalid-array-dimension-size error. -/
theorem C4_array_flattening :
    (∀ (ic : Bool) (span : Span),
      dirType ic span (.array (.integer .u8) [2, 1])
        = .ok (.array (.array (.integer .u8) [1]) [2])
      ∧ dirType ic span (.array (.array (.integer .u8) [1]) [2])
        = .ok (.array (.array (.integer .u8) [1]) [2]))
    ∧ (∀ (ic : Bool) (span : Span) (base : Ty),
        reduceType ic (.array base []) span = .ok (.array base []))
    ∧ (∀ (ic : Bool) (span : Span) (base : Ty) (dims : List Nat), (0 : Nat) ∈ dims →
        reduceType ic (.array base dims) span
          = .error (.invalidArrayDimensionSize span)) := by
  refine ⟨fun ic span => ⟨rfl, rfl⟩, fun ic span base => rfl, fun ic span base dims h => ?_⟩
  have hne : dims.isEmpty = false := by
    cases dims with
    | nil => simp at h
    | cons d rest => simp
  have hc : dims.contains 0 = true := by simpa using h
  simp [reduceType, hne, hc]
  intro hn
  exact absurd h hn

/-- C4 witness: the zero-dimension clause applied at the concrete type
`[u8; (2, 0)]`. -/
theorem C4_array_flattening_witness :
    (0 : Nat) ∈ [2, 0]
    ∧ reduceType false (.array (.integer .u8) [2, 0]) sampleSpan
        = .error (.invalidArrayDimensionSize sampleSpan) :=
  ⟨by simp, C4_array_flattening.2.2 false sampleSpan (.integer .u8) [2, 0] (by simp)⟩

/-- C2: `reduce_assign` on a compound assignment produces a plain `Assign`
statement whose value is the binary expression `lhs op rhs`, with `lhs` the
assignment target materialized through the same access chain and `rhs` the
original right-hand side; each compound operator maps to its corresponding
binary operator; and a statement whose operation is already `Assign` is
passed through unchanged. -/
theorem C2_compound_desugaring :
    (∀ (name : Option Identifier) (a : AssignStatement) (assignee : Assignee)
       (value left : Expression) (op' : BinaryOperation),
      a.operation ≠ .assign →
      compoundOperationConversion a.operation = .ok op' →
      canonicalizeAccesses name (.identifier assignee.identifier)
        assignee.accesses a.span = .ok left →
      reduceAssign name a assignee value
        = .ok { operation := .assign, assignee,
                value := .binary left value op' a.span, span := a.span })
    ∧ (∀ (name : Option Identifier) (a : AssignStatement) (assignee : Assignee)
         (value : Expression),
        a.operation = .assign →
        reduceAssign name a assignee value
          = .ok { operation := .assign, assignee, value, span := a.span })
    ∧ (compoundOperationConversion .add = .ok .add
      ∧ compoundOperationConversion .sub = .ok .sub
      ∧ compoundOperationConversion .mul = .ok .mul
      ∧ compoundOperationConversion .div = .ok .div
      ∧ compoundOperationConversion .pow = .ok .pow
      ∧ compoundOperationConversion .or = .ok .or
      ∧ compoundOperationConversion .and = .ok .and
      ∧ compoundOperationConversion .bitOr = .ok .bitOr
      ∧ compoundOperationConversion .bitAnd = .ok .bitAnd
      ∧ compoundOperationConversion .bitXor = .ok .bitXor
      ∧ compoundOperationConversion .shr = .ok .shr
      ∧ compoundOperationConversion .shrSigned = .ok .shrSigned
      ∧ compoundOperationConversion .shl = .ok .shl
      ∧ compoundOperationConversion .mod = .ok .mod) := by
  refine ⟨?_, ?_, by repeat (first | constructor | rfl)⟩
  · intro name a assignee value left op' hne hconv hacc
    simp [reduceAssign, hne, hacc, hconv]
  · intro name a assignee value he
    simp [reduceAssign, he]

/-- C2 witness: desugaring the concrete statement `x += y;` (no accesses)
produces `x = x + y;`. -/
theorem C2_compound_desugaring_witness :
    xPlusEqY.operation ≠ .assign
    ∧ compoundOperationConversion xPlusEqY.operation = .ok .add
    ∧ canonicalizeAccesses none (.identifier xIdent) [] xPlusEqY.span = .ok (.identifier xIdent)
    ∧ reduceAssign none xPlusEqY
        { identifier := xIdent, accesses := [], span := sampleSpan }
        (.identifier yIdent)
        = .ok { operation := .assign,
                assignee := { identifier := xIdent, accesses := [], span := sampleSpan },
                value := .binary (.identifier xIdent) (.identifier yIdent) .add sampleSpan,
                span := sampleSpan } :=
  ⟨by simp [xPlusEqY], rfl, rfl,
    C2_compound_desugaring.1 none xPlusEqY
      { identifier := xIdent, accesses := [], span := sampleSpan }
      (.identifier yIdent) (.identifier xIdent) .add
      (by simp [xPlusEqY]) rfl rfl⟩

/-- C3: the code at the failing input `circuit Foo { x: Self }`.  The full
canonicalization of this circuit succeeds and returns the circuit
*unchanged*: the member variable's declared type is still `Type::SelfType`
(`canonicalize_circuit_member` skips `CircuitVariable` members and
`reduce_type` passes `SelfType` through inside a circuit), contradicting
the claim that every `SelfType` inside circuit `Foo` is replaced by
`Identifier("Foo")` and that no `SelfType` survives canonicalization. -/
theorem C3_self_type_survives_on_circuit_variable :
    dirCircuit false fooCircuit = .ok fooCircuit
    ∧ fooCircuit.members = [.circuitVariable xIdent .selfType]
    ∧ (CircuitMember.circuitVariable xIdent Ty.selfType
        ≠ .circuitVariable xIdent (.identifier fooIdent)) := by
  refine ⟨rfl, rfl, fun h => ?_⟩
  cases h

end Canon

namespace Parser

/-! ## Claim theorems for the parser -/

/-- C10: an integer literal immediately followed (no whitespace) by an
integer-width suffix parses to `Value::Integer` spanning both tokens — in
particular `42u8`; a suffix separated by whitespace fails with the
dedicated unexpected-whitespace error over the gap; and a literal with no
admissible suffix following fails with the implicit-values-not-allowed
error. -/
theorem C10_literal_suffix_adjacency :
    (∀ (value : String) (span nextSpan : Span) (next : Token) (ity : IntegerType),
      tokenToIntType next = some ity →
      span.hi = nextSpan.lo →
      parsePrimaryInt value span next nextSpan
        = .ok (.integer ity value (Span.add span nextSpan)))
    ∧ (∀ (span nextSpan : Span),
        span.hi = nextSpan.lo →
        parsePrimaryInt "42" span .u8 nextSpan
          = .ok (.integer .u8 "42" (Span.add span nextSpan)))
    ∧ (∀ (value : String) (span nextSpan : Span) (next : Token),
        next.isIntType = true →
        span.hi ≠ nextSpan.lo →
        parsePrimaryInt value span next nextSpan
          = .error (.unexpectedWhitespace value next.str
              { lo := span.hi, hi := nextSpan.lo }))
    ∧ (∀ (value : String) (span nextSpan : Span) (next : Token),
        next.isIntType = false →
        parsePrimaryInt value span next nextSpan
          = .error (.implicitValuesNotAllowed value span)) := by
  refine ⟨?_, ?_, ?_, ?_⟩
  · intro value span nextSpan next ity hty hadj
    cases next <;> simp_all [parsePrimaryInt, Token.isIntType, tokenToIntType,
      assertNoWhitespace, Token.str]
  · intro span nextSpan hadj
    simp [parsePrimaryInt, Token.isIntType, tokenToIntType, assertNoWhitespace, hadj,
      Token.str]
  · intro value span nextSpan next hint hws
    cases next <;> simp_all [parsePrimaryInt, Token.isIntType, assertNoWhitespace,
      Token.str]
  · intro value span nextSpan next hint
    cases next <;> simp_all [parsePrimaryInt, Token.isIntType]

/-- C10 witness: `42u8` with adjacent spans parses; `42 u8` with a
one-byte gap fails with the unexpected-whitespace error; `42` followed by
a non-suffix token fails with implicit-values-not-allowed. -/
theorem C10_literal_suffix_adjacency_witness :
    ({ lo := 0, hi := 2 } : Span).hi = ({ lo := 2, hi := 4 } : Span).lo
    ∧ parsePrimaryInt "42" { lo := 0, hi := 2 } .u8 { lo := 2, hi := 4 }
        = .ok (.integer .u8 "42" { lo := 0, hi := 4 })
    ∧ ({ lo := 0, hi := 2 } : Span).hi ≠ ({ lo := 3, hi := 5 } : Span).lo
    ∧ parsePrimaryInt "42" { lo := 0, hi := 2 } .u8 { lo := 3, hi := 5 }
        = .error (.unexpectedWhitespace "42" "u8" { lo := 2, hi := 3 })
    ∧ parsePrimaryInt "42" { lo := 0, hi := 2 } .other { lo := 3, hi := 5 }
        = .error (.implicitValuesNotAllowed "42" { lo := 0, hi := 2 }) :=
  ⟨rfl,
   C10_literal_suffix_adjacency.2.1 { lo := 0, hi := 2 } { lo := 2, hi := 4 } rfl,
   by decide,
   C10_literal_suffix_adjacency.2.2.1 "42" { lo := 0, hi := 2 } { lo := 3, hi := 5 } .u8
     rfl (by decide),
   C10_literal_suffix_adjacency.2.2.2 "42" { lo := 0, hi := 2 } { lo := 3, hi := 5 } .other
     rfl⟩

/-- C5 counterexample: a parenthesized list of two expressions with no
trailing comma.  The claim says the parser forms a tuple-init expression
rather than an error; the code returns the `unexpected` parse error
("A tuple expression.").  The emitter-era AST this parser builds has no
tuple-init form at all. -/
theorem C5_two_element_list_is_error :
    tupleExpressionResult [.tuplePlaceholder 1, .tuplePlaceholder 2] false { lo := 0, hi := 6 }
      = .error (.unexpected "A tuple expression." "A valid expression." { lo := 0, hi := 6 }) :=
  rfl

/-- C5 (amended): a parenthesized comma-list of exactly one element with no
trailing comma collapses to the single inner expression; every other case
(zero, two or more elements, or a trailing comma) fails with the
`unexpected` parse error ("A tuple expression."), not a tuple-init
expression. -/
theorem C5_parenthesized_list_behavior :
    (∀ (e : Expression) (span : Span), tupleExpressionResult [e] false span = .ok e)
    ∧ (∀ (tuple : List Expression) (trailing : Bool) (span : Span),
        ¬(trailing = false ∧ tuple.length = 1) →
        tupleExpressionResult tuple trailing span
          = .error (.unexpected "A tuple expression." "A valid expression." span)) := by
  refine ⟨fun e span => rfl, fun tuple trailing span h => ?_⟩
  cases hb : (!trailing && tuple.length == 1) with
  | false => simp [tupleExpressionResult, hb]
  | true =>
    exfalso
    simp only [Bool.and_eq_true, Bool.not_eq_true', beq_iff_eq] at hb
    exact h ⟨hb.1, hb.2⟩

/-- C5 witness for the amended claim: the error case applied at a concrete
two-element list, and the collapse case at a singleton. -/
theorem C5_parenthesized_list_behavior_witness :
    tupleExpressionResult [.tuplePlaceholder 7] false { lo := 0, hi := 3 }
      = .ok (.tuplePlaceholder 7)
    ∧ ¬(false = false ∧ ([Expression.tuplePlaceholder 1, .tuplePlaceholder 2]).length = 1)
    ∧ tupleExpressionResult [.tuplePlaceholder 1, .tuplePlaceholder 2] true { lo := 0, hi := 7 }
      = .error (.unexpected "A tuple expression." "A valid expression." { lo := 0, hi := 7 }) :=
  ⟨C5_parenthesized_list_behavior.1 (.tuplePlaceholder 7) { lo := 0, hi := 3 },
   by simp,
   C5_parenthesized_list_behavior.2 [.tuplePlaceholder 1, .tuplePlaceholder 2] true
     { lo := 0, hi := 7 } (by simp)⟩

end Parser

namespace Ir

/-! ## Claim theorems for the IR emitter -/

/-- C6 counterexample: emitting a concrete ternary expression does not
produce a reported error value — it panics (`unimplemented!`).  The
emitter's Rust signatures (`VisitResult`, `Register`) carry no error
channel at all. -/
theorem C6_ternary_panics :
    emitExpr sampleState (.ternary (.identifier "a") (.identifier "b") (.identifier "c"))
      = .panicked "ternary not implemented in IR" := by
  simp [emitExpr]

/-- C6 (amended): for every ternary expression, call expression,
conditional statement, and iteration statement, IR emission fails by
panicking via `unimplemented!` (with the messages below), not by returning
a reported error value. -/
theorem C6_unsupported_constructs_panic :
    (∀ (st : EmitState) (c t f : Expression),
      emitExpr st (.ternary c t f) = .panicked "ternary not implemented in IR")
    ∧ (∀ (st : EmitState) (fn : Expression) (args : List Expression),
        emitExpr st (.call fn args) = .panicked "call not implemented in IR")
    ∧ (∀ (st : EmitState) (cond : Expression),
        visitConditional st cond = .panicked "conditional statements don't exits in IR")
    ∧ (∀ (st : EmitState) (start stop : Expression),
        visitIteration st start stop = .panicked "iteration statements don't exist in IR") :=
  ⟨fun st c t f => by simp [emitExpr],
   fun st fn args => by simp [emitExpr],
   fun _ _ => rfl,
   fun _ _ _ => rfl⟩

/-- C7 counterexample: with two live registers both tagged `x` (locator 0
pushed first, locator 5 pushed last), `find_register` returns locator 0 —
the earliest pushed, not the most recently pushed. -/
theorem C7_find_register_returns_first_pushed :
    findRegister
      { registers := [{ register := { locator := 0 }, symbol := some "x" },
                      { register := { locator := 5 }, symbol := some "x" }],
        buffer := [] } "x"
      = .ok { locator := 0 }
    ∧ ({ locator := 0 } : Register) ≠ { locator := 5 } :=
  ⟨rfl, by decide⟩

/-- C7 (amended): identifier lookup returns the *earliest* pushed live
register tagged with the name (first match in push order), regardless of
any later registers with the same tag. -/
theorem C7_find_register_earliest_match :
    ∀ (pre post : List Reg) (r : Reg) (name : String) (buffer : List Instruction),
      (∀ r' ∈ pre, r'.eqSymbol name = false) →
      r.eqSymbol name = true →
      findRegister { registers := pre ++ r :: post, buffer } name = .ok r.register := by
  intro pre post r name buffer hpre hr
  induction pre with
  | nil => simp [findRegister, List.find?, hr]
  | cons p pre ih =>
    have hp : p.eqSymbol name = false := hpre p (by simp)
    have hpre' : ∀ r' ∈ pre, r'.eqSymbol name = false := fun r' h' => hpre r' (by simp [h'])
    have := ih hpre'
    simpa [findRegister, List.find?, hp] using this

/-- C7 witness for the amended claim: with `a` (locator 0) pushed before
two `x`-tagged registers (locators 1 then 2), lookup of `x` returns
locator 1. -/
theorem C7_find_register_earliest_match_witness :
    (∀ r' ∈ [taggedReg 0 "a"], r'.eqSymbol "x" = false)
    ∧ (taggedReg 1 "x").eqSymbol "x" = true
    ∧ findRegister
        { registers := [taggedReg 0 "a"] ++ taggedReg 1 "x" :: [taggedReg 2 "x"],
          buffer := [] } "x"
      = .ok { locator := 1 } :=
  ⟨by decide, by decide,
   C7_find_register_earliest_match [taggedReg 0 "a"] [taggedReg 2 "x"]
     (taggedReg 1 "x") "x" [] (by decide) (by decide)⟩

/-- C8: emitting a binary expression appends exactly one instruction
(relative to the state after its operands), whose opcode is the direct
image of the source operator, with a fresh destination register whose id
is the live-register count at allocation time, pushed live and returned. -/
theorem C8_binary_emission :
    (∀ (st : EmitState) (left right : Expression) (op : BinaryOperation)
       (stl str : EmitState) (fr sr : Operand),
      emitExpr st left = .ok (stl, fr) →
      emitExpr stl right = .ok (str, sr) →
      emitBinary st left right op
        = .ok
          ({ registers := str.registers
                ++ [{ register := { locator := str.registers.length }, symbol := none }],
             buffer := str.buffer
                ++ [{ opcode := binaryOpcode op, first := fr, second := some sr,
                      destination := { locator := str.registers.length } }] },
           { locator := str.registers.length }))
    ∧ (binaryOpcode .add = .add ∧ binaryOpcode .sub = .sub ∧ binaryOpcode .mul = .mul
      ∧ binaryOpcode .div = .div ∧ binaryOpcode .pow = .pow ∧ binaryOpcode .or = .or
      ∧ binaryOpcode .and = .and ∧ binaryOpcode .eq = .equal ∧ binaryOpcode .ne = .notEqual
      ∧ binaryOpcode .lt = .lessThan ∧ binaryOpcode .le = .lessThanOrEqual
      ∧ binaryOpcode .gt = .greaterThan ∧ binaryOpcode .ge = .greaterThanOrEqual) := by
  refine ⟨?_, by repeat (first | constructor | rfl)⟩
  intro st left right op stl str fr sr hl hr
  simp [emitBinary, hl, hr, spawnReg, emit]

/-- C8 witness: emitting `a + b` in `sampleState` appends the single `Add`
instruction with destination register 3 (the live-register count). -/
theorem C8_binary_emission_witness :
    emitExpr sampleState (.identifier "a") = .ok (sampleState, .register { locator := 0 })
    ∧ emitExpr sampleState (.identifier "b") = .ok (sampleState, .register { locator := 1 })
    ∧ emitBinary sampleState (.identifier "a") (.identifier "b") .add
        = .ok
          ({ registers := sampleState.registers
                ++ [{ register := { locator := 3 }, symbol := none }],
             buffer := [{ opcode := .add, first := .register { locator := 0 },
                          second := some (.register { locator := 1 }),
                          destination := { locator := 3 } }] },
           { locator := 3 }) := by
  have ha : emitExpr sampleState (.identifier "a")
      = .ok (sampleState, .register { locator := 0 }) := by
    simp [emitExpr, findRegister, sampleState, taggedReg, Reg.eqSymbol, List.find?]
  have hb : emitExpr sampleState (.identifier "b")
      = .ok (sampleState, .register { locator := 1 }) := by
    simp [emitExpr, findRegister, sampleState, taggedReg, Reg.eqSymbol, List.find?]
  refine ⟨ha, hb, ?_⟩
  have := C8_binary_emission.1 sampleState (.identifier "a") (.identifier "b") .add
    sampleState sampleState (.register { locator := 0 }) (.register { locator := 1 })
    ha hb
  simpa [sampleState, taggedReg, binaryOpcode] using this

/-- C9 counterexample: after the expression statement `(a + b) * c;` in a
state binding `a`, `b`, `c` to registers 0, 1, 2, the live-register list is
*not* restored: only the outer `Mul` destination (register 4) is popped,
and the inner `Add` destination (register 3) is still live, so the list has
grown from 3 to 4 entries. -/
theorem C9_expression_statement_leaks_register :
    visitExpressionStatement sampleState exprABtimesC
      = .ok
        ({ registers := sampleState.registers
            ++ [{ register := { locator := 3 }, symbol := none }],
           buffer := [{ opcode := .add, first := .register { locator := 0 },
                        second := some (.register { locator := 1 }),
                        destination := { locator := 3 } },
                      { opcode := .mul, first := .register { locator := 3 },
                        second := some (.register { locator := 2 }),
                        destination := { locator := 4 } }] } : EmitState)
    ∧ (sampleState.registers
        ++ ([{ register := { locator := 3 }, symbol := none }] : List Reg)).length
      ≠ sampleState.registers.length := by
  refine ⟨?_, by decide⟩
  simp [visitExpressionStatement, emitExpr, emitBinary, findRegister, sampleState,
    taggedReg, Reg.eqSymbol, List.find?, spawnReg, emit, exprABtimesC, dropReg,
    binaryOpcode]

/-- C9 (amended): an expression statement releases exactly one register —
the most recently allocated one — leaving every other register allocated
while emitting the expression still live. -/
theorem C9_expression_statement_pops_one :
    ∀ (st st1 : EmitState) (e : Expression) (o : Operand),
      emitExpr st e = .ok (st1, o) →
      st1.registers ≠ [] →
      visitExpressionStatement st e = .ok { st1 with registers := st1.registers.dropLast } := by
  intro st st1 e o he hne
  cases hl : st1.registers.getLast? with
  | none => exact absurd (List.getLast?_eq_none_iff.mp hl) hne
  | some r => simp [visitExpressionStatement, he, dropReg, hl]

/-- C9 witness for the amended claim: applied at `(a + b) * c;` in
`sampleState` — registers 3 (inner `Add` destination) and 4 (outer `Mul`
destination) are live after the expression, and exactly register 4 is
popped. -/
theorem C9_expression_statement_pops_one_witness :
    emitExpr sampleState exprABtimesC
      = .ok
        ({ registers := sampleState.registers
              ++ [{ register := { locator := 3 }, symbol := none },
                  { register := { locator := 4 }, symbol := none }],
           buffer := [{ opcode := .add, first := .register { locator := 0 },
                        second := some (.register { locator := 1 }),
                        destination := { locator := 3 } },
                      { opcode := .mul, first := .register { locator := 3 },
                        second := some (.register { locator := 2 }),
                        destination := { locator := 4 } }] },
         .register { locator := 4 })
    ∧ (sampleState.registers
        ++ ([{ register := { locator := 3 }, symbol := none },
              { register := { locator := 4 }, symbol := none }] : List Reg)) ≠ []
    ∧ visitExpressionStatement sampleState exprABtimesC
      = .ok
        ({ registers := (sampleState.registers
              ++ ([{ register := { locator := 3 }, symbol := none },
                   { register := { locator := 4 }, symbol := none }] : List Reg)).dropLast,
           buffer := [{ opcode := .add, first := .register { locator := 0 },
                        second := some (.register { locator := 1 }),
                        destination := { locator := 3 } },
                      { opcode := .mul, first := .register { locator := 3 },
                        second := some (.register { locator := 2 }),
                        destination := { locator := 4 } }] } : EmitState) := by
  have hemit : emitExpr sampleState exprABtimesC
      = .ok
        ({ registers := sampleState.registers
              ++ [{ register := { locator := 3 }, symbol := none },
                  { register := { locator := 4 }, symbol := none }],
           buffer := [{ opcode := .add, first := .register { locator := 0 },
                        second := some (.register { locator := 1 }),
                        destination := { locator := 3 } },
                      { opcode := .mul, first := .register { locator := 3 },
                        second := some (.register { locator := 2 }),
                        destination := { locator := 4 } }] },
         .register { locator := 4 }) := by
    simp [emitExpr, emitBinary, findRegister, sampleState, taggedReg, Reg.eqSymbol,
      List.find?, spawnReg, emit, exprABtimesC, binaryOpcode]
  refine ⟨hemit, by simp [sampleState], ?_⟩
  have := C9_expression_statement_pops_one sampleState _ exprABtimesC
    (.register { locator := 4 }) hemit (by simp [sampleState])
  simpa [sampleState, taggedReg] using this

end Ir
end Leo
